import Mathlib

/-! Pintos virtual memory: swap store, frame table, supplemental page table.

A shallow embedding of `src/vm/swap.c`, `src/vm/frame.c` and `src/vm/page.c`.

* Pointers are `Option Nat` (`none` is `NULL`); a descriptor or frame entry
  lives in a heap indexed by its address.
* Every kernel routine is a function from the machine state to
  `Except Fault _`: a `Fault` is a kernel panic, a failed `ASSERT`, a
  dereference of a pointer that does not point at a live record, or a lock
  acquisition that would block forever in a single execution context.
* Machine integers are `Nat` or `Int` with the 32-bit conversions written out.
-/

namespace Pintos

/-! ## Constants -/

/-- Modelled from the spec: `threads/vaddr.h` is not among the sources. A page
is a fixed-size unit of memory; Pintos fixes it at 4096 bytes. -/
def PGSIZE : Nat := 4096

/-- Modelled from the spec: `devices/block.h` is not among the sources. The
swap area is sector-granular; a Pintos block sector is 512 bytes. -/
def BLOCK_SECTOR_SIZE : Nat := 512

/-- The macro `SECTORS_PER_PAGE` of swap.c: `PGSIZE / BLOCK_SECTOR_SIZE`. -/
def SECTORS_PER_PAGE : Nat := PGSIZE / BLOCK_SECTOR_SIZE

/-- Modelled from the spec: `threads/vaddr.h` is not among the sources. The
user address range ends at `PHYS_BASE`, 3 GiB in Pintos. -/
def PHYS_BASE : Nat := 0xc0000000

/-- The macro `USER_STACK` of page.c: max user stack size, 8 MB. -/
def USER_STACK : Nat := 8 * 1024 * 1024

/-- The macro `HAND_SPREAD` of frame.c. -/
def HAND_SPREAD : Nat := 4

/-- Two to the width of a machine word (pointers, `size_t`, `int`). -/
def WORD : Nat := 2 ^ 32

/-- Conversion of an unsigned 32-bit value to a C `int`. -/
def to_int (n : Nat) : Int :=
  if n % WORD < 2 ^ 31 then ((n % WORD : Nat) : Int) else ((n % WORD : Nat) : Int) - (WORD : Int)

/-- Conversion of a C `int` to an unsigned 32-bit value. -/
def to_unsigned (i : Int) : Nat := (i % (WORD : Int)).toNat

/-! ## Data model -/

/-- Ways in which a kernel routine does not return. -/
inductive Fault where
  | panic        -- an explicit PANIC
  | assertion    -- a failed ASSERT
  | bad_pointer  -- dereference of NULL or of a pointer to no live record
  | blocked      -- lock held by another context: the caller never proceeds
  | diverged     -- the loop budget of the model ran out
deriving DecidableEq, Repr

/-- The `struct page_table_entry` of page.h (hash and list elements are
represented by the tables that hold the descriptor). -/
structure page_table_entry where
  thread : Nat
  upage : Nat
  writable : Bool
  accessed : Bool
  dirty : Bool
  swapped : Bool
  sector : Int
  file : Option Nat
  file_ofs : Nat
  file_bytes : Nat
  mapped : Bool
  fte : Option Nat
deriving DecidableEq, Repr

/-- The `struct frame_table_entry` of frame.h; `lock` is the holder of the
per-entry lock, if any. -/
structure frame_table_entry where
  kpage : Nat
  thread : Nat
  pte : Nat
  lock : Option Nat
deriving DecidableEq, Repr

/-- One present mapping of a page directory. -/
structure pd_entry where
  kpage : Nat
  writable : Bool
  dirty : Bool
deriving DecidableEq, Repr

/-- The machine state the three modules read and write. -/
structure State where
  /-- the running execution context, `thread_current ()` -/
  current : Nat
  /-- heap of page descriptors -/
  ptes : Nat → Option page_table_entry
  /-- heap of frame table entries -/
  ftes : Nat → Option frame_table_entry
  /-- next address `malloc` hands out -/
  next_ptr : Nat
  /-- `t->page_table` of every context: the descriptors it holds -/
  page_table : Nat → List Nat
  /-- `t->esp` of every context -/
  esp : Nat → Nat
  /-- the global `frame_table`, in iteration order -/
  frame_table : List Nat
  /-- holder of `frame_table_lock` -/
  frame_table_lock : Option Nat
  /-- the function-local `static int frame_table_size` of `frame_victim` -/
  frame_table_size : Int
  /-- the user pool of the physical allocator: free frames -/
  free_frames : List Nat
  /-- kernel-addressable memory, byte by byte -/
  mem : Nat → UInt8
  /-- `t->pagedir` of every context -/
  pagedir : Nat → Nat → Option pd_entry
  /-- `swap_map`: `false` is swap space available -/
  swap_map : List Bool
  /-- `swap_block`: byte `off` of sector `sec` -/
  swap_block : Nat → Nat → UInt8
  /-- length of every file -/
  file_len : Nat → Nat
  /-- content of every file -/
  file_data : Nat → Nat → UInt8

/-- Outcomes of the fallible collaborators that the state does not decide. -/
structure Env where
  /-- `malloc` of a page descriptor succeeds -/
  malloc_pte_ok : Bool
  /-- `malloc` of a frame table entry succeeds -/
  malloc_fte_ok : Bool
  /-- `install_page` can allocate what the page directory needs -/
  install_ok : Bool
  /-- position in iteration order at which the frame hash table files a new
  entry -/
  bucket_pos : Nat
deriving DecidableEq, Repr

/-! ## Collaborators outside the three modules -/

/-- The macro `ASSERT` of the kernel's debug.h. -/
def ASSERT (c : Prop) [Decidable c] : Except Fault Unit :=
  if c then .ok () else .error .assertion

/-- The macro `PANIC` of the kernel's debug.h. -/
def PANIC {α : Type} : Except Fault α := .error .panic

/-- A pointer that is about to be dereferenced: `NULL` faults. -/
def non_null (ptr : Option Nat) : Except Fault Nat :=
  match ptr with
  | some a => .ok a
  | none => .error .bad_pointer

/-- Dereference of a descriptor pointer. -/
def deref_pte (s : State) (p : Nat) : Except Fault page_table_entry :=
  match s.ptes p with
  | some e => .ok e
  | none => .error .bad_pointer

/-- Dereference of a frame entry pointer. -/
def deref_fte (s : State) (f : Nat) : Except Fault frame_table_entry :=
  match s.ftes f with
  | some fe => .ok fe
  | none => .error .bad_pointer

/-- Store through a descriptor pointer. -/
def set_pte (s : State) (p : Nat) (e : page_table_entry) : State :=
  { s with ptes := fun q => if q = p then some e else s.ptes q }

/-- Store through a frame entry pointer. -/
def set_fte (s : State) (f : Nat) (fe : frame_table_entry) : State :=
  { s with ftes := fun g => if g = f then some fe else s.ftes g }

/-- Modelled from the spec: `threads/synch.c` is not among the sources.
Acquiring an exclusive lock: re-acquisition by the holder fails an assertion, a
lock held by another context blocks. -/
def lock_acquire (holder : Option Nat) (cur : Nat) : Except Fault (Option Nat) :=
  match holder with
  | none => .ok (some cur)
  | some h => if h = cur then .error .assertion else .error .blocked

/-- Modelled from the spec: `threads/synch.c` is not among the sources.
Releasing an exclusive lock, which the caller must hold. -/
def lock_release (holder : Option Nat) (cur : Nat) : Except Fault (Option Nat) :=
  if holder = some cur then .ok none else .error .assertion

/-- Modelled from the spec: `lib/kernel/bitmap.c` is not among the sources.
Index of the first free (`false`) slot of an occupancy table. -/
def bitmap_scan : List Bool → Option Nat
  | [] => none
  | b :: bs => if b = false then some 0 else (bitmap_scan bs).map (· + 1)

/-- Modelled from the spec: `lib/kernel/bitmap.c` is not among the sources.
"Scans for a free slot, marks it occupied, returns its index", as one
indivisible step; `none` is `BITMAP_ERROR`. -/
def bitmap_scan_and_flip (b : List Bool) : Option (Nat × List Bool) :=
  match bitmap_scan b with
  | none => none
  | some i => some (i, b.set i true)

/-- Modelled from the spec: `lib/kernel/bitmap.c` is not among the sources.
Sets one bit; the index must lie inside the table. -/
def bitmap_set (b : List Bool) (idx : Nat) (v : Bool) : Except Fault (List Bool) :=
  if idx < b.length then .ok (b.set idx v) else .error .assertion

/-- Modelled from the spec: `devices/block.c` is not among the sources.
Sector-granular write: the sector receives the `BLOCK_SECTOR_SIZE` bytes at
`buffer`. -/
def block_write (s : State) (sector : Nat) (buffer : Nat) : State :=
  { s with swap_block := fun sec off =>
      if sec = sector ∧ off < BLOCK_SECTOR_SIZE then s.mem (buffer + off)
      else s.swap_block sec off }

/-- Modelled from the spec: `devices/block.c` is not among the sources.
Sector-granular read: the `BLOCK_SECTOR_SIZE` bytes at `buffer` receive the
sector. -/
def block_read (s : State) (sector : Nat) (buffer : Nat) : State :=
  { s with mem := fun a =>
      if buffer ≤ a ∧ a < buffer + BLOCK_SECTOR_SIZE then s.swap_block sector (a - buffer)
      else s.mem a }

/-- The C library `memset` over kernel memory. -/
def memset (s : State) (dst : Nat) (c : UInt8) (n : Nat) : State :=
  { s with mem := fun a => if dst ≤ a ∧ a < dst + n then c else s.mem a }

/-! ## swap.c -/

/-- The loop `for (i = 0; i < SECTORS_PER_PAGE; i++) block_read (...)` of
`swap_read`: `sector` is the `int` field of the descriptor, converted to a
sector number at each call. -/
def swap_read_loop (sector : Int) (kpage : Nat) (s : State) : State :=
  (List.range SECTORS_PER_PAGE).foldl
    (fun st (i : Nat) => block_read st (to_unsigned (sector + (i : Int)))
      (kpage + i * BLOCK_SECTOR_SIZE)) s

/-- The loop `for (i = 0; i < SECTORS_PER_PAGE; i++) block_write (...)` of
`swap_write`; `sector` is a `size_t`. -/
def swap_write_loop (sector : Nat) (kpage : Nat) (s : State) : State :=
  (List.range SECTORS_PER_PAGE).foldl
    (fun st (i : Nat) => block_write st ((sector + i) % WORD)
      (kpage + i * BLOCK_SECTOR_SIZE)) s

/-- The function `swap_read` of swap.c. -/
def swap_read (fte : Option Nat) (s : State) : Except Fault State := do
  ASSERT (fte ≠ none)
  let f ← non_null fte
  let fe ← deref_fte s f
  ASSERT (fe.lock = some s.current)
  let e ← deref_pte s fe.pte
  ASSERT (e.sector ≠ -1)
  let s1 := swap_read_loop e.sector fe.kpage s
  let page : Int := Int.tdiv e.sector (SECTORS_PER_PAGE : Int)
  let map ← bitmap_set s1.swap_map (to_unsigned page) false
  let s2 := { s1 with swap_map := map }
  pure (set_pte s2 fe.pte { e with swapped := false, sector := -1 })

/-- The function `swap_write` of swap.c. -/
def swap_write (fte : Option Nat) (s : State) : Except Fault State := do
  ASSERT (fte ≠ none)
  let f ← non_null fte
  let fe ← deref_fte s f
  ASSERT (fe.lock = some s.current)
  match bitmap_scan_and_flip s.swap_map with
  | none => PANIC
  | some (page, map) =>
    let s1 := { s with swap_map := map }
    let sector : Nat := (page * SECTORS_PER_PAGE) % WORD
    let s2 := swap_write_loop sector fe.kpage s1
    let e ← deref_pte s2 fe.pte
    pure (set_pte s2 fe.pte { e with swapped := true, sector := to_int sector })

/-! ## Collaborators of frame.c and page.c -/

/-- Modelled from the spec: `threads/palloc.c` is not among the sources.
"Get a zeroed physical frame": a frame of the user pool, zero-filled, or `NULL`
when the pool is empty. -/
def palloc_get_page (s : State) : Option Nat × State :=
  match s.free_frames with
  | [] => (none, s)
  | k :: rest => (some k, memset { s with free_frames := rest } k 0 PGSIZE)

/-- Modelled from the spec: `threads/palloc.c` is not among the sources.
"Release a physical frame": the frame returns to the user pool. -/
def palloc_free_page (s : State) (kpage : Nat) : State :=
  { s with free_frames := kpage :: s.free_frames }

/-- Modelled from the spec: `threads/malloc.c` is not among the sources. A
fresh record address, or `NULL` when the allocation fails. -/
def malloc (ok : Bool) (s : State) : Option Nat × State :=
  if ok then (some s.next_ptr, { s with next_ptr := s.next_ptr + 1 }) else (none, s)

/-- Modelled from the spec: `threads/malloc.c` is not among the sources.
Releases a frame table entry record. -/
def free_fte (s : State) (f : Nat) : State :=
  { s with ftes := fun g => if g = f then none else s.ftes g }

/-- Modelled from the spec: `threads/malloc.c` is not among the sources.
Releases a page descriptor record. -/
def free_pte (s : State) (p : Nat) : State :=
  { s with ptes := fun q => if q = p then none else s.ptes q }

/-- Modelled from the spec: `threads/vaddr.h` is not among the sources. Start
of the page an address lies in. -/
def pg_round_down (vaddr : Nat) : Nat := vaddr - vaddr % PGSIZE

/-- Modelled from the spec: `threads/vaddr.h` is not among the sources. The
user address range lies below `PHYS_BASE`. -/
def is_user_vaddr (vaddr : Nat) : Bool := decide (vaddr < PHYS_BASE)

/-- Modelled from the spec: `userprog/pagedir.c` is not among the sources.
`is_dirty(vaddr)`: the hardware-tracked dirty bit of a mapped page. -/
def pagedir_is_dirty (s : State) (t : Nat) (upage : Nat) : Bool :=
  match s.pagedir t upage with
  | some m => m.dirty
  | none => false

/-- Modelled from the spec: `userprog/pagedir.c` is not among the sources.
`invalidate_mapping(vaddr)`: later accesses to the page fault. -/
def pagedir_clear_page (s : State) (t : Nat) (upage : Nat) : State :=
  { s with pagedir := fun t1 u => if t1 = t ∧ u = upage then none else s.pagedir t1 u }

/-- Modelled from the spec: `userprog/process.c` is not among the sources.
`install_mapping(vaddr, frame, writable) -> success` in the page directory of
the running context: fails when the page is already mapped or the page
directory cannot allocate. -/
def install_page (ok : Bool) (upage kpage : Nat) (writable : Bool) (s : State) : Bool × State :=
  match s.pagedir s.current upage with
  | some _ => (false, s)
  | none =>
    if ok then
      (true, { s with pagedir := fun t u =>
        if t = s.current ∧ u = upage then some ⟨kpage, writable, false⟩ else s.pagedir t u })
    else (false, s)

/-- Modelled from the spec: `filesys/file.c` is not among the sources.
`read_at(file, buffer, length, offset) -> bytes_read`: reads up to the end of
the file. -/
def file_read_at (s : State) (file buffer : Nat) (size : Int) (ofs : Nat) : Int × State :=
  let n := min size.toNat (s.file_len file - ofs)
  ((n : Int), { s with mem := fun a =>
      if buffer ≤ a ∧ a < buffer + n then s.file_data file (ofs + (a - buffer)) else s.mem a })

/-- Modelled from the spec: `filesys/file.c` is not among the sources.
`write_at(file, buffer, length, offset)`: writes up to the end of the file. -/
def file_write_at (s : State) (file buffer : Nat) (size : Int) (ofs : Nat) : State :=
  let n := min size.toNat (s.file_len file - ofs)
  { s with file_data := fun f i =>
      if f = file ∧ ofs ≤ i ∧ i < ofs + n then s.mem (buffer + (i - ofs)) else s.file_data f i }

/-- Key of a frame table entry in the frame hash table (`frame_less` compares
`kpage`). -/
def frame_key (s : State) (f : Nat) : Option Nat := (s.ftes f).map (fun fe => fe.kpage)

/-- Modelled from the spec: `lib/kernel/hash.c` is not among the sources.
`hash_insert` into `frame_table`: an entry with an equal key is returned and
nothing is inserted; otherwise the new entry is filed and `NULL` returned. -/
def hash_insert_frame (pos : Nat) (f : Nat) (s : State) : Option Nat × State :=
  match s.frame_table.find? (fun g => frame_key s g == frame_key s f) with
  | some old => (some old, s)
  | none => (none, { s with frame_table := s.frame_table.take pos ++ f :: s.frame_table.drop pos })

/-- Modelled from the spec: `lib/kernel/hash.c` is not among the sources.
`hash_delete` from `frame_table`: removes the entry whose key equals that of
`f`, if there is one. -/
def hash_delete_frame (f : Nat) (s : State) : State :=
  { s with frame_table := s.frame_table.eraseP (fun g => frame_key s g == frame_key s f) }

/-- Modelled from the spec: `lib/kernel/hash.c` is not among the sources.
`hash_find` in the page table of context `t` (`page_less` compares `upage`). -/
def hash_find_page (s : State) (t : Nat) (upage : Nat) : Option Nat :=
  (s.page_table t).find? (fun p => (s.ptes p).map (fun e => e.upage) == some upage)

/-- Modelled from the spec: `lib/kernel/hash.c` is not among the sources.
`hash_insert` into the page table of context `t`. -/
def hash_insert_page (t : Nat) (p : Nat) (upage : Nat) (s : State) : Option Nat × State :=
  match hash_find_page s t upage with
  | some old => (some old, s)
  | none => (none, { s with page_table := fun t1 =>
      if t1 = t then p :: s.page_table t else s.page_table t1 })

/-- Where a `struct hash_iterator` stands: on the list head it is given by
`hash_first`, on the `i`-th element in iteration order, or at `NULL` past the
last element. -/
inductive hash_iterator where
  | head
  | elem (i : Nat)
  | null
deriving DecidableEq, Repr

/-- Modelled from the spec: `lib/kernel/hash.c` is not among the sources.
`hash_next`: advances the cursor; past the last element it becomes `NULL`, and it
cannot advance from `NULL`. -/
def hash_next (n : Nat) : hash_iterator → Except Fault hash_iterator
  | .head => .ok (if 0 < n then .elem 0 else .null)
  | .elem i => .ok (if i + 1 < n then .elem (i + 1) else .null)
  | .null => .error .bad_pointer

/-- The loop `for (i = 0; i < cnt; i++) hash_next (&it);`. -/
def hash_next_times (n : Nat) : Nat → hash_iterator → Except Fault hash_iterator
  | 0, it => .ok it
  | cnt + 1, it => do
    let it1 ← hash_next n it
    hash_next_times n cnt it1

/-- What a `struct frame_table_entry *` computed by `hash_entry` points at:
`NULL`, a frame table entry, or no entry at all. -/
inductive fte_ref where
  | null
  | entry (f : Nat)
  | wild
deriving DecidableEq, Repr

/-- The macro `hash_entry (hash_cur (&it), struct frame_table_entry,
hash_elem)`: the member `hash_elem` is not the first of the struct, so neither
the list head nor `NULL` converts to `NULL`. -/
def hash_entry (table : List Nat) : hash_iterator → fte_ref
  | .elem i =>
    match table[i]? with
    | some f => .entry f
    | none => .wild
  | .head => .wild
  | .null => .wild

/-- The frame table entry a `struct frame_table_entry *` of `frame_victim`
points at; only a pointer to an entry can be dereferenced. -/
def deref_ref (s : State) : fte_ref → Except Fault frame_table_entry
  | .entry f => deref_fte s f
  | _ => .error .bad_pointer

/-! ## frame.c -/

/-- The function `frame_acquire` of frame.c. -/
def frame_acquire (fte : Option Nat) (s : State) : Except Fault State := do
  let f ← non_null fte
  let fe ← deref_fte s f
  let l ← lock_acquire fe.lock s.current
  pure (set_fte s f { fe with lock := l })

/-- The function `frame_release` of frame.c. -/
def frame_release (fte : Option Nat) (s : State) : Except Fault State := do
  let f ← non_null fte
  let fe ← deref_fte s f
  let l ← lock_release fe.lock s.current
  pure (set_fte s f { fe with lock := l })

/-- The function `frame_free` of frame.c. -/
def frame_free (fte : Option Nat) (s : State) : Except Fault State := do
  let f ← non_null fte
  let fe ← deref_fte s f
  ASSERT (fe.lock = some s.current)
  let l ← lock_acquire s.frame_table_lock s.current
  let s1 := { s with frame_table_lock := l }
  let s2 := hash_delete_frame f s1
  let s3 := palloc_free_page s2 fe.kpage
  let s4 := free_fte s3 f
  let l1 ← lock_release s4.frame_table_lock s4.current
  pure { s4 with frame_table_lock := l1 }

/-- The `while (!fte_victim)` loop of `frame_victim`; `fuel` bounds the number
of iterations. -/
def frame_victim_loop : Nat → hash_iterator → fte_ref → fte_ref → State →
    Except Fault (fte_ref × State)
  | 0, _, _, _, _ => .error .diverged
  | fuel + 1, it, fte_1, fte_2, s => do
    let fe1 ← deref_ref s fte_1
    let e1 ← deref_pte s fe1.pte
    let s1 := if e1.accessed then set_pte s fe1.pte { e1 with accessed := false } else s
    let fe2 ← deref_ref s1 fte_2
    let e2 ← deref_pte s1 fe2.pte
    let fte_victim := if !e2.accessed then fte_2 else fte_ref.null
    let it1 ← hash_next s1.frame_table.length it
    let it2 := if it1 = hash_iterator.null then hash_iterator.head else it1
    let fte_2a := fte_1
    let fte_1a := hash_entry s1.frame_table it2
    if fte_victim = fte_ref.null then frame_victim_loop fuel it2 fte_1a fte_2a s1
    else pure (fte_victim, s1)

/-- The function `frame_victim` of frame.c; returns `fte_victim->pte`. -/
def frame_victim (fuel : Nat) (s : State) : Except Fault (Nat × State) := do
  let l ← lock_acquire s.frame_table_lock s.current
  let s1 := { s with frame_table_lock := l }
  let s2 := if s1.frame_table_size = -1
    then { s1 with frame_table_size := to_int s1.frame_table.length } else s1
  let it ← hash_next s2.frame_table.length hash_iterator.head
  let fte_2 := hash_entry s2.frame_table it
  let it1 ← hash_next_times s2.frame_table.length
    (Int.tdiv s2.frame_table_size (HAND_SPREAD : Int)).toNat it
  let fte_1 := hash_entry s2.frame_table it1
  if fte_1 = fte_ref.null ∨ fte_2 = fte_ref.null then PANIC
  else do
    let r ← frame_victim_loop fuel it1 fte_1 fte_2 s2
    let l1 ← lock_release r.2.frame_table_lock r.2.current
    let s4 := { r.2 with frame_table_lock := l1 }
    let fev ← deref_ref s4 r.1
    pure (fev.pte, s4)


/-- The `while (!fte_victim)` loop of `frame_victim` once more, also returning
where the two hands stand at the start of every iteration it runs: `fte_1`
(leading) and `fte_2` (trailing). -/
def frame_victim_loop_hands : Nat → hash_iterator → fte_ref → fte_ref → State →
    Except Fault (List (fte_ref × fte_ref) × fte_ref × State)
  | 0, _, _, _, _ => .error .diverged
  | fuel + 1, it, fte_1, fte_2, s => do
    let fe1 ← deref_ref s fte_1
    let e1 ← deref_pte s fe1.pte
    let s1 := if e1.accessed then set_pte s fe1.pte { e1 with accessed := false } else s
    let fe2 ← deref_ref s1 fte_2
    let e2 ← deref_pte s1 fe2.pte
    let fte_victim := if !e2.accessed then fte_2 else fte_ref.null
    let it1 ← hash_next s1.frame_table.length it
    let it2 := if it1 = hash_iterator.null then hash_iterator.head else it1
    let fte_2a := fte_1
    let fte_1a := hash_entry s1.frame_table it2
    if fte_victim = fte_ref.null then do
      let r ← frame_victim_loop_hands fuel it2 fte_1a fte_2a s1
      pure ((fte_1, fte_2) :: r.1, r.2)
    else pure ([(fte_1, fte_2)], fte_victim, s1)

/-- The function `frame_victim` of frame.c once more, returning where the two
hands stood at the start of every iteration of its loop. -/
def frame_victim_hands (fuel : Nat) (s : State) : Except Fault (List (fte_ref × fte_ref)) := do
  let l ← lock_acquire s.frame_table_lock s.current
  let s1 := { s with frame_table_lock := l }
  let s2 := if s1.frame_table_size = -1
    then { s1 with frame_table_size := to_int s1.frame_table.length } else s1
  let it ← hash_next s2.frame_table.length hash_iterator.head
  let fte_2 := hash_entry s2.frame_table it
  let it1 ← hash_next_times s2.frame_table.length
    (Int.tdiv s2.frame_table_size (HAND_SPREAD : Int)).toNat it
  let fte_1 := hash_entry s2.frame_table it1
  if fte_1 = fte_ref.null ∨ fte_2 = fte_ref.null then PANIC
  else do
    let r ← frame_victim_loop_hands fuel it1 fte_1 fte_2 s2
    pure r.1

/-! ## page.c, eviction -/

/-- The function `page_write` of page.c. -/
def page_write (pte : Nat) (s : State) : Except Fault State := do
  let e ← deref_pte s pte
  ASSERT (e.fte ≠ none)
  let f ← non_null e.fte
  let fe ← deref_fte s f
  ASSERT (fe.lock = some s.current)
  match e.mapped, e.file with
  | true, some file =>
    let s1 := file_write_at s file fe.kpage (to_int e.file_bytes) e.file_ofs
    pure (set_pte s1 pte { e with mapped := false })
  | _, _ => swap_write e.fte s

/-- The first statement of `page_evict`: locate and lock the frame. Returns
the descriptor the rest of the function works on. -/
def page_evict_locate (fuel : Nat) (pte : Option Nat) (s : State) : Except Fault (Nat × State) :=
  match pte with
  | none => do
    let r ← frame_victim fuel s
    let ev ← deref_pte r.2 r.1
    let sa ← frame_acquire ev.fte r.2
    pure (r.1, sa)
  | some p => do
    let e ← deref_pte s p
    if e.fte ≠ none then do
      let sa ← frame_acquire e.fte s
      pure (p, sa)
    else pure (p, s)

/-- The statements of `page_evict` that follow the first, on descriptor
`p`. -/
def page_evict_body (p : Nat) (s1 : State) : Except Fault State := do
  let e1 ← deref_pte s1 p
  let s2 := if !e1.dirty
    then set_pte s1 p { e1 with dirty := pagedir_is_dirty s1 e1.thread e1.upage } else s1
  let e2 ← deref_pte s2 p
  let s3 ← (if e2.dirty ∧ e2.fte ≠ none then page_write p s2 else pure s2)
  let e3 ← deref_pte s3 p
  let s4 := pagedir_clear_page s3 e3.thread e3.upage
  let s5 ← (if e3.fte ≠ none then frame_free e3.fte s4 else pure s4)
  let e5 ← deref_pte s5 p
  pure (set_pte s5 p { e5 with fte := none })

/-- The function `page_evict` of page.c. -/
def page_evict (fuel : Nat) (pte : Option Nat) (s : State) : Except Fault State := do
  let r ← page_evict_locate fuel pte s
  page_evict_body r.1 r.2

/-- The first statement of `frame_alloc`: a frame from the allocator, after one
eviction if none is free. -/
def frame_alloc_page (fuel : Nat) (s : State) : Except Fault (Nat × State) :=
  match palloc_get_page s with
  | (some k, sk) => pure (k, sk)
  | (none, sk) => do
    let se ← page_evict fuel none sk
    match palloc_get_page se with
    | (some k, sr) => pure (k, sr)
    | (none, _) => PANIC

/-- The statements of `frame_alloc` that follow the first, with the frame
`kpage` in hand. -/
def frame_alloc_entry (env : Env) (pte : Nat) (kpage : Nat) (s1 : State) :
    Except Fault (Option Nat × State) :=
  match malloc env.malloc_fte_ok s1 with
  | (none, s2) => pure (none, s2)
  | (some f, s2) => do
    let s3 := set_fte s2 f ⟨kpage, s2.current, pte, none⟩
    let l ← lock_acquire s3.frame_table_lock s3.current
    let s4 := { s3 with frame_table_lock := l }
    match hash_insert_frame env.bucket_pos f s4 with
    | (some _, s5) => do
      let s6 := free_fte s5 f
      let e ← deref_pte s6 pte
      let s7 := set_pte s6 pte { e with fte := none }
      let s8 := palloc_free_page s7 kpage
      let l1 ← lock_release s8.frame_table_lock s8.current
      pure (none, { s8 with frame_table_lock := l1 })
    | (none, s5) => do
      let l1 ← lock_release s5.frame_table_lock s5.current
      pure (some f, { s5 with frame_table_lock := l1 })

/-- The function `frame_alloc` of frame.c. -/
def frame_alloc (fuel : Nat) (env : Env) (pte : Nat) (s : State) :
    Except Fault (Option Nat × State) := do
  let r ← frame_alloc_page fuel s
  frame_alloc_entry env pte r.1 r.2

/-! ## page.c, fault resolution -/

/-- The function `page_init` of page.c, applied to a record just returned by
`malloc`; `upage` and `writable` are stored by `page_alloc` right after. -/
def page_init (cur : Nat) : page_table_entry :=
  { thread := cur, upage := 0, writable := false,
    accessed := false, dirty := false, swapped := false, sector := -1,
    file := none, file_ofs := 0, file_bytes := 0, mapped := false, fte := none }

/-- The function `page_alloc` of page.c. -/
def page_alloc (env : Env) (vaddr : Nat) (writable : Bool) (s : State) : Option Nat × State :=
  match malloc env.malloc_pte_ok s with
  | (none, s1) => (none, s1)
  | (some p, s1) =>
    let e := { page_init s1.current with upage := pg_round_down vaddr, writable := writable }
    let s2 := set_pte s1 p e
    match hash_insert_page s2.current p e.upage s2 with
    | (some _, s3) => (none, free_pte s3 p)
    | (none, s3) => (some p, s3)

/-- The function `page_get` of page.c. -/
def page_get (env : Env) (vaddr : Nat) (stack : Bool) (s : State) : Option Nat × State :=
  if !is_user_vaddr vaddr then (none, s)
  else
    let t := s.current
    let upage := pg_round_down vaddr
    match hash_find_page s t upage with
    | some p => (some p, s)
    | none =>
      if stack ∧ PHYS_BASE - USER_STACK ≤ upage ∧ (s.esp t + WORD - 32) % WORD ≤ vaddr
      then page_alloc env upage true s
      else (none, s)

/-- The function `page_read` of page.c. -/
def page_read (pte : Nat) (s : State) : Except Fault (Bool × State) := do
  let e ← deref_pte s pte
  ASSERT (e.fte ≠ none)
  let f ← non_null e.fte
  let fe ← deref_fte s f
  ASSERT (fe.lock = some s.current)
  if e.swapped then do
    let s1 ← swap_read e.fte s
    pure (true, s1)
  else
    match e.file with
    | some file =>
      let r := file_read_at s file fe.kpage (to_int e.file_bytes) e.file_ofs
      if r.1 ≠ to_int e.file_bytes then pure (false, r.2)
      else pure (true, memset r.2 (fe.kpage + e.file_bytes) 0
        ((PGSIZE + WORD - e.file_bytes % WORD) % WORD))
    | none => pure (true, memset s fe.kpage 0 PGSIZE)

/-- The failure block of `page_load`, written twice in the source:
`frame_free (fte); pte->fte = NULL; return NULL;`. -/
def page_load_unwind (pte : Nat) (fte : Nat) (s : State) : Except Fault (Option Nat × State) := do
  let s1 ← frame_free (some fte) s
  let e ← deref_pte s1 pte
  pure (none, set_pte s1 pte { e with fte := none })

/-- The part of `page_load` that follows a successful `page_read`: install the
page into the frame, release the frame lock, mark the page accessed. -/
def page_load_install (env : Env) (pte : Nat) (fte : Nat) (s : State) :
    Except Fault (Option Nat × State) := do
  let e ← deref_pte s pte
  let fe ← deref_fte s fte
  let i := install_page env.install_ok e.upage fe.kpage e.writable s
  if !i.1 then page_load_unwind pte fte i.2
  else do
    let s1 ← frame_release (some fte) i.2
    let e1 ← deref_pte s1 pte
    pure (some pte, set_pte s1 pte { e1 with accessed := true })

/-- The part of `page_load` that follows `frame_alloc`: give up when no frame
entry came back, else load the data into the page, then install it. -/
def page_load_frame (env : Env) (pte : Nat) (fte : Option Nat) (s2 : State) :
    Except Fault (Option Nat × State) :=
  match fte with
  | none => pure (none, s2)
  | some f => do
    let e2 ← deref_pte s2 pte
    let s3 := set_pte s2 pte { e2 with fte := some f }
    let s4 ← frame_acquire (some f) s3
    let r ← page_read pte s4
    if !r.1 then page_load_unwind pte f r.2
    else page_load_install env pte f r.2

/-- The function `page_load` of page.c. -/
def page_load (fuel : Nat) (env : Env) (fault_addr : Nat) (s : State) :
    Except Fault (Option Nat × State) :=
  if fault_addr = 0 then pure (none, s)
  else
    match page_get env fault_addr true s with
    | (none, s1) => pure (none, s1)
    | (some pte, s1) => do
      let e ← deref_pte s1 pte
      if e.fte ≠ none then pure (some pte, s1)
      else do
        let r ← frame_alloc fuel env pte s1
        page_load_frame env pte r.1 r.2

/-! ## Sample states -/

/-- A dirty anonymous stack page of context 1. -/
def sample_pte : page_table_entry :=
  { page_init 1 with upage := 0xbffff000, writable := true, dirty := true, fte := some 7 }

/-- The frame table entry that backs `sample_pte`. -/
def sample_fte : frame_table_entry := ⟨0xc0100000, 1, 3, none⟩

/-- A small machine: context 1 runs and owns one resident page (descriptor 3 in
frame entry 7); the swap area has three slots, the first one occupied. -/
def sample_state : State :=
  { current := 1
    ptes := fun p => if p = 3 then some sample_pte else none
    ftes := fun f => if f = 7 then some sample_fte else none
    next_ptr := 10
    page_table := fun t => if t = 1 then [3] else []
    esp := fun _ => 0xbffffff0
    frame_table := [7]
    frame_table_lock := none
    frame_table_size := -1
    free_frames := []
    mem := fun a => UInt8.ofNat a
    pagedir := fun t u => if t = 1 ∧ u = 0xbffff000 then some ⟨0xc0100000, true, false⟩ else none
    swap_map := [true, false, false]
    swap_block := fun _ _ => 0
    file_len := fun _ => 0
    file_data := fun _ _ => 0 }

/-- The sample machine while context 1 holds the lock of frame entry 7. -/
def sample_locked : State :=
  set_fte sample_state 7 { sample_fte with lock := some 1 }

/-- A dirty memory-mapped page of file 5, one page long at offset 0. -/
def sample_mmap_pte : page_table_entry :=
  { sample_pte with file := some 5, file_ofs := 0, file_bytes := 4096, mapped := true }

/-- The sample machine with descriptor 3 a memory-mapped page of file 5, which
is two pages long. -/
def sample_mmap : State :=
  { sample_state with
    ptes := fun p => if p = 3 then some sample_mmap_pte else none
    file_len := fun f => if f = 5 then 8192 else 0 }

/-- A machine before the first fault: context 1 runs with its stack pointer
just below `PHYS_BASE`, no page has a descriptor, two frames are free. -/
def sample_fresh : State :=
  { sample_state with
    ptes := fun _ => none
    ftes := fun _ => none
    page_table := fun _ => []
    frame_table := []
    free_frames := [0xc0100000, 0xc0101000]
    pagedir := fun _ _ => none }

/-- Two resident pages, in frame table order: descriptor 3 (accessed) in entry 7
and descriptor 4 (not accessed) in entry 8. -/
def sample_two : State :=
  { sample_state with
    ptes := fun p =>
      if p = 3 then some { sample_pte with accessed := true }
      else if p = 4 then some { sample_pte with upage := 0xbfffe000, fte := some 8 }
      else none
    ftes := fun f =>
      if f = 7 then some sample_fte
      else if f = 8 then some ⟨0xc0101000, 1, 4, none⟩
      else none
    page_table := fun t => if t = 1 then [3, 4] else []
    frame_table := [7, 8] }

/-- All collaborators succeed; new frame entries are filed first. -/
def sample_env : Env := ⟨true, true, true, 0⟩

/-- A code page of context 1, backed by 100 bytes of file 5 and not yet
loaded. -/
def sample_file_pte : page_table_entry :=
  { page_init 1 with upage := 0x08048000, file := some 5, file_bytes := 100 }

/-- The fresh machine with descriptor 3 for `sample_file_pte`, while file 5 is
only 50 bytes long. -/
def sample_short_file : State :=
  { sample_fresh with
    ptes := fun p => if p = 3 then some sample_file_pte else none
    page_table := fun t => if t = 1 then [3] else []
    file_len := fun f => if f = 5 then 50 else 0 }

/-- The sample machine with descriptor 3 backed by 20 bytes at offset 10 of
file 5, which is 100 bytes long, while context 1 holds the lock of its frame. -/
def sample_file_locked : State :=
  { sample_locked with
    ptes := fun p =>
      if p = 3 then some { sample_pte with file := some 5, file_ofs := 10, file_bytes := 20 }
      else none
    file_len := fun f => if f = 5 then 100 else 0
    file_data := fun _ i => UInt8.ofNat (i + 1) }

/-- The state of a call that returned, for building sample runs. -/
def state_of {α : Type} (r : Except Fault (α × State)) (otherwise : State) : State :=
  match r with
  | .ok (_, s) => s
  | .error _ => otherwise

/-- The fresh machine after the first stack fault of context 1. -/
def sample_loaded : State :=
  state_of (page_load 2 sample_env 0xbfffffe0 sample_fresh) sample_fresh

/-- The descriptor the first stack fault creates and loads. -/
def sample_loaded_pte : page_table_entry :=
  { page_init 1 with upage := 0xbffff000, writable := true, accessed := true, fte := some 11 }

/-- The loaded machine after user code has written to the stack page. -/
def sample_dirtied : State :=
  set_pte sample_loaded 10 { sample_loaded_pte with dirty := true }

/-- The machine `sample_short_file` with a frame taken from the allocator. -/
def sample_short_file_page : State :=
  state_of (frame_alloc_page 2 sample_short_file) sample_short_file

/-- The machine `sample_short_file` with a frame table entry for descriptor
3. -/
def sample_short_file_entry : State :=
  state_of (frame_alloc_entry sample_env 3 0xc0100000 sample_short_file_page) sample_short_file

/-- The machine `sample_short_file` after the short read into the frame. -/
def sample_short_file_read : State :=
  state_of (page_read 3 (set_fte (set_pte sample_short_file_entry 3
      { sample_file_pte with fte := some 10 }) 10 ⟨0xc0100000, 1, 3, some 1⟩))
    sample_short_file

/-- The machine after the written stack page has been evicted. -/
def sample_evicted : State :=
  state_of ((page_evict 2 (some 10) sample_dirtied).map (fun s => ((), s))) sample_dirtied

/-- Collaborators as in `sample_env`, except that `malloc` has no memory for a
frame table entry. -/
def sample_env_no_fte : Env := ⟨true, false, true, 0⟩

/-- Collaborators as in `sample_env`, except that `malloc` has no memory for a
page descriptor. -/
def sample_env_no_pte : Env := ⟨false, true, true, 0⟩

/-- Eight resident pages of context 1, descriptors 30 to 37 in frame table
entries 20 to 27; only the page of the first entry has its accessed flag set. -/
def sample_eight : State :=
  { sample_state with
    ptes := fun p =>
      if 30 ≤ p ∧ p < 38 then
        some { sample_pte with
               upage := 0xbfff0000 + (p - 30) * 4096, accessed := decide (p = 30),
               fte := some (p - 10) }
      else none
    ftes := fun f =>
      if 20 ≤ f ∧ f < 28 then some ⟨0xc0100000 + (f - 20) * 4096, 1, f + 10, none⟩ else none
    next_ptr := 40
    page_table := fun t => if t = 1 then [30, 31, 32, 33, 34, 35, 36, 37] else []
    frame_table := [20, 21, 22, 23, 24, 25, 26, 27] }

/-- The sample machine with descriptor 3 clean: its dirty flag is unset and the
page directory has not seen a write. -/
def sample_clean : State :=
  { sample_state with
    ptes := fun p => if p = 3 then some { sample_pte with dirty := false } else none }

/-- Collaborators as in `sample_env`, except that `install_page` fails. -/
def sample_env_no_install : Env := ⟨true, true, false, 0⟩

/-- The swap area has at most `2 ^ 31` sectors, so the first sector of every
slot fits the `int sector` field of a descriptor. -/
def swap_fits (s : State) : Prop := s.swap_map.length * SECTORS_PER_PAGE ≤ 2 ^ 31

instance (s : State) : Decidable (swap_fits s) := by
  unfold swap_fits; infer_instance

/-- Descriptor `p` (with fields `e`) is resident in the frame of entry `f`
(with fields `fe`): the two records refer to each other. -/
def resident (s : State) (p : Nat) (e : page_table_entry) (f : Nat)
    (fe : frame_table_entry) : Prop :=
  s.ptes p = some e ∧ e.fte = some f ∧ s.ftes f = some fe ∧ fe.pte = p

/-- Representation invariant of the frame hash table: no entry is filed twice
and no two filed entries have the same key (`kpage`). -/
def frame_table_ok (s : State) : Prop :=
  s.frame_table.Nodup ∧
  ∀ g ∈ s.frame_table, ∀ h ∈ s.frame_table, frame_key s g = frame_key s h → g = h

instance (s : State) (p : Nat) (e : page_table_entry) (f : Nat) (fe : frame_table_entry) :
    Decidable (resident s p e f fe) := by
  unfold resident; infer_instance

instance (s : State) : Decidable (frame_table_ok s) := by
  unfold frame_table_ok; infer_instance

/-- Every entry filed in the frame table is a live record that refers to a
live descriptor. -/
def frame_table_valid (s : State) : Prop :=
  ∀ f ∈ s.frame_table, ∃ fe e, s.ftes f = some fe ∧ s.ptes fe.pte = some e

/-- Every record address `malloc` has yet to hand out is unused: no frame
table entry lives there and the frame table does not hold it. -/
def heap_fresh (s : State) : Prop :=
  ∀ g, s.next_ptr ≤ g → s.ftes g = none ∧ g ∉ s.frame_table

/-- No descriptor is in swap and in a frame at once. -/
def inv_single (s : State) : Prop :=
  ∀ p e, s.ptes p = some e → e.swapped = true → e.fte = none

/-- The frame reference of a descriptor leads to a live frame table entry that
refers back to the descriptor. -/
def inv_backref (s : State) : Prop :=
  ∀ p e f, s.ptes p = some e → e.fte = some f → ∃ fe, s.ftes f = some fe ∧ fe.pte = p

/-- No frame table entry lives at an address `malloc` has yet to hand out. -/
def inv_heap (s : State) : Prop :=
  ∀ f, s.next_ptr ≤ f → s.ftes f = none

/-- The residency invariant of the virtual memory manager. -/
def vm_inv (s : State) : Prop := inv_single s ∧ inv_backref s ∧ inv_heap s

/-- The residency invariant with descriptor `p` in the middle of a transfer
between swap and frame: `p` alone may be marked swapped while it refers to a
frame. -/
def vm_inv_but (p : Nat) (s : State) : Prop :=
  (∀ q e, s.ptes q = some e → q ≠ p → e.swapped = true → e.fte = none) ∧
  inv_backref s ∧ inv_heap s

/-- What the rest of the system may do between two calls into the virtual
memory manager (user code writes memory and sets hardware bits, the loader
fills in file fields of descriptors, the scheduler switches contexts, ...):
anything that keeps, for every descriptor, its existence and its `swapped` and
`fte` fields, and for every frame table entry its existence and its `pte`
field, and does not move the allocation pointer back. -/
def residency_kept (s s1 : State) : Prop :=
  s.next_ptr ≤ s1.next_ptr ∧
  (∀ f, (s1.ftes f).map (fun fe => fe.pte) = (s.ftes f).map (fun fe => fe.pte)) ∧
  (∀ p, (s1.ptes p).map (fun e => (e.swapped, e.fte))
      = (s.ptes p).map (fun e => (e.swapped, e.fte)))

/-- States reachable from freshly created descriptors by calls of `page_alloc`,
`page_load` and `page_evict` that return, interleaved with steps of the rest of
the system. -/
inductive reachable : State → Prop where
  | fresh (s : State) :
      (∀ p e, s.ptes p = some e → e.swapped = false ∧ e.fte = none) →
      (∀ f, s.next_ptr ≤ f → s.ftes f = none) → reachable s
  | alloc (s s1 : State) (env : Env) (vaddr : Nat) (w : Bool) (r : Option Nat) :
      reachable s → page_alloc env vaddr w s = (r, s1) → reachable s1
  | load (s s1 : State) (fuel : Nat) (env : Env) (vaddr : Nat) (r : Option Nat) :
      reachable s → page_load fuel env vaddr s = Except.ok (r, s1) → reachable s1
  | evict (s s1 : State) (fuel : Nat) (pte : Option Nat) :
      reachable s → page_evict fuel pte s = Except.ok s1 → reachable s1
  | world (s s1 : State) :
      reachable s → residency_kept s s1 → reachable s1

/-- The slot of the occupancy table a descriptor's `sector` field lies in:
`sector / SECTORS_PER_PAGE` as `swap_read` computes it. -/
def slot_of (e : page_table_entry) : Nat :=
  to_unsigned (Int.tdiv e.sector (SECTORS_PER_PAGE : Int))

/-- Position of a hand in iteration order; the table length when it points at
no entry of the table. -/
def hand_position (table : List Nat) : fte_ref → Nat
  | .entry f => table.indexOf f
  | _ => table.length

/-- The trailing hand is `gap` entries behind the leading hand, modulo
wrap-around. -/
def hands_apart (table : List Nat) (gap : Nat) (hands : fte_ref × fte_ref) : Prop :=
  hand_position table hands.1 < table.length ∧ hand_position table hands.2 < table.length ∧
  (hand_position table hands.2 + gap) % table.length = hand_position table hands.1

instance (table : List Nat) (gap : Nat) (hands : fte_ref × fte_ref) :
    Decidable (hands_apart table gap hands) := by
  unfold hands_apart; infer_instance

/-- State `s1` differs from `s` at most in the accessed flags of
descriptors. -/
def accessed_only (s s1 : State) : Prop :=
  { s1 with ptes := s.ptes } = s ∧
  ∀ q, (s1.ptes q).map (fun e => { e with accessed := false })
      = (s.ptes q).map (fun e => { e with accessed := false })

/-- The running context holds the lock of frame table entry `held`, if any,
and no other lock of the frame table. -/
def locks_held_only (held : Option Nat) (s : State) : Prop :=
  s.frame_table_lock ≠ some s.current ∧
  ∀ g fe, s.ftes g = some fe → (fe.lock = some s.current ↔ held = some g)

/-- The sector of every swapped descriptor is the first sector of a slot of the
occupancy table. -/
def slot_valid (s : State) : Prop :=
  ∀ p e, s.ptes p = some e → e.swapped = true →
    ∃ k, k < s.swap_map.length ∧ e.sector = ((k * SECTORS_PER_PAGE : Nat) : Int)

/-- What the assertions of the virtual memory manager rely on, while the
running context holds the lock of entry `held` at most. -/
def assert_inv_holding (held : Option Nat) (s : State) : Prop :=
  locks_held_only held s ∧ swap_fits s ∧ slot_valid s

/-- What the assertions of the virtual memory manager rely on between two
calls: the running context holds no lock of the frame table, and the sector of
every swapped descriptor is the first sector of a slot. -/
def assert_inv (s : State) : Prop := assert_inv_holding none s

/-- A call fails no assertion, and when it returns its result satisfies
`post`. -/
def safe_post {α : Type} (r : Except Fault α) (post : α → Prop) : Prop :=
  match r with
  | .ok a => post a
  | .error e => e ≠ Fault.assertion

/-! ## Lemmas: the error monad -/

@[simp] theorem bind_ok {α β : Type} (a : α) (f : α → Except Fault β) :
    (Except.ok a >>= f) = f a := rfl

@[simp] theorem bind_error {α β : Type} (e : Fault) (f : α → Except Fault β) :
    ((Except.error e : Except Fault α) >>= f) = Except.error e := rfl

@[simp] theorem pure_eq_ok {α : Type} (a : α) : (pure a : Except Fault α) = Except.ok a := rfl

@[simp] theorem PANIC_eq {α : Type} : (PANIC : Except Fault α) = Except.error Fault.panic := rfl

@[simp] theorem ASSERT_pos {c : Prop} [Decidable c] (h : c) : ASSERT c = Except.ok () := by
  simp [ASSERT, h]

@[simp] theorem ASSERT_neg {c : Prop} [Decidable c] (h : ¬c) :
    ASSERT c = Except.error Fault.assertion := by
  simp [ASSERT, h]

@[simp] theorem non_null_some (a : Nat) : non_null (some a) = Except.ok a := rfl

@[simp] theorem non_null_none : non_null none = Except.error Fault.bad_pointer := rfl

theorem bind_eq_ok {α β : Type} {x : Except Fault α} {f : α → Except Fault β} {b : β}
    (h : (x >>= f) = Except.ok b) : ∃ a, x = Except.ok a ∧ f a = Except.ok b := by
  cases x with
  | error e => simp at h
  | ok a => exact ⟨a, rfl, h⟩

theorem ASSERT_eq_ok {c : Prop} [Decidable c] {u : Unit} (h : ASSERT c = Except.ok u) : c := by
  by_cases hc : c
  · exact hc
  · simp [ASSERT, hc] at h

theorem non_null_eq_ok {ptr : Option Nat} {a : Nat} (h : non_null ptr = Except.ok a) :
    ptr = some a := by
  cases ptr with
  | none => simp at h
  | some b => simp at h; simp [h]

theorem deref_pte_eq_ok {s : State} {p : Nat} {e : page_table_entry} :
    deref_pte s p = Except.ok e ↔ s.ptes p = some e := by
  unfold deref_pte
  cases h : s.ptes p <;> simp

theorem deref_fte_eq_ok {s : State} {f : Nat} {fe : frame_table_entry} :
    deref_fte s f = Except.ok fe ↔ s.ftes f = some fe := by
  unfold deref_fte
  cases h : s.ftes f <;> simp

theorem lock_acquire_eq_ok {holder l : Option Nat} {cur : Nat}
    (h : lock_acquire holder cur = Except.ok l) : holder = none ∧ l = some cur := by
  cases holder with
  | none => simp [lock_acquire] at h; simp [h]
  | some a =>
    simp only [lock_acquire] at h
    split at h <;> simp at h

theorem lock_release_eq_ok {holder l : Option Nat} {cur : Nat}
    (h : lock_release holder cur = Except.ok l) : holder = some cur ∧ l = none := by
  unfold lock_release at h
  split at h
  · simp at h; exact ⟨by assumption, h.symm⟩
  · simp at h

@[simp] theorem lock_acquire_none (cur : Nat) : lock_acquire none cur = Except.ok (some cur) := rfl

@[simp] theorem lock_release_self (cur : Nat) : lock_release (some cur) cur = Except.ok none := by
  simp [lock_release]

/-! ## Lemmas: the occupancy table -/

theorem bitmap_scan_some {b : List Bool} {k : Nat} (h : bitmap_scan b = some k) :
    b[k]? = some false ∧ (∀ j, j < k → b[j]? = some true) ∧ k < b.length := by
  induction b generalizing k with
  | nil => simp [bitmap_scan] at h
  | cons x xs ih =>
    simp only [bitmap_scan] at h
    split at h
    · rename_i hx
      simp at h
      subst h
      simp [hx]
    · rename_i hx
      simp at hx
      cases hs : bitmap_scan xs with
      | none => simp [hs] at h
      | some i =>
        simp [hs] at h
        subst h
        obtain ⟨h1, h2, h3⟩ := ih hs
        refine ⟨by simpa using h1, ?_, by simpa using h3⟩
        intro j hj
        cases j with
        | zero => simp [hx]
        | succ j => simpa using h2 j (by omega)

theorem bitmap_scan_of_free {b : List Bool} {j : Nat} (h : b[j]? = some false) :
    ∃ k, bitmap_scan b = some k ∧ k ≤ j := by
  induction b generalizing j with
  | nil => simp at h
  | cons x xs ih =>
    simp only [bitmap_scan]
    by_cases hx : x = false
    · simp [hx]
    · simp only [hx, if_false]
      cases j with
      | zero => simp at h; exact absurd h hx
      | succ j =>
        simp at h
        obtain ⟨k, hk, hkj⟩ := ih h
        exact ⟨k + 1, by simp [hk], by omega⟩

/-! ## Lemmas: swap.c -/

theorem block_write_fold (sector kpage : Nat) (s : State) (n : Nat) (hn : sector + n ≤ WORD) :
    (List.range n).foldl
      (fun st (i : Nat) => block_write st ((sector + i) % WORD) (kpage + i * BLOCK_SECTOR_SIZE)) s
    = { s with swap_block := fun sec off =>
        if sector ≤ sec ∧ sec < sector + n ∧ off < BLOCK_SECTOR_SIZE
        then s.mem (kpage + (sec - sector) * BLOCK_SECTOR_SIZE + off)
        else s.swap_block sec off } := by
  induction n with
  | zero =>
    have h0 : ∀ sec off : Nat,
        (sector ≤ sec ∧ sec < sector + 0 ∧ off < BLOCK_SECTOR_SIZE) = False := by
      intro sec off; apply eq_false; omega
    simp only [List.range_zero, List.foldl_nil, h0, if_false]
  | succ n ih =>
    rw [List.range_succ, List.foldl_append, ih (by omega)]
    have hm : (sector + n) % WORD = sector + n := Nat.mod_eq_of_lt (by omega)
    simp only [List.foldl_cons, List.foldl_nil, block_write, hm]
    congr 1
    funext sec off
    by_cases h1 : sec = sector + n
    · subst h1
      by_cases h2 : off < BLOCK_SECTOR_SIZE
      · simp [h2]
      · simp [h2]
    · have e1 : (sec < sector + (n + 1)) = (sec < sector + n) := by
        apply propext; constructor <;> intro h <;> omega
      simp [h1, e1]

theorem swap_write_loop_eq (sector kpage : Nat) (s : State)
    (h : sector + SECTORS_PER_PAGE ≤ WORD) :
    swap_write_loop sector kpage s =
    { s with swap_block := fun sec off =>
        if sector ≤ sec ∧ sec < sector + SECTORS_PER_PAGE ∧ off < BLOCK_SECTOR_SIZE
        then s.mem (kpage + (sec - sector) * BLOCK_SECTOR_SIZE + off)
        else s.swap_block sec off } :=
  block_write_fold sector kpage s SECTORS_PER_PAGE h

theorem block_read_fold (sector : Int) (kpage : Nat) (s : State) (n : Nat) :
    (List.range n).foldl
      (fun st (i : Nat) => block_read st (to_unsigned (sector + (i : Int)))
        (kpage + i * BLOCK_SECTOR_SIZE)) s
    = { s with mem := fun a =>
        if kpage ≤ a ∧ a < kpage + n * BLOCK_SECTOR_SIZE
        then s.swap_block (to_unsigned (sector + (((a - kpage) / BLOCK_SECTOR_SIZE : Nat) : Int)))
                ((a - kpage) % BLOCK_SECTOR_SIZE)
        else s.mem a } := by
  induction n with
  | zero =>
    have h0 : ∀ a : Nat, (kpage ≤ a ∧ a < kpage + 0 * BLOCK_SECTOR_SIZE) = False := by
      intro a; apply eq_false; omega
    simp only [List.range_zero, List.foldl_nil, h0, if_false]
  | succ n ih =>
    rw [List.range_succ, List.foldl_append, ih]
    simp only [List.foldl_cons, List.foldl_nil, block_read]
    congr 1
    funext a
    simp only [BLOCK_SECTOR_SIZE]
    by_cases h1 : kpage + n * 512 ≤ a ∧ a < kpage + n * 512 + 512
    · have h2 : kpage ≤ a ∧ a < kpage + (n + 1) * 512 := by omega
      have h3 : (a - kpage) / 512 = n := by omega
      have h4 : (a - kpage) % 512 = a - (kpage + n * 512) := by omega
      simp [h1, h2, h3, h4]
    · by_cases h2 : kpage ≤ a ∧ a < kpage + n * 512
      · have h3 : kpage ≤ a ∧ a < kpage + (n + 1) * 512 := by omega
        simp [h1, h2, h3]
      · have h3 : ¬(kpage ≤ a ∧ a < kpage + (n + 1) * 512) := by omega
        simp [h1, h2, h3]

theorem swap_read_loop_eq (sector : Int) (kpage : Nat) (s : State) :
    swap_read_loop sector kpage s =
    { s with mem := fun a =>
        if kpage ≤ a ∧ a < kpage + SECTORS_PER_PAGE * BLOCK_SECTOR_SIZE
        then s.swap_block (to_unsigned (sector + (((a - kpage) / BLOCK_SECTOR_SIZE : Nat) : Int)))
                ((a - kpage) % BLOCK_SECTOR_SIZE)
        else s.mem a } :=
  block_read_fold sector kpage s SECTORS_PER_PAGE

theorem to_int_of_lt {n : Nat} (h : n < 2 ^ 31) : to_int n = (n : Int) := by
  have h1 : n % WORD = n := Nat.mod_eq_of_lt (by simp only [WORD]; omega)
  simp only [to_int, h1, h, if_true]

theorem to_unsigned_natCast {n : Nat} (h : n < WORD) : to_unsigned (n : Int) = n := by
  simp only [to_unsigned, WORD] at *
  omega

theorem slot_sector_bound {b : List Bool} {k : Nat} (hk : k < b.length)
    (hfit : b.length * SECTORS_PER_PAGE ≤ 2 ^ 31) :
    k * SECTORS_PER_PAGE + SECTORS_PER_PAGE ≤ 2 ^ 31 := by
  simp only [SECTORS_PER_PAGE, PGSIZE, BLOCK_SECTOR_SIZE] at *
  omega

/-- Closed form of a `swap_write` that finds slot `k`. -/
theorem swap_write_ok {s : State} {f : Nat} {fe : frame_table_entry} {e : page_table_entry}
    {k : Nat} (hf : s.ftes f = some fe) (hl : fe.lock = some s.current)
    (he : s.ptes fe.pte = some e) (hk : bitmap_scan s.swap_map = some k) (hfit : swap_fits s) :
    swap_write (some f) s = Except.ok
      (set_pte
        { s with
          swap_map := s.swap_map.set k true
          swap_block := fun sec off =>
            if k * SECTORS_PER_PAGE ≤ sec ∧ sec < k * SECTORS_PER_PAGE + SECTORS_PER_PAGE
                ∧ off < BLOCK_SECTOR_SIZE
            then s.mem (fe.kpage + (sec - k * SECTORS_PER_PAGE) * BLOCK_SECTOR_SIZE + off)
            else s.swap_block sec off }
        fe.pte { e with swapped := true, sector := ((k * SECTORS_PER_PAGE : Nat) : Int) }) := by
  have hb := slot_sector_bound (bitmap_scan_some hk).2.2 hfit
  have hlt : k * SECTORS_PER_PAGE < 2 ^ 31 := by
    simp only [SECTORS_PER_PAGE, PGSIZE, BLOCK_SECTOR_SIZE] at *; omega
  have hmod : k * SECTORS_PER_PAGE % WORD = k * SECTORS_PER_PAGE :=
    Nat.mod_eq_of_lt (by simp only [WORD]; omega)
  have hw : k * SECTORS_PER_PAGE + SECTORS_PER_PAGE ≤ WORD := by simp only [WORD]; omega
  simp only [swap_write, ne_eq, not_false_eq_true, reduceCtorEq, ASSERT_pos, bind_ok,
    non_null_some, deref_fte_eq_ok.mpr hf, hl, bitmap_scan_and_flip, hk, hmod,
    swap_write_loop_eq _ _ _ hw, to_int_of_lt hlt]
  simp [deref_pte, he]

theorem slot_of_sector {e : page_table_entry} {k : Nat} (hs : e.sector = ((k * SECTORS_PER_PAGE : Nat) : Int))
    (hk : k * SECTORS_PER_PAGE < 2 ^ 31) : slot_of e = k := by
  have h8 : k * SECTORS_PER_PAGE / SECTORS_PER_PAGE = k :=
    Nat.mul_div_cancel k (by decide)
  unfold slot_of
  rw [hs, ← Int.ofNat_tdiv, h8]
  apply to_unsigned_natCast
  simp only [WORD, SECTORS_PER_PAGE, PGSIZE, BLOCK_SECTOR_SIZE] at *
  omega

/-- Closed form of a `swap_read` of slot `k`. -/
theorem swap_read_ok {s : State} {f : Nat} {fe : frame_table_entry} {e : page_table_entry}
    {k : Nat} (hf : s.ftes f = some fe) (hl : fe.lock = some s.current)
    (he : s.ptes fe.pte = some e) (hs : e.sector = ((k * SECTORS_PER_PAGE : Nat) : Int))
    (hk : k < s.swap_map.length) (hfit : swap_fits s) :
    swap_read (some f) s = Except.ok
      (set_pte
        { s with
          swap_map := s.swap_map.set k false
          mem := fun a =>
            if fe.kpage ≤ a ∧ a < fe.kpage + PGSIZE
            then s.swap_block (k * SECTORS_PER_PAGE + (a - fe.kpage) / BLOCK_SECTOR_SIZE)
                  ((a - fe.kpage) % BLOCK_SECTOR_SIZE)
            else s.mem a }
        fe.pte { e with swapped := false, sector := -1 }) := by
  have hb := slot_sector_bound hk hfit
  have hlt : k * SECTORS_PER_PAGE < 2 ^ 31 := by
    simp only [SECTORS_PER_PAGE, PGSIZE, BLOCK_SECTOR_SIZE] at *; omega
  have hslot := slot_of_sector hs hlt
  unfold slot_of at hslot
  have hne : e.sector ≠ -1 := by rw [hs]; omega
  have hmem : (fun a => if fe.kpage ≤ a ∧ a < fe.kpage + SECTORS_PER_PAGE * BLOCK_SECTOR_SIZE
        then s.swap_block (to_unsigned (e.sector + (((a - fe.kpage) / BLOCK_SECTOR_SIZE : Nat) : Int)))
                ((a - fe.kpage) % BLOCK_SECTOR_SIZE)
        else s.mem a) = (fun a =>
            if fe.kpage ≤ a ∧ a < fe.kpage + PGSIZE
            then s.swap_block (k * SECTORS_PER_PAGE + (a - fe.kpage) / BLOCK_SECTOR_SIZE)
                  ((a - fe.kpage) % BLOCK_SECTOR_SIZE)
            else s.mem a) := by
    funext a
    have hpg : SECTORS_PER_PAGE * BLOCK_SECTOR_SIZE = PGSIZE := by decide
    rw [hpg]
    by_cases ha : fe.kpage ≤ a ∧ a < fe.kpage + PGSIZE
    · have hu : to_unsigned (e.sector + (((a - fe.kpage) / BLOCK_SECTOR_SIZE : Nat) : Int))
          = k * SECTORS_PER_PAGE + (a - fe.kpage) / BLOCK_SECTOR_SIZE := by
        rw [hs, ← Int.ofNat_add]
        apply to_unsigned_natCast
        simp only [WORD, SECTORS_PER_PAGE, PGSIZE, BLOCK_SECTOR_SIZE] at *
        omega
      simp only [ha, and_self, if_true, hu]
    · simp only [ha, if_false]
  simp only [swap_read, ne_eq, not_false_eq_true, reduceCtorEq, ASSERT_pos, bind_ok,
    non_null_some, deref_fte_eq_ok.mpr hf, hl, deref_pte_eq_ok.mpr he, hne,
    swap_read_loop_eq, hmem, hslot, bitmap_set, hk, if_true, pure_eq_ok]

/-- What a `swap_read` that returns has done. -/
theorem swap_read_inv {s0 s : State} {fte : Option Nat} (h : swap_read fte s0 = Except.ok s) :
    ∃ f fe e, fte = some f ∧ s0.ftes f = some fe ∧ s0.ptes fe.pte = some e ∧
      fe.lock = some s0.current ∧ e.sector ≠ -1 ∧ slot_of e < s0.swap_map.length ∧
      s = set_pte { swap_read_loop e.sector fe.kpage s0 with
                    swap_map := s0.swap_map.set (slot_of e) false }
            fe.pte { e with swapped := false, sector := -1 } := by
  unfold swap_read at h
  obtain ⟨_, h1, h⟩ := bind_eq_ok h
  obtain ⟨f, h2, h⟩ := bind_eq_ok h
  obtain ⟨fe, h3, h⟩ := bind_eq_ok h
  obtain ⟨_, h4, h⟩ := bind_eq_ok h
  obtain ⟨e, h5, h⟩ := bind_eq_ok h
  obtain ⟨_, h6, h⟩ := bind_eq_ok h
  obtain ⟨map, h7, h⟩ := bind_eq_ok h
  have hmap : (swap_read_loop e.sector fe.kpage s0).swap_map = s0.swap_map := by
    rw [swap_read_loop_eq]
  rw [hmap] at h7
  unfold bitmap_set at h7
  split at h7
  · rename_i hlt
    simp only [Except.ok.injEq] at h7
    simp only [pure_eq_ok, Except.ok.injEq] at h
    refine ⟨f, fe, e, non_null_eq_ok h2, deref_fte_eq_ok.mp h3, deref_pte_eq_ok.mp h5,
      ASSERT_eq_ok h4, ASSERT_eq_ok h6, hlt, ?_⟩
    rw [← h, ← h7]
    rfl
  · simp at h7

/-! ## Lemmas: eviction -/

@[simp] theorem ite_ite_same {α : Type} (c : Prop) [Decidable c] (a b d : α) :
    (if c then a else if c then b else d) = if c then a else d := by
  split <;> simp [*]

theorem frame_free_ok {s : State} {f : Nat} {fe : frame_table_entry}
    (hf : s.ftes f = some fe) (hl : fe.lock = some s.current) (ht : s.frame_table_lock = none) :
    frame_free (some f) s = Except.ok
      { s with
        frame_table := s.frame_table.eraseP (fun g => frame_key s g == some fe.kpage)
        free_frames := fe.kpage :: s.free_frames
        ftes := fun g => if g = f then none else s.ftes g } := by
  have hkey : frame_key s f = some fe.kpage := by simp [frame_key, hf]
  simp only [frame_free, non_null_some, bind_ok, deref_fte_eq_ok.mpr hf, hl, ASSERT_pos, ht,
    lock_acquire_none, hash_delete_frame, palloc_free_page, free_fte, lock_release_self,
    pure_eq_ok, frame_key, hf, Option.map_some']

theorem frame_acquire_ok {s : State} {f : Nat} {fe : frame_table_entry}
    (hf : s.ftes f = some fe) (hl : fe.lock = none) :
    frame_acquire (some f) s = Except.ok (set_fte s f { fe with lock := some s.current }) := by
  simp only [frame_acquire, non_null_some, bind_ok, deref_fte_eq_ok.mpr hf, hl,
    lock_acquire_none, pure_eq_ok]

theorem frame_key_locked (s : State) (f : Nat) (fe : frame_table_entry) (l : Option Nat)
    (hf : s.ftes f = some fe) (g : Nat) :
    Option.map (fun x : frame_table_entry => x.kpage)
      (if g = f then some { fe with lock := l } else s.ftes g) = frame_key s g := by
  unfold frame_key
  by_cases h : g = f
  · subst h; simp [hf]
  · simp [h]

theorem dirty_refresh_eq {s : State} {p : Nat} {e : page_table_entry} (hp : s.ptes p = some e) :
    (if (!e.dirty) = true
      then set_pte s p { e with dirty := pagedir_is_dirty s e.thread e.upage } else s)
    = set_pte s p { e with dirty := (e.dirty || pagedir_is_dirty s e.thread e.upage) } := by
  cases hd : e.dirty with
  | false => simp
  | true =>
    have he : ({ e with dirty := true } : page_table_entry) = e := by
      cases e; simp_all
    have hfun : (fun q => if q = p then some e else s.ptes q) = s.ptes := by
      funext q
      by_cases hq : q = p
      · simp [hq, hp]
      · simp [hq]
    simp only [Bool.not_true, Bool.false_eq_true, if_false, Bool.true_or, he, set_pte, hfun]

theorem page_write_to_swap {s : State} {p f : Nat} {e : page_table_entry}
    {fe : frame_table_entry}
    (hres : resident s p e f fe) (hl : fe.lock = some s.current)
    (hm : ¬(e.mapped = true ∧ e.file ≠ none)) :
    page_write p s = swap_write (some f) s := by
  obtain ⟨hp, hfte, hf, _⟩ := hres
  simp only [page_write, deref_pte_eq_ok.mpr hp, bind_ok, hfte, ne_eq, reduceCtorEq,
    not_false_eq_true, ASSERT_pos, non_null_some, deref_fte_eq_ok.mpr hf, hl]
  cases hmap : e.mapped <;> cases hfile : e.file <;> simp_all

theorem page_evict_body_to_swap {s : State} {p f k : Nat} {e : page_table_entry}
    {fe : frame_table_entry}
    (hres : resident s p e f fe) (hl : fe.lock = some s.current) (ht : s.frame_table_lock = none)
    (hd : e.dirty = true ∨ pagedir_is_dirty s e.thread e.upage = true)
    (hm : ¬(e.mapped = true ∧ e.file ≠ none))
    (hk : bitmap_scan s.swap_map = some k) (hfit : swap_fits s) :
    page_evict_body p s = Except.ok
      { s with
        ptes := fun q =>
          if q = p then
            some { e with
                   dirty := true, swapped := true,
                   sector := ((k * SECTORS_PER_PAGE : Nat) : Int), fte := none }
          else s.ptes q
        ftes := fun g => if g = f then none else s.ftes g
        frame_table := s.frame_table.eraseP (fun g => frame_key s g == some fe.kpage)
        free_frames := fe.kpage :: s.free_frames
        pagedir := fun t u => if t = e.thread ∧ u = e.upage then none else s.pagedir t u
        swap_map := s.swap_map.set k true
        swap_block := fun sec off =>
          if k * SECTORS_PER_PAGE ≤ sec ∧ sec < k * SECTORS_PER_PAGE + SECTORS_PER_PAGE
              ∧ off < BLOCK_SECTOR_SIZE
          then s.mem (fe.kpage + (sec - k * SECTORS_PER_PAGE) * BLOCK_SECTOR_SIZE + off)
          else s.swap_block sec off } := by
  have hdd : (e.dirty || pagedir_is_dirty s e.thread e.upage) = true := by
    rcases hd with h | h <;> simp [h]
  obtain ⟨hp, hfte, hf, hback⟩ := hres
  have hres2 : resident (set_pte s p { e with dirty := true }) p { e with dirty := true } f fe :=
    ⟨by simp [set_pte], hfte, hf, hback⟩
  have hw := page_write_to_swap hres2 hl hm
  have hsw := swap_write_ok (s := set_pte s p { e with dirty := true }) (e := { e with dirty := true })
    hf hl (by simp [set_pte, hback]) hk hfit
  have hcond : (({ e with dirty := true } : page_table_entry).dirty = true ∧
      ({ e with dirty := true } : page_table_entry).fte ≠ none) := ⟨rfl, by simp [hfte]⟩
  unfold page_evict_body
  rw [deref_pte_eq_ok.mpr hp, bind_ok]
  simp only []
  rw [dirty_refresh_eq hp, hdd, deref_pte_eq_ok.mpr hres2.1,
    bind_ok, if_pos hcond, hw, hsw, bind_ok]
  clear hsw hres2 hd hm hk hfit hw hcond
  simp [set_pte, deref_pte, deref_fte, frame_free, pagedir_clear_page, hash_delete_frame,
    palloc_free_page, free_fte, hf, hl, ht, hfte, hback, frame_key]

theorem frame_key_set_fte (s : State) (f : Nat) (fe fe1 : frame_table_entry)
    (hf : s.ftes f = some fe) (hk : fe1.kpage = fe.kpage) (g : Nat) :
    frame_key (set_fte s f fe1) g = frame_key s g := by
  unfold frame_key set_fte
  by_cases h : g = f
  · subst h; simp [hf, hk]
  · simp [h]

theorem page_evict_resident {s : State} {p f : Nat} {e : page_table_entry}
    {fe : frame_table_entry} (fuel : Nat) (hres : resident s p e f fe) (hl : fe.lock = none) :
    page_evict fuel (some p) s
      = page_evict_body p (set_fte s f { fe with lock := some s.current }) := by
  obtain ⟨hp, hfte, hf, hback⟩ := hres
  simp only [page_evict, page_evict_locate, deref_pte_eq_ok.mpr hp, bind_ok, hfte, ne_eq,
    reduceCtorEq, not_false_eq_true, if_true, frame_acquire_ok hf hl, pure_eq_ok]

theorem resident_locked {s : State} {p f : Nat} {e : page_table_entry}
    {fe : frame_table_entry} (hres : resident s p e f fe) (l : Option Nat) :
    resident (set_fte s f { fe with lock := l }) p e f { fe with lock := l } := by
  obtain ⟨hp, hfte, hf, hback⟩ := hres
  exact ⟨hp, hfte, by simp [set_fte], hback⟩

theorem page_evict_to_swap {s : State} {p f k : Nat} {e : page_table_entry}
    {fe : frame_table_entry} (fuel : Nat)
    (hres : resident s p e f fe) (hl : fe.lock = none) (ht : s.frame_table_lock = none)
    (hd : e.dirty = true ∨ pagedir_is_dirty s e.thread e.upage = true)
    (hm : ¬(e.mapped = true ∧ e.file ≠ none))
    (hk : bitmap_scan s.swap_map = some k) (hfit : swap_fits s) :
    page_evict fuel (some p) s = Except.ok
      { s with
        ptes := fun q =>
          if q = p then
            some { e with
                   dirty := true, swapped := true,
                   sector := ((k * SECTORS_PER_PAGE : Nat) : Int), fte := none }
          else s.ptes q
        ftes := fun g => if g = f then none else s.ftes g
        frame_table := s.frame_table.eraseP (fun g => frame_key s g == some fe.kpage)
        free_frames := fe.kpage :: s.free_frames
        pagedir := fun t u => if t = e.thread ∧ u = e.upage then none else s.pagedir t u
        swap_map := s.swap_map.set k true
        swap_block := fun sec off =>
          if k * SECTORS_PER_PAGE ≤ sec ∧ sec < k * SECTORS_PER_PAGE + SECTORS_PER_PAGE
              ∧ off < BLOCK_SECTOR_SIZE
          then s.mem (fe.kpage + (sec - k * SECTORS_PER_PAGE) * BLOCK_SECTOR_SIZE + off)
          else s.swap_block sec off } := by
  rw [page_evict_resident fuel hres hl,
    page_evict_body_to_swap (resident_locked hres (some s.current)) rfl ht hd hm hk hfit]
  have hkey := frame_key_set_fte s f fe { fe with lock := some s.current } hres.2.2.1 rfl
  simp only [hkey]
  simp [set_fte]

theorem page_write_to_file {s : State} {p f file : Nat} {e : page_table_entry}
    {fe : frame_table_entry}
    (hres : resident s p e f fe) (hl : fe.lock = some s.current)
    (hm : e.mapped = true) (hfile : e.file = some file) :
    page_write p s = Except.ok
      (set_pte (file_write_at s file fe.kpage (to_int e.file_bytes) e.file_ofs) p
        { e with mapped := false }) := by
  obtain ⟨hp, hfte, hf, _⟩ := hres
  simp only [page_write, deref_pte_eq_ok.mpr hp, bind_ok, hfte, ne_eq, reduceCtorEq,
    not_false_eq_true, ASSERT_pos, non_null_some, deref_fte_eq_ok.mpr hf, hl, hm, hfile,
    pure_eq_ok]

theorem page_evict_body_to_file {s : State} {p f file : Nat} {e : page_table_entry}
    {fe : frame_table_entry}
    (hres : resident s p e f fe) (hl : fe.lock = some s.current) (ht : s.frame_table_lock = none)
    (hd : e.dirty = true ∨ pagedir_is_dirty s e.thread e.upage = true)
    (hm : e.mapped = true) (hfile : e.file = some file) :
    page_evict_body p s = Except.ok
      { s with
        ptes := fun q =>
          if q = p then some { e with dirty := true, mapped := false, fte := none }
          else s.ptes q
        ftes := fun g => if g = f then none else s.ftes g
        frame_table := s.frame_table.eraseP (fun g => frame_key s g == some fe.kpage)
        free_frames := fe.kpage :: s.free_frames
        pagedir := fun t u => if t = e.thread ∧ u = e.upage then none else s.pagedir t u
        file_data := fun fl i =>
          if fl = file ∧ e.file_ofs ≤ i ∧
              i < e.file_ofs + min (to_int e.file_bytes).toNat (s.file_len file - e.file_ofs)
          then s.mem (fe.kpage + (i - e.file_ofs))
          else s.file_data fl i } := by
  have hdd : (e.dirty || pagedir_is_dirty s e.thread e.upage) = true := by
    rcases hd with h | h <;> simp [h]
  obtain ⟨hp, hfte, hf, hback⟩ := hres
  have hres2 : resident (set_pte s p { e with dirty := true }) p { e with dirty := true } f fe :=
    ⟨by simp [set_pte], hfte, hf, hback⟩
  have hw := page_write_to_file hres2 hl hm hfile
  have hcond : (({ e with dirty := true } : page_table_entry).dirty = true ∧
      ({ e with dirty := true } : page_table_entry).fte ≠ none) := ⟨rfl, by simp [hfte]⟩
  unfold page_evict_body
  rw [deref_pte_eq_ok.mpr hp, bind_ok]
  simp only []
  rw [dirty_refresh_eq hp, hdd, deref_pte_eq_ok.mpr hres2.1,
    bind_ok, if_pos hcond, hw, bind_ok]
  clear hres2 hd hw hcond
  simp [set_pte, deref_pte, deref_fte, frame_free, pagedir_clear_page, hash_delete_frame,
    palloc_free_page, free_fte, hf, hl, ht, hfte, hback, frame_key, file_write_at]

theorem page_evict_to_file {s : State} {p f file : Nat} {e : page_table_entry}
    {fe : frame_table_entry} (fuel : Nat)
    (hres : resident s p e f fe) (hl : fe.lock = none) (ht : s.frame_table_lock = none)
    (hd : e.dirty = true ∨ pagedir_is_dirty s e.thread e.upage = true)
    (hm : e.mapped = true) (hfile : e.file = some file) :
    page_evict fuel (some p) s = Except.ok
      { s with
        ptes := fun q =>
          if q = p then some { e with dirty := true, mapped := false, fte := none }
          else s.ptes q
        ftes := fun g => if g = f then none else s.ftes g
        frame_table := s.frame_table.eraseP (fun g => frame_key s g == some fe.kpage)
        free_frames := fe.kpage :: s.free_frames
        pagedir := fun t u => if t = e.thread ∧ u = e.upage then none else s.pagedir t u
        file_data := fun fl i =>
          if fl = file ∧ e.file_ofs ≤ i ∧
              i < e.file_ofs + min (to_int e.file_bytes).toNat (s.file_len file - e.file_ofs)
          then s.mem (fe.kpage + (i - e.file_ofs))
          else s.file_data fl i } := by
  rw [page_evict_resident fuel hres hl,
    page_evict_body_to_file (resident_locked hres (some s.current)) rfl ht hd hm hfile]
  have hkey := frame_key_set_fte s f fe { fe with lock := some s.current } hres.2.2.1 rfl
  simp only [hkey]
  simp [set_fte]

theorem eraseP_no_match {α : Type} (pred : α → Bool) (l : List α) (hn : l.Nodup)
    (hu : ∀ a ∈ l, ∀ b ∈ l, pred a = true → pred b = true → a = b) :
    ∀ a ∈ l.eraseP pred, pred a = false := by
  induction l with
  | nil => simp
  | cons x xs ih =>
    intro a ha
    have hx : x ∉ xs := (List.nodup_cons.mp hn).1
    have hxs : xs.Nodup := (List.nodup_cons.mp hn).2
    by_cases hp : pred x = true
    · rw [List.eraseP_cons_of_pos hp] at ha
      by_contra hc
      have hpa : pred a = true := by simpa using hc
      have hax : a = x := hu a (List.mem_cons_of_mem _ ha) x (List.mem_cons_self _ _) hpa hp
      exact hx (hax ▸ ha)
    · rw [List.eraseP_cons_of_neg hp] at ha
      rcases List.mem_cons.mp ha with h | h
      · rw [h]; simpa using hp
      · exact ih hxs (fun a ha b hb => hu a (List.mem_cons_of_mem _ ha) b
          (List.mem_cons_of_mem _ hb)) a h

/-- After `hash_delete` on a well-formed frame table no filed entry has the
deleted key. -/
theorem frame_table_erase_key {s : State} (hok : frame_table_ok s) (key : Nat) :
    ∀ g ∈ s.frame_table.eraseP (fun g => frame_key s g == some key),
      frame_key s g ≠ some key := by
  intro g hg
  have h := eraseP_no_match (fun g => frame_key s g == some key) s.frame_table hok.1
    (fun a ha b hb h1 h2 => hok.2 a ha b hb (by
      have e1 : frame_key s a = some key := by simpa using h1
      have e2 : frame_key s b = some key := by simpa using h2
      rw [e1, e2])) g hg
  simpa using h

/-! ## Lemmas: fault resolution -/

theorem page_get_found {s : State} {vaddr p : Nat} (env : Env) (stack : Bool)
    (hu : vaddr < PHYS_BASE)
    (hfind : hash_find_page s s.current (pg_round_down vaddr) = some p) :
    page_get env vaddr stack s = (some p, s) := by
  simp [page_get, is_user_vaddr, hu, hfind]

theorem page_load_found {s : State} {vaddr p : Nat} {e : page_table_entry} (fuel : Nat)
    (env : Env) (h0 : vaddr ≠ 0) (hu : vaddr < PHYS_BASE)
    (hfind : hash_find_page s s.current (pg_round_down vaddr) = some p)
    (hp : s.ptes p = some e) (hfte : e.fte = none) :
    page_load fuel env vaddr s =
      (frame_alloc fuel env p s >>= fun r => page_load_frame env p r.1 r.2) := by
  simp only [page_load, h0, if_false, page_get_found env true hu hfind, deref_pte_eq_ok.mpr hp,
    bind_ok, hfte, ne_eq, not_true_eq_false]

theorem frame_alloc_free_frame {s : State} {k : Nat} {rest : List Nat} (fuel : Nat) (env : Env)
    (p : Nat) (hfree : s.free_frames = k :: rest) :
    frame_alloc fuel env p s
      = frame_alloc_entry env p k (memset { s with free_frames := rest } k 0 PGSIZE) := by
  simp [frame_alloc, frame_alloc_page, palloc_get_page, hfree]

theorem frame_alloc_entry_no_memory {s : State} {env : Env} (p k : Nat)
    (hm : env.malloc_fte_ok = false) :
    frame_alloc_entry env p k s = Except.ok (none, s) := by
  simp [frame_alloc_entry, malloc, hm]

theorem frame_alloc_entry_ok {s : State} {env : Env} (p k : Nat)
    (hm : env.malloc_fte_ok = true) (ht : s.frame_table_lock = none)
    (hfresh : heap_fresh s) (hkey : ∀ g ∈ s.frame_table, frame_key s g ≠ some k) :
    frame_alloc_entry env p k s = Except.ok (some s.next_ptr,
      { s with
        next_ptr := s.next_ptr + 1
        ftes := fun g => if g = s.next_ptr then some ⟨k, s.current, p, none⟩ else s.ftes g
        frame_table := s.frame_table.take env.bucket_pos ++
          s.next_ptr :: s.frame_table.drop env.bucket_pos }) := by
  have hfind : List.find?
      (fun g => Option.map (fun fe : frame_table_entry => fe.kpage)
          (if g = s.next_ptr then some ⟨k, s.current, p, none⟩ else s.ftes g) == some k)
      s.frame_table = none := by
    rw [List.find?_eq_none]
    intro g hg
    have hne : g ≠ s.next_ptr := fun h => (hfresh g (by omega)).2 hg
    have := hkey g hg
    simp only [frame_key] at this
    simp [hne, this]
  simp [frame_alloc_entry, malloc, hm, set_fte, ht, hash_insert_frame, frame_key, hfind]

theorem page_load_unwind_ok {s : State} {p f : Nat} {e : page_table_entry}
    {fe : frame_table_entry} (hp : s.ptes p = some e) (hf : s.ftes f = some fe)
    (hl : fe.lock = some s.current) (ht : s.frame_table_lock = none) :
    page_load_unwind p f s = Except.ok (none,
      { s with
        ptes := fun q => if q = p then some { e with fte := none } else s.ptes q
        ftes := fun g => if g = f then none else s.ftes g
        frame_table := s.frame_table.eraseP (fun g => frame_key s g == some fe.kpage)
        free_frames := fe.kpage :: s.free_frames }) := by
  simp [page_load_unwind, frame_free_ok hf hl ht, deref_pte, hp, set_pte]

theorem page_load_install_ok {s : State} {p f : Nat} {e : page_table_entry}
    {fe : frame_table_entry} {env : Env} (hp : s.ptes p = some e) (hf : s.ftes f = some fe)
    (hl : fe.lock = some s.current) (hpd : s.pagedir s.current e.upage = none)
    (hi : env.install_ok = true) :
    page_load_install env p f s = Except.ok (some p,
      { s with
        ptes := fun q => if q = p then some { e with accessed := true } else s.ptes q
        ftes := fun g => if g = f then some { fe with lock := none } else s.ftes g
        pagedir := fun t u =>
          if t = s.current ∧ u = e.upage then some ⟨fe.kpage, e.writable, false⟩
          else s.pagedir t u }) := by
  simp [page_load_install, deref_pte, deref_fte, hp, hf, install_page, hpd, hi, frame_release,
    hl, set_fte, set_pte]

theorem page_load_install_fail {s : State} {p f : Nat} {e : page_table_entry}
    {fe : frame_table_entry} {env : Env} (hp : s.ptes p = some e) (hf : s.ftes f = some fe)
    (hi : env.install_ok = false ∨ s.pagedir s.current e.upage ≠ none) :
    page_load_install env p f s = page_load_unwind p f s := by
  have h : install_page env.install_ok e.upage fe.kpage e.writable s = (false, s) := by
    unfold install_page
    cases hpd : s.pagedir s.current e.upage with
    | some m => rfl
    | none =>
      rcases hi with h | h
      · simp [h]
      · exact absurd hpd h
  simp [page_load_install, deref_pte, deref_fte, hp, hf, h]

theorem page_load_frame_eq {s : State} {p f : Nat} {e : page_table_entry}
    {fe : frame_table_entry} (env : Env) (hp : s.ptes p = some e) (hf : s.ftes f = some fe)
    (hl : fe.lock = none) :
    page_load_frame env p (some f) s =
      (page_read p (set_fte (set_pte s p { e with fte := some f }) f
          { fe with lock := some s.current }) >>= fun r =>
        if !r.1 then page_load_unwind p f r.2 else page_load_install env p f r.2) := by
  have hf3 : (set_pte s p { e with fte := some f }).ftes f = some fe := hf
  simp only [page_load_frame, deref_pte_eq_ok.mpr hp, bind_ok, frame_acquire_ok hf3 hl]
  rfl

theorem page_read_swapped {s : State} {p f k : Nat} {e : page_table_entry}
    {fe : frame_table_entry} (hres : resident s p e f fe) (hl : fe.lock = some s.current)
    (hsw : e.swapped = true) (hs : e.sector = ((k * SECTORS_PER_PAGE : Nat) : Int))
    (hk : k < s.swap_map.length) (hfit : swap_fits s) :
    page_read p s = Except.ok (true,
      { s with
        ptes := fun q =>
          if q = p then some { e with swapped := false, sector := -1 } else s.ptes q
        swap_map := s.swap_map.set k false
        mem := fun a =>
          if fe.kpage ≤ a ∧ a < fe.kpage + PGSIZE
          then s.swap_block (k * SECTORS_PER_PAGE + (a - fe.kpage) / BLOCK_SECTOR_SIZE)
                ((a - fe.kpage) % BLOCK_SECTOR_SIZE)
          else s.mem a }) := by
  obtain ⟨hp, hfte, hf, hback⟩ := hres
  subst hback
  simp [page_read, deref_pte, deref_fte, hp, hfte, hf, hl, hsw, swap_read_ok hf hl hp hs hk hfit,
    set_pte]

theorem page_read_anonymous {s : State} {p f : Nat} {e : page_table_entry}
    {fe : frame_table_entry} (hres : resident s p e f fe) (hl : fe.lock = some s.current)
    (hsw : e.swapped = false) (hfile : e.file = none) :
    page_read p s = Except.ok (true, memset s fe.kpage 0 PGSIZE) := by
  obtain ⟨hp, hfte, hf, hback⟩ := hres
  simp [page_read, deref_pte, deref_fte, hp, hfte, hf, hl, hsw, hfile]

theorem hash_find_page_congr {s s1 : State} (t upage : Nat)
    (hpt : s1.page_table = s.page_table)
    (hup : ∀ q, (s1.ptes q).map (fun e => e.upage) = (s.ptes q).map (fun e => e.upage)) :
    hash_find_page s1 t upage = hash_find_page s t upage := by
  unfold hash_find_page
  rw [hpt]
  congr 1
  funext q
  rw [hup q]

theorem not_ok_some_of_bind_none {α : Type} {x : Except Fault α}
    {g : α → State} {q : Nat} {s : State}
    (h : (x >>= fun a => (pure (none, g a) : Except Fault (Option Nat × State)))
      = Except.ok (some q, s)) : False := by
  obtain ⟨a, _, h2⟩ := bind_eq_ok h
  simp at h2

theorem page_load_unwind_none {p f q : Nat} {s s1 : State}
    (h : page_load_unwind p f s = Except.ok (some q, s1)) : False := by
  unfold page_load_unwind at h
  obtain ⟨a, _, h2⟩ := bind_eq_ok h
  obtain ⟨b, _, h3⟩ := bind_eq_ok h2
  simp at h3

theorem exists_state_eq {α : Type} {x : Except Fault (α × State)} {a : α} {big : State}
    (h : x = Except.ok (a, big)) : ∃ sB, x = Except.ok (a, sB) ∧ sB = big :=
  ⟨_, h, rfl⟩

theorem to_int_file_bytes {n : Nat} (hn : n ≤ PGSIZE) : to_int n = (n : Int) :=
  to_int_of_lt (by simp only [PGSIZE] at hn; omega)

/-- Closed form of `page_read` on a file-backed page, by whether the file
holds the declared bytes. -/
theorem page_read_file {s : State} {p f file : Nat} {e : page_table_entry}
    {fe : frame_table_entry} (hres : resident s p e f fe) (hl : fe.lock = some s.current)
    (hsw : e.swapped = false) (hfile : e.file = some file) (hn : e.file_bytes ≤ PGSIZE) :
    page_read p s = Except.ok
      (if e.file_bytes ≤ s.file_len file - e.file_ofs then
        (true,
          { s with
            mem := fun a =>
              if fe.kpage + e.file_bytes ≤ a ∧ a < fe.kpage + PGSIZE then 0
              else if fe.kpage ≤ a ∧ a < fe.kpage + e.file_bytes
                then s.file_data file (e.file_ofs + (a - fe.kpage))
                else s.mem a })
      else
        (false,
          { s with
            mem := fun a =>
              if fe.kpage ≤ a ∧ a < fe.kpage + (s.file_len file - e.file_ofs)
                then s.file_data file (e.file_ofs + (a - fe.kpage))
                else s.mem a })) := by
  obtain ⟨hp, hfte, hf, hback⟩ := hres
  have hti := to_int_file_bytes hn
  have hsz : (PGSIZE + WORD - e.file_bytes % WORD) % WORD = PGSIZE - e.file_bytes := by
    simp only [PGSIZE, WORD] at hn ⊢; omega
  simp only [page_read, deref_pte_eq_ok.mpr hp, bind_ok, hfte, ne_eq, reduceCtorEq,
    not_false_eq_true, ASSERT_pos, non_null_some, deref_fte_eq_ok.mpr hf, hl, hsw,
    Bool.false_eq_true, if_false, hfile, file_read_at, hti, Int.toNat_ofNat, hsz, memset,
    pure_eq_ok]
  by_cases hle : e.file_bytes ≤ s.file_len file - e.file_ofs
  · have hmin : min e.file_bytes (s.file_len file - e.file_ofs) = e.file_bytes :=
      Nat.min_eq_left hle
    have hadd : fe.kpage + e.file_bytes + (PGSIZE - e.file_bytes) = fe.kpage + PGSIZE := by
      omega
    simp only [hmin, hle, if_true, not_true_eq_false, if_false, hadd]
  · have hmin : min e.file_bytes (s.file_len file - e.file_ofs) = s.file_len file - e.file_ofs :=
      Nat.min_eq_right (by omega)
    have hne : ((s.file_len file - e.file_ofs : Nat) : Int) ≠ (e.file_bytes : Int) := by omega
    simp only [hmin, hle, if_false, hne, not_false_eq_true, if_true]

/-! ## Lemmas: what a returning call has done -/

theorem swap_write_loop_frame (sector kpage : Nat) (s : State) :
    ∃ b, swap_write_loop sector kpage s = { s with swap_block := b } := by
  unfold swap_write_loop
  generalize List.range SECTORS_PER_PAGE = l
  induction l generalizing s with
  | nil => exact ⟨s.swap_block, rfl⟩
  | cons i l ih =>
    obtain ⟨b, hb⟩ := ih (block_write s ((sector + i) % WORD) (kpage + i * BLOCK_SECTOR_SIZE))
    exact ⟨b, by rw [List.foldl_cons, hb]; rfl⟩

/-- What a `swap_write` that returns has done. -/
theorem swap_write_inv {s s1 : State} {fte : Option Nat} (h : swap_write fte s = Except.ok s1) :
    ∃ f fe e k b, fte = some f ∧ s.ftes f = some fe ∧ s.ptes fe.pte = some e ∧
      fe.lock = some s.current ∧ bitmap_scan s.swap_map = some k ∧
      s1 = set_pte { s with swap_map := s.swap_map.set k true, swap_block := b } fe.pte
        { e with swapped := true, sector := to_int (k * SECTORS_PER_PAGE % WORD) } := by
  unfold swap_write at h
  obtain ⟨_, h1, h⟩ := bind_eq_ok h
  obtain ⟨f, h2, h⟩ := bind_eq_ok h
  obtain ⟨fe, h3, h⟩ := bind_eq_ok h
  obtain ⟨_, h4, h⟩ := bind_eq_ok h
  unfold bitmap_scan_and_flip at h
  cases hk : bitmap_scan s.swap_map with
  | none => simp [hk] at h
  | some k =>
    simp only [hk] at h
    obtain ⟨b, hb⟩ := swap_write_loop_frame (k * SECTORS_PER_PAGE % WORD) fe.kpage
      { s with swap_map := s.swap_map.set k true }
    rw [hb] at h
    obtain ⟨e, h5, h⟩ := bind_eq_ok h
    simp only [pure_eq_ok, Except.ok.injEq] at h
    exact ⟨f, fe, e, k, b, non_null_eq_ok h2, deref_fte_eq_ok.mp h3, deref_pte_eq_ok.mp h5,
      ASSERT_eq_ok h4, rfl, h.symm⟩

/-- What a `frame_free` that returns has done. -/
theorem frame_free_inv {s s1 : State} {fte : Option Nat} (h : frame_free fte s = Except.ok s1) :
    ∃ f fe, fte = some f ∧ s.ftes f = some fe ∧ fe.lock = some s.current ∧
      s.frame_table_lock = none ∧
      s1 = { s with
        frame_table := s.frame_table.eraseP (fun g => frame_key s g == some fe.kpage)
        free_frames := fe.kpage :: s.free_frames
        ftes := fun g => if g = f then none else s.ftes g } := by
  have h0 := h
  unfold frame_free at h
  obtain ⟨f, h2, h⟩ := bind_eq_ok h
  obtain ⟨fe, h3, h⟩ := bind_eq_ok h
  obtain ⟨_, h4, h⟩ := bind_eq_ok h
  obtain ⟨l, h5, h⟩ := bind_eq_ok h
  obtain ⟨ht, _⟩ := lock_acquire_eq_ok h5
  have hf := deref_fte_eq_ok.mp h3
  have hl := ASSERT_eq_ok h4
  have hptr := non_null_eq_ok h2
  subst hptr
  refine ⟨f, fe, rfl, hf, hl, ht, ?_⟩
  rw [frame_free_ok hf hl ht] at h0
  simp only [Except.ok.injEq] at h0
  exact h0.symm

/-- What a `frame_acquire` that returns has done. -/
theorem frame_acquire_inv {s s1 : State} {fte : Option Nat}
    (h : frame_acquire fte s = Except.ok s1) :
    ∃ f fe, fte = some f ∧ s.ftes f = some fe ∧ fe.lock = none ∧
      s1 = set_fte s f { fe with lock := some s.current } := by
  unfold frame_acquire at h
  obtain ⟨f, h2, h⟩ := bind_eq_ok h
  obtain ⟨fe, h3, h⟩ := bind_eq_ok h
  obtain ⟨l, h5, h⟩ := bind_eq_ok h
  obtain ⟨hl, hl2⟩ := lock_acquire_eq_ok h5
  simp only [pure_eq_ok, Except.ok.injEq] at h
  subst hl2
  exact ⟨f, fe, non_null_eq_ok h2, deref_fte_eq_ok.mp h3, hl, h.symm⟩

/-- What a `frame_release` that returns has done. -/
theorem frame_release_inv {s s1 : State} {fte : Option Nat}
    (h : frame_release fte s = Except.ok s1) :
    ∃ f fe, fte = some f ∧ s.ftes f = some fe ∧ fe.lock = some s.current ∧
      s1 = set_fte s f { fe with lock := none } := by
  unfold frame_release at h
  obtain ⟨f, h2, h⟩ := bind_eq_ok h
  obtain ⟨fe, h3, h⟩ := bind_eq_ok h
  obtain ⟨l, h5, h⟩ := bind_eq_ok h
  obtain ⟨hl, hl2⟩ := lock_release_eq_ok h5
  simp only [pure_eq_ok, Except.ok.injEq] at h
  subst hl2
  exact ⟨f, fe, non_null_eq_ok h2, deref_fte_eq_ok.mp h3, hl, h.symm⟩

/-- What a `page_write` that returns has done. -/
theorem page_write_inv {s s1 : State} {p : Nat} (h : page_write p s = Except.ok s1) :
    ∃ e f fe, s.ptes p = some e ∧ e.fte = some f ∧ s.ftes f = some fe ∧
      fe.lock = some s.current ∧
      ((∃ file, e.mapped = true ∧ e.file = some file ∧
          s1 = set_pte (file_write_at s file fe.kpage (to_int e.file_bytes) e.file_ofs) p
            { e with mapped := false }) ∨
       (¬(e.mapped = true ∧ e.file ≠ none) ∧ swap_write (some f) s = Except.ok s1)) := by
  unfold page_write at h
  obtain ⟨e, h1, h⟩ := bind_eq_ok h
  obtain ⟨_, h2, h⟩ := bind_eq_ok h
  obtain ⟨f, h3, h⟩ := bind_eq_ok h
  obtain ⟨fe, h4, h⟩ := bind_eq_ok h
  obtain ⟨_, h5, h⟩ := bind_eq_ok h
  have hfte := non_null_eq_ok h3
  refine ⟨e, f, fe, deref_pte_eq_ok.mp h1, hfte, deref_fte_eq_ok.mp h4, ASSERT_eq_ok h5, ?_⟩
  cases hm : e.mapped with
  | false =>
    right
    simp only [hm, hfte] at h
    exact ⟨by simp, h⟩
  | true =>
    cases hfile : e.file with
    | none =>
      right
      simp only [hm, hfile, hfte] at h
      exact ⟨by simp, h⟩
    | some file =>
      left
      simp only [hm, hfile, pure_eq_ok, Except.ok.injEq] at h
      exact ⟨file, rfl, rfl, h.symm⟩

/-- What a `page_read` that returns has done. -/
theorem page_read_inv {s s1 : State} {p : Nat} {b : Bool}
    (h : page_read p s = Except.ok (b, s1)) :
    ∃ e f fe, s.ptes p = some e ∧ e.fte = some f ∧ s.ftes f = some fe ∧
      fe.lock = some s.current ∧
      ((e.swapped = true ∧ b = true ∧ swap_read (some f) s = Except.ok s1) ∨
       (e.swapped = false ∧ ∃ m, s1 = { s with mem := m })) := by
  unfold page_read at h
  obtain ⟨e, h1, h⟩ := bind_eq_ok h
  obtain ⟨_, h2, h⟩ := bind_eq_ok h
  obtain ⟨f, h3, h⟩ := bind_eq_ok h
  obtain ⟨fe, h4, h⟩ := bind_eq_ok h
  obtain ⟨_, h5, h⟩ := bind_eq_ok h
  have hfte := non_null_eq_ok h3
  refine ⟨e, f, fe, deref_pte_eq_ok.mp h1, hfte, deref_fte_eq_ok.mp h4, ASSERT_eq_ok h5, ?_⟩
  cases hsw : e.swapped with
  | true =>
    left
    simp only [hsw, if_true, hfte] at h
    obtain ⟨s2, h6, h⟩ := bind_eq_ok h
    simp only [pure_eq_ok, Except.ok.injEq, Prod.mk.injEq] at h
    rw [← h.2]
    exact ⟨rfl, h.1.symm, h6⟩
  | false =>
    right
    refine ⟨rfl, ?_⟩
    simp only [hsw, Bool.false_eq_true, if_false] at h
    cases hfile : e.file with
    | none =>
      simp only [hfile, pure_eq_ok, Except.ok.injEq, Prod.mk.injEq] at h
      exact ⟨_, h.2.symm⟩
    | some file =>
      simp only [hfile] at h
      split at h
      · simp only [pure_eq_ok, Except.ok.injEq, Prod.mk.injEq] at h
        exact ⟨_, h.2.symm⟩
      · simp only [pure_eq_ok, Except.ok.injEq, Prod.mk.injEq] at h
        exact ⟨_, h.2.symm⟩

/-- What a `frame_alloc_entry` that hands out an entry has done. -/
theorem frame_alloc_entry_inv {s s1 : State} {env : Env} {p k f : Nat}
    (h : frame_alloc_entry env p k s = Except.ok (some f, s1)) :
    f = s.next_ptr ∧ s.frame_table_lock = none ∧ f ∉ s.frame_table ∧
      (∀ g ∈ s.frame_table, frame_key s g ≠ some k) ∧
      s1 = { s with
        next_ptr := s.next_ptr + 1
        ftes := fun g => if g = s.next_ptr then some ⟨k, s.current, p, none⟩ else s.ftes g
        frame_table := s.frame_table.take env.bucket_pos ++
          s.next_ptr :: s.frame_table.drop env.bucket_pos } := by
  cases hm : env.malloc_fte_ok with
  | false => simp [frame_alloc_entry, malloc, hm] at h
  | true =>
    cases ht : s.frame_table_lock with
    | some a =>
      simp only [frame_alloc_entry, malloc, hm, if_true, set_fte, ht, lock_acquire] at h
      split at h <;> simp at h
    | none =>
      simp only [frame_alloc_entry, malloc, hm, if_true, set_fte, ht, lock_acquire_none, bind_ok,
        hash_insert_frame, frame_key, if_true, Option.map_some'] at h
      split at h
      · rename_i old s5 heq
        obtain ⟨e, _, h⟩ := bind_eq_ok h
        obtain ⟨l1, _, h⟩ := bind_eq_ok h
        simp at h
      · rename_i s5 heq
        split at heq
        · simp at heq
        · rename_i hfind
          simp only [Prod.mk.injEq, true_and] at heq
          rw [← heq] at h
          simp only [lock_release_self, bind_ok, pure_eq_ok, Except.ok.injEq, Prod.mk.injEq,
            Option.some.injEq] at h
          rw [List.find?_eq_none] at hfind
          have hnotin : s.next_ptr ∉ s.frame_table := by
            intro hin
            have := hfind _ hin
            simp at this
          refine ⟨h.1.symm, rfl, h.1 ▸ hnotin, ?_, ?_⟩
          · intro g hg
            have hne : g ≠ s.next_ptr := fun hh => hnotin (hh ▸ hg)
            have := hfind g hg
            simpa [hne, frame_key] using this
          · rw [← h.2]

/-- `page_read` leaves the frame bookkeeping alone and keeps the identity of
every descriptor. -/
theorem page_read_frame {s s1 : State} {p : Nat} {b : Bool}
    (h : page_read p s = Except.ok (b, s1)) :
    s1.ftes = s.ftes ∧ s1.frame_table = s.frame_table ∧
    s1.frame_table_lock = s.frame_table_lock ∧ s1.free_frames = s.free_frames ∧
    s1.current = s.current ∧ s1.pagedir = s.pagedir ∧ s1.next_ptr = s.next_ptr ∧
    (∀ q e, s.ptes q = some e → ∃ e1, s1.ptes q = some e1 ∧ e1.fte = e.fte ∧
      e1.upage = e.upage ∧ e1.writable = e.writable ∧ e1.thread = e.thread) := by
  obtain ⟨e, f, fe, hp, hfte, hf, hl, hcase⟩ := page_read_inv h
  rcases hcase with ⟨_, _, hsr⟩ | ⟨_, m, hm⟩
  · obtain ⟨f1, fe1, e1, hf1, hfe1, he1, _, _, _, hs⟩ := swap_read_inv hsr
    rw [swap_read_loop_eq] at hs
    subst hs
    refine ⟨rfl, rfl, rfl, rfl, rfl, rfl, rfl, ?_⟩
    intro q eq hq
    by_cases hqp : q = fe1.pte
    · subst hqp
      rw [he1] at hq
      simp only [Option.some.injEq] at hq
      subst hq
      exact ⟨_, if_pos rfl, rfl, rfl, rfl, rfl⟩
    · exact ⟨eq, by simp [set_pte, hqp, hq], rfl, rfl, rfl, rfl⟩
  · subst hm
    exact ⟨rfl, rfl, rfl, rfl, rfl, rfl, rfl, fun q eq hq => ⟨eq, hq, rfl, rfl, rfl, rfl⟩⟩

theorem install_page_fail {ok : Bool} {upage kpage : Nat} {w : Bool} {s : State}
    (h : (install_page ok upage kpage w s).1 = false) :
    install_page ok upage kpage w s = (false, s) := by
  unfold install_page at h ⊢
  cases hpd : s.pagedir s.current upage with
  | some m => rfl
  | none =>
    simp only [hpd] at h ⊢
    cases ok with
    | true => simp at h
    | false => rfl

theorem eraseP_inserted {α : Type} (pred : α → Bool) (l : List α) (a : α) (pos : Nat)
    (ha : pred a = true) (hl : ∀ x ∈ l, pred x = false) :
    (l.take pos ++ a :: l.drop pos).eraseP pred = l := by
  rw [List.eraseP_append_right, List.eraseP_cons_of_pos ha, List.take_append_drop]
  intro b hb
  simpa using hl b (List.mem_of_mem_take hb)

theorem page_alloc_fresh {s : State} {env : Env} {vaddr : Nat} (w : Bool)
    (hm : env.malloc_pte_ok = true)
    (hnone : hash_find_page s s.current (pg_round_down vaddr) = none)
    (hfresh : s.next_ptr ∉ s.page_table s.current) :
    page_alloc env vaddr w s = (some s.next_ptr,
      { s with
        next_ptr := s.next_ptr + 1
        ptes := fun q =>
          if q = s.next_ptr then
            some { page_init s.current with upage := pg_round_down vaddr, writable := w }
          else s.ptes q
        page_table := fun t =>
          if t = s.current then s.next_ptr :: s.page_table s.current else s.page_table t }) := by
  have hfind : hash_find_page
      (set_pte { s with next_ptr := s.next_ptr + 1 } s.next_ptr
        { page_init s.current with upage := pg_round_down vaddr, writable := w })
      s.current (pg_round_down vaddr) = none := by
    unfold hash_find_page at hnone ⊢
    rw [List.find?_eq_none] at hnone ⊢
    intro q hq
    have hne : q ≠ s.next_ptr := fun h => hfresh (h ▸ hq)
    have := hnone q hq
    simpa [set_pte, hne] using this
  simp only [page_alloc, malloc, hm, if_true, hash_insert_page]
  simp only [set_pte] at hfind ⊢
  rw [hfind]

/-! ## Lemmas: victim selection -/

theorem hash_next_times_elem (n cnt i : Nat) (h : i + cnt < n) :
    hash_next_times n cnt (hash_iterator.elem i) = Except.ok (hash_iterator.elem (i + cnt)) := by
  induction cnt generalizing i with
  | zero => rfl
  | succ c ih =>
    have h1 : i + 1 < n := by omega
    simp only [hash_next_times, hash_next, h1, if_true, bind_ok]
    rw [ih (i + 1) (by omega)]
    congr 2
    omega

theorem vm_inv_but_of_inv {s : State} (p : Nat) (h : vm_inv s) : vm_inv_but p s :=
  ⟨fun q e hq _ hs => h.1 q e hq hs, h.2.1, h.2.2⟩

theorem vm_inv_of_but {s : State} {p : Nat} (h : vm_inv_but p s)
    (hp : ∀ e, s.ptes p = some e → e.swapped = true → e.fte = none) : vm_inv s := by
  refine ⟨?_, h.2.1, h.2.2⟩
  intro q e hq hs
  by_cases hqp : q = p
  · subst hqp; exact hp e hq hs
  · exact h.1 q e hq hqp hs

theorem residency_kept_refl (s : State) : residency_kept s s :=
  ⟨Nat.le_refl _, fun _ => rfl, fun _ => rfl⟩

theorem residency_kept_trans {s s1 s2 : State} (h1 : residency_kept s s1)
    (h2 : residency_kept s1 s2) : residency_kept s s2 :=
  ⟨Nat.le_trans h1.1 h2.1, fun f => (h2.2.1 f).trans (h1.2.1 f),
    fun p => (h2.2.2 p).trans (h1.2.2 p)⟩

theorem residency_kept_pte {s s1 : State} (h : residency_kept s s1) {p : Nat}
    {e1 : page_table_entry} (hp : s1.ptes p = some e1) :
    ∃ e, s.ptes p = some e ∧ e.swapped = e1.swapped ∧ e.fte = e1.fte := by
  have := h.2.2 p
  rw [hp] at this
  cases hq : s.ptes p with
  | none => rw [hq] at this; simp at this
  | some e =>
    rw [hq] at this
    simp only [Option.map_some', Option.some.injEq, Prod.mk.injEq] at this
    exact ⟨e, rfl, this.1.symm, this.2.symm⟩

theorem residency_kept_fte {s s1 : State} (h : residency_kept s s1) {f : Nat}
    {fe : frame_table_entry} (hf : s.ftes f = some fe) :
    ∃ fe1, s1.ftes f = some fe1 ∧ fe1.pte = fe.pte := by
  have := h.2.1 f
  rw [hf] at this
  cases hq : s1.ftes f with
  | none => rw [hq] at this; simp at this
  | some fe1 =>
    rw [hq] at this
    simp only [Option.map_some', Option.some.injEq] at this
    exact ⟨fe1, rfl, this⟩

theorem vm_inv_but_kept {s s1 : State} {p : Nat} (hk : residency_kept s s1)
    (h : vm_inv_but p s) : vm_inv_but p s1 := by
  refine ⟨?_, ?_, ?_⟩
  · intro q e1 hq hqp hs
    obtain ⟨e, he, hsw, hfte⟩ := residency_kept_pte hk hq
    rw [← hfte]
    exact h.1 q e he hqp (hsw.trans hs)
  · intro q e1 f hq hf
    obtain ⟨e, he, _, hfte⟩ := residency_kept_pte hk hq
    obtain ⟨fe, hfe, hback⟩ := h.2.1 q e f he (hfte.trans hf)
    obtain ⟨fe1, hfe1, hpte⟩ := residency_kept_fte hk hfe
    exact ⟨fe1, hfe1, hpte.trans hback⟩
  · intro f hf
    have h1 := h.2.2 f (Nat.le_trans hk.1 hf)
    have := hk.2.1 f
    rw [h1] at this
    cases hq : s1.ftes f with
    | none => rfl
    | some fe => rw [hq] at this; simp at this

theorem vm_inv_kept {s s1 : State} (hk : residency_kept s s1) (h : vm_inv s) : vm_inv s1 := by
  have hb := vm_inv_but_kept (p := 0) hk (vm_inv_but_of_inv 0 h)
  refine vm_inv_of_but hb ?_
  intro e1 hq hs
  obtain ⟨e, he, hsw, hfte⟩ := residency_kept_pte hk hq
  rw [← hfte]
  exact h.1 0 e he (hsw.trans hs)

theorem kept_of_eq {s s1 : State} (h1 : s1.next_ptr = s.next_ptr) (h2 : s1.ftes = s.ftes)
    (h3 : s1.ptes = s.ptes) : residency_kept s s1 :=
  ⟨Nat.le_of_eq h1.symm, fun f => by rw [h2], fun p => by rw [h3]⟩

theorem kept_set_pte {s : State} {p : Nat} {e e1 : page_table_entry} (hp : s.ptes p = some e)
    (h1 : e1.swapped = e.swapped) (h2 : e1.fte = e.fte) : residency_kept s (set_pte s p e1) := by
  refine ⟨Nat.le_refl _, fun f => rfl, fun q => ?_⟩
  by_cases hq : q = p
  · subst hq; simp [set_pte, hp, h1, h2]
  · simp [set_pte, hq]

theorem kept_set_fte {s : State} {f : Nat} {fe fe1 : frame_table_entry}
    (hf : s.ftes f = some fe) (h1 : fe1.pte = fe.pte) : residency_kept s (set_fte s f fe1) := by
  refine ⟨Nat.le_refl _, fun g => ?_, fun q => rfl⟩
  by_cases hg : g = f
  · subst hg; simp [set_fte, hf, h1]
  · simp [set_fte, hg]

/-- Dropping the frame reference of a descriptor restores the invariant when
it holds for every other descriptor. -/
theorem vm_inv_clear_fte {s : State} {p : Nat} {e : page_table_entry}
    (hI : ∀ q e, s.ptes q = some e → q ≠ p → e.swapped = true → e.fte = none)
    (hJ : ∀ q e f, s.ptes q = some e → q ≠ p → e.fte = some f →
      ∃ fe, s.ftes f = some fe ∧ fe.pte = q)
    (hF : inv_heap s) :
    vm_inv (set_pte s p { e with fte := none }) := by
  refine ⟨?_, ?_, hF⟩
  · intro q e1 hq hs
    by_cases hqp : q = p
    · subst hqp
      simp only [set_pte, if_true, Option.some.injEq] at hq
      rw [← hq]
    · simp only [set_pte, hqp, if_false] at hq
      exact hI q e1 hq hqp hs
  · intro q e1 f hq hf
    by_cases hqp : q = p
    · subst hqp
      simp only [set_pte, if_true, Option.some.injEq] at hq
      rw [← hq] at hf
      simp at hf
    · simp only [set_pte, hqp, if_false] at hq
      exact hJ q e1 f hq hqp hf

theorem vm_inv_but_clear_fte {s : State} {p : Nat} {e : page_table_entry}
    (h : vm_inv_but p s) : vm_inv (set_pte s p { e with fte := none }) :=
  vm_inv_clear_fte h.1 (fun q e f hq _ hf => h.2.1 q e f hq hf) h.2.2

/-- The tail of `page_evict` and of `page_load_unwind`: free the frame of the
descriptor in transfer, drop its frame reference. -/
theorem vm_inv_free_clear {s s1 : State} {p f : Nat} {e e1 : page_table_entry}
    (h : vm_inv_but p s) (hp : s.ptes p = some e) (hfte : e.fte = some f)
    (hfree : frame_free (some f) s = Except.ok s1) :
    vm_inv (set_pte s1 p { e1 with fte := none }) := by
  obtain ⟨f1, fe, hf1, hfe, _, _, hs1⟩ := frame_free_inv hfree
  simp only [Option.some.injEq] at hf1
  subst hf1
  subst hs1
  obtain ⟨fe0, hfe0, hback0⟩ := h.2.1 p e f hp hfte
  refine vm_inv_clear_fte h.1 ?_ ?_
  · intro q eq g hq hqp hg
    obtain ⟨feg, hfeg, hbackg⟩ := h.2.1 q eq g hq hg
    by_cases hgf : g = f
    · subst hgf
      rw [hfe0] at hfeg
      simp only [Option.some.injEq] at hfeg
      subst hfeg
      exact absurd (hbackg.symm.trans hback0) hqp
    · exact ⟨feg, by simp [hgf, hfeg], hbackg⟩
  · intro g hg
    show (if g = f then none else s.ftes g) = none
    split
    · rfl
    · exact h.2.2 g hg

/-- `swap_write` on the frame of a resident descriptor puts that descriptor in
transfer and touches no other. -/
theorem vm_inv_swap_write {s s1 : State} {p f : Nat} {e : page_table_entry}
    (h : vm_inv s) (hp : s.ptes p = some e) (hfte : e.fte = some f)
    (hw : swap_write (some f) s = Except.ok s1) :
    vm_inv_but p s1 ∧ ∃ e1, s1.ptes p = some e1 ∧ e1.fte = some f := by
  obtain ⟨f1, fe, e0, k, b, hf1, hfe, he0, _, _, hs1⟩ := swap_write_inv hw
  simp only [Option.some.injEq] at hf1
  subst hf1
  obtain ⟨fe0, hfe0, hback0⟩ := h.2.1 p e f hp hfte
  rw [hfe] at hfe0
  simp only [Option.some.injEq] at hfe0
  subst hfe0
  subst hback0
  rw [hp] at he0
  simp only [Option.some.injEq] at he0
  subst he0
  subst hs1
  refine ⟨⟨?_, ?_, h.2.2⟩, _, if_pos rfl, hfte⟩
  · intro q eq hq hqp hs
    simp only [set_pte, hqp, if_false] at hq
    exact h.1 q eq hq hs
  · intro q eq g hq hg
    by_cases hqp : q = fe.pte
    · subst hqp
      simp only [set_pte, if_true, Option.some.injEq] at hq
      rw [← hq] at hg
      exact h.2.1 _ e g hp hg
    · simp only [set_pte, hqp, if_false] at hq
      exact h.2.1 q eq g hq hg

/-- `swap_read` into the frame of the descriptor in transfer ends the
transfer. -/
theorem vm_inv_swap_read {s s1 : State} {p f : Nat} {fe : frame_table_entry}
    (h : vm_inv_but p s) (hf : s.ftes f = some fe) (hback : fe.pte = p)
    (hr : swap_read (some f) s = Except.ok s1) : vm_inv s1 := by
  obtain ⟨f1, fe1, e1, hf1, hfe1, he1, _, _, _, hs1⟩ := swap_read_inv hr
  simp only [Option.some.injEq] at hf1
  subst hf1
  rw [hf] at hfe1
  simp only [Option.some.injEq] at hfe1
  subst hfe1
  subst hback
  rw [swap_read_loop_eq] at hs1
  subst hs1
  refine ⟨?_, ?_, h.2.2⟩
  · intro q eq hq hs
    by_cases hqp : q = fe.pte
    · subst hqp
      simp only [set_pte, if_true, Option.some.injEq] at hq
      rw [← hq] at hs
      simp at hs
    · simp only [set_pte, hqp, if_false] at hq
      exact h.1 q eq hq hqp hs
  · intro q eq g hq hg
    by_cases hqp : q = fe.pte
    · subst hqp
      simp only [set_pte, if_true, Option.some.injEq] at hq
      rw [← hq] at hg
      exact h.2.1 _ e1 g he1 hg
    · simp only [set_pte, hqp, if_false] at hq
      exact h.2.1 q eq g hq hg

theorem frame_victim_loop_kept (fuel : Nat) :
    ∀ (it : hash_iterator) (f1 f2 : fte_ref) (s s1 : State) (r : fte_ref),
      frame_victim_loop fuel it f1 f2 s = Except.ok (r, s1) → residency_kept s s1 := by
  induction fuel with
  | zero => intro it f1 f2 s s1 r h; simp [frame_victim_loop] at h
  | succ n ih =>
    intro it f1 f2 s s1 r h
    unfold frame_victim_loop at h
    obtain ⟨fe1, _, h⟩ := bind_eq_ok h
    obtain ⟨e1, he1, h⟩ := bind_eq_ok h
    have hk : residency_kept s
        (if e1.accessed = true then set_pte s fe1.pte { e1 with accessed := false } else s) := by
      split
      · exact kept_set_pte (deref_pte_eq_ok.mp he1) rfl rfl
      · exact residency_kept_refl s
    dsimp only at h
    generalize (if e1.accessed = true then set_pte s fe1.pte { e1 with accessed := false }
      else s) = sa at h hk
    obtain ⟨fe2, _, h⟩ := bind_eq_ok h
    obtain ⟨e2, _, h⟩ := bind_eq_ok h
    obtain ⟨it1, _, h⟩ := bind_eq_ok h
    cases hacc : e2.accessed with
    | true =>
      simp only [hacc, Bool.not_true, Bool.false_eq_true, if_false, if_true] at h
      exact residency_kept_trans hk (ih _ _ _ _ _ _ h)
    | false =>
      simp only [hacc, Bool.not_false, if_true] at h
      split at h
      · exact residency_kept_trans hk (ih _ _ _ _ _ _ h)
      · simp only [pure_eq_ok, Except.ok.injEq, Prod.mk.injEq] at h
        rw [← h.2]; exact hk

/-- `frame_victim` changes accessed flags, the recorded table size and nothing
else that bears on residency; the descriptor it returns is live. -/
theorem frame_victim_kept {fuel : Nat} {s s1 : State} {v : Nat}
    (h : frame_victim fuel s = Except.ok (v, s1)) : residency_kept s s1 := by
  unfold frame_victim at h
  obtain ⟨l, _, h⟩ := bind_eq_ok h
  dsimp only at h
  have hk : residency_kept s (if s.frame_table_size = -1 then
      ({ s with frame_table_lock := l, frame_table_size := to_int s.frame_table.length } : State)
    else ({ s with frame_table_lock := l } : State)) := by
    split <;> exact kept_of_eq rfl rfl rfl
  generalize (if s.frame_table_size = -1 then
      ({ s with frame_table_lock := l, frame_table_size := to_int s.frame_table.length } : State)
    else ({ s with frame_table_lock := l } : State)) = s2 at h hk
  obtain ⟨it, _, h⟩ := bind_eq_ok h
  obtain ⟨it1, _, h⟩ := bind_eq_ok h
  split at h
  · simp at h
  · obtain ⟨r, hr, h⟩ := bind_eq_ok h
    obtain ⟨l1, _, h⟩ := bind_eq_ok h
    obtain ⟨fev, _, h⟩ := bind_eq_ok h
    simp only [pure_eq_ok, Except.ok.injEq, Prod.mk.injEq] at h
    have hk2 := frame_victim_loop_kept fuel _ _ _ _ _ _ hr
    rw [← h.2]
    exact residency_kept_trans (residency_kept_trans hk hk2) (kept_of_eq rfl rfl rfl)

theorem frame_acquire_kept {s s1 : State} {fte : Option Nat}
    (h : frame_acquire fte s = Except.ok s1) : residency_kept s s1 := by
  obtain ⟨f, fe, _, hf, _, hs⟩ := frame_acquire_inv h
  rw [hs]; exact kept_set_fte hf rfl

theorem frame_release_kept {s s1 : State} {fte : Option Nat}
    (h : frame_release fte s = Except.ok s1) : residency_kept s s1 := by
  obtain ⟨f, fe, _, hf, _, hs⟩ := frame_release_inv h
  rw [hs]; exact kept_set_fte hf rfl

/-- `page_write` puts the descriptor in transfer at most. -/
theorem vm_inv_page_write {s s1 : State} {p : Nat}
    (h : vm_inv s) (hw : page_write p s = Except.ok s1) :
    vm_inv_but p s1 ∧ ∃ e e1, s.ptes p = some e ∧ s1.ptes p = some e1 ∧ e1.fte = e.fte := by
  obtain ⟨e, f, fe, hp, hfte, hf, _, hcase⟩ := page_write_inv hw
  rcases hcase with ⟨file, _, _, hs1⟩ | ⟨_, hsw⟩
  · have hk : residency_kept s s1 := by
      rw [hs1]
      have hk1 : residency_kept s
          (file_write_at s file fe.kpage (to_int e.file_bytes) e.file_ofs) :=
        kept_of_eq rfl rfl rfl
      exact residency_kept_trans hk1 (kept_set_pte hp rfl rfl)
    refine ⟨vm_inv_but_of_inv p (vm_inv_kept hk h), e, { e with mapped := false }, hp, ?_, rfl⟩
    rw [hs1]; simp [set_pte]
  · obtain ⟨hb, e1, he1, hf1⟩ := vm_inv_swap_write h hp hfte hsw
    exact ⟨hb, e, e1, hp, he1, hf1.trans hfte.symm⟩

/-- `page_evict_body` keeps the residency invariant. -/
theorem vm_inv_page_evict_body {s s1 : State} {p : Nat}
    (h : vm_inv s) (he : page_evict_body p s = Except.ok s1) : vm_inv s1 := by
  unfold page_evict_body at he
  obtain ⟨e1, he1, he⟩ := bind_eq_ok he
  have hp1 := deref_pte_eq_ok.mp he1
  have hk2 : residency_kept s (if (!e1.dirty) = true
      then set_pte s p { e1 with dirty := pagedir_is_dirty s e1.thread e1.upage } else s) := by
    split
    · exact kept_set_pte hp1 rfl rfl
    · exact residency_kept_refl s
  dsimp only at he
  generalize (if (!e1.dirty) = true
      then set_pte s p { e1 with dirty := pagedir_is_dirty s e1.thread e1.upage } else s)
    = s2 at he hk2
  have h2 := vm_inv_kept hk2 h
  obtain ⟨e2, he2, he⟩ := bind_eq_ok he
  have hp2 := deref_pte_eq_ok.mp he2
  obtain ⟨s3, hs3, he⟩ := bind_eq_ok he
  -- after the write step the descriptor is in transfer at most, its reference unchanged
  have h3 : vm_inv_but p s3 ∧ ∃ e3, s3.ptes p = some e3 ∧ e3.fte = e2.fte := by
    split at hs3
    · obtain ⟨hb, ea, eb, ha, hb2, hfte⟩ := vm_inv_page_write h2 hs3
      rw [hp2] at ha
      simp only [Option.some.injEq] at ha
      subst ha
      exact ⟨hb, eb, hb2, hfte⟩
    · simp only [pure_eq_ok, Except.ok.injEq] at hs3
      subst hs3
      exact ⟨vm_inv_but_of_inv p h2, e2, hp2, rfl⟩
  obtain ⟨hb3, e3', hp3, hfte3⟩ := h3
  obtain ⟨e3, he3, he⟩ := bind_eq_ok he
  have := deref_pte_eq_ok.mp he3
  rw [hp3] at this
  simp only [Option.some.injEq] at this
  subst this
  have hk4 : residency_kept s3 (pagedir_clear_page s3 e3'.thread e3'.upage) :=
    kept_of_eq rfl rfl rfl
  have hb4 := vm_inv_but_kept hk4 hb3
  have hp4 : (pagedir_clear_page s3 e3'.thread e3'.upage).ptes p = some e3' := hp3
  generalize pagedir_clear_page s3 e3'.thread e3'.upage = s4 at he hb4 hp4
  obtain ⟨s5, hs5, he⟩ := bind_eq_ok he
  obtain ⟨e5, _, he⟩ := bind_eq_ok he
  simp only [pure_eq_ok, Except.ok.injEq] at he
  rw [← he]
  split at hs5
  · rename_i hne
    cases hf : e3'.fte with
    | none => exact absurd hf hne
    | some f =>
      rw [hf] at hs5
      exact vm_inv_free_clear hb4 hp4 hf hs5
  · simp only [pure_eq_ok, Except.ok.injEq] at hs5
    subst hs5
    exact vm_inv_but_clear_fte hb4

/-- `page_evict` keeps the residency invariant. -/
theorem vm_inv_page_evict {fuel : Nat} {pte : Option Nat} {s s1 : State}
    (h : vm_inv s) (he : page_evict fuel pte s = Except.ok s1) : vm_inv s1 := by
  unfold page_evict at he
  obtain ⟨r, hr, he⟩ := bind_eq_ok he
  refine vm_inv_page_evict_body ?_ he
  unfold page_evict_locate at hr
  cases pte with
  | none =>
    simp only at hr
    obtain ⟨rv, hv, hr⟩ := bind_eq_ok hr
    obtain ⟨ev, _, hr⟩ := bind_eq_ok hr
    obtain ⟨sa, ha, hr⟩ := bind_eq_ok hr
    simp only [pure_eq_ok, Except.ok.injEq] at hr
    rw [← hr]
    exact vm_inv_kept (frame_acquire_kept ha) (vm_inv_kept (frame_victim_kept hv) h)
  | some p =>
    simp only at hr
    obtain ⟨e, _, hr⟩ := bind_eq_ok hr
    split at hr
    · obtain ⟨sa, ha, hr⟩ := bind_eq_ok hr
      simp only [pure_eq_ok, Except.ok.injEq] at hr
      rw [← hr]
      exact vm_inv_kept (frame_acquire_kept ha) h
    · simp only [pure_eq_ok, Except.ok.injEq] at hr
      rw [← hr]; exact h

/-- A freshly initialised descriptor stored at any address keeps the
invariant, also when the allocation pointer moves on. -/
theorem vm_inv_new_pte {s : State} (h : vm_inv s) (n p : Nat) (e : page_table_entry)
    (hs : e.swapped = false) (hf : e.fte = none) (pt : Nat → List Nat) :
    vm_inv (set_pte { s with next_ptr := s.next_ptr + n, page_table := pt } p e) := by
  refine ⟨?_, ?_, ?_⟩
  · intro q eq hq hsw
    by_cases hqp : q = p
    · subst hqp
      simp only [set_pte, if_true, Option.some.injEq] at hq
      rw [← hq, hs] at hsw
      exact Bool.noConfusion hsw
    · simp only [set_pte, hqp, if_false] at hq
      exact h.1 q eq hq hsw
  · intro q eq g hq hg
    by_cases hqp : q = p
    · subst hqp
      simp only [set_pte, if_true, Option.some.injEq] at hq
      rw [← hq, hf] at hg
      simp at hg
    · simp only [set_pte, hqp, if_false] at hq
      exact h.2.1 q eq g hq hg
  · intro g hg
    exact h.2.2 g (by have : s.next_ptr + n ≤ g := hg; omega)

theorem vm_inv_free_pte {s : State} (h : vm_inv s) (p : Nat) : vm_inv (free_pte s p) := by
  refine ⟨?_, ?_, h.2.2⟩
  · intro q eq hq hsw
    by_cases hqp : q = p
    · subst hqp; simp [free_pte] at hq
    · simp only [free_pte, hqp, if_false] at hq
      exact h.1 q eq hq hsw
  · intro q eq g hq hg
    by_cases hqp : q = p
    · subst hqp; simp [free_pte] at hq
    · simp only [free_pte, hqp, if_false] at hq
      exact h.2.1 q eq g hq hg

/-- `page_alloc` keeps the residency invariant. -/
theorem vm_inv_page_alloc {env : Env} {vaddr : Nat} {w : Bool} {s s1 : State} {r : Option Nat}
    (h : vm_inv s) (ha : page_alloc env vaddr w s = (r, s1)) : vm_inv s1 := by
  unfold page_alloc malloc at ha
  cases hm : env.malloc_pte_ok with
  | false =>
    simp only [hm, Bool.false_eq_true, if_false, Prod.mk.injEq] at ha
    rw [← ha.2]; exact h
  | true =>
    simp only [hm, if_true] at ha
    have hnew := vm_inv_new_pte h 1 s.next_ptr
      { page_init s.current with upage := pg_round_down vaddr, writable := w } rfl rfl
    unfold hash_insert_page at ha
    split at ha
    · rename_i old s3 heq
      simp only [Prod.mk.injEq] at ha
      rw [← ha.2]
      split at heq
      · simp only [Prod.mk.injEq] at heq
        rw [← heq.2]
        exact vm_inv_free_pte (hnew s.page_table) _
      · simp at heq
    · rename_i s3 heq
      simp only [Prod.mk.injEq] at ha
      rw [← ha.2]
      split at heq
      · simp at heq
      · simp only [Prod.mk.injEq, true_and] at heq
        rw [← heq]
        exact hnew _

/-- `page_get` keeps the residency invariant. -/
theorem vm_inv_page_get {env : Env} {vaddr : Nat} {stack : Bool} {s s1 : State}
    {r : Option Nat} (h : vm_inv s) (hg : page_get env vaddr stack s = (r, s1)) : vm_inv s1 := by
  unfold page_get at hg
  split at hg
  · simp only [Prod.mk.injEq] at hg; rw [← hg.2]; exact h
  · dsimp only at hg
    split at hg
    · simp only [Prod.mk.injEq] at hg; rw [← hg.2]; exact h
    · split at hg
      · exact vm_inv_page_alloc h hg
      · simp only [Prod.mk.injEq] at hg; rw [← hg.2]; exact h

/-- The first statement of `frame_alloc` keeps the residency invariant. -/
theorem vm_inv_frame_alloc_page {fuel : Nat} {s s1 : State} {k : Nat}
    (h : vm_inv s) (ha : frame_alloc_page fuel s = Except.ok (k, s1)) : vm_inv s1 := by
  have hpalloc : ∀ (x x1 : State) (r : Option Nat), palloc_get_page x = (r, x1) →
      residency_kept x x1 := by
    intro x x1 r hx
    unfold palloc_get_page at hx
    split at hx
    · simp only [Prod.mk.injEq] at hx; rw [← hx.2]; exact residency_kept_refl x
    · simp only [Prod.mk.injEq] at hx; rw [← hx.2]; exact kept_of_eq rfl rfl rfl
  unfold frame_alloc_page at ha
  split at ha
  · rename_i k1 sk heq
    simp only [pure_eq_ok, Except.ok.injEq, Prod.mk.injEq] at ha
    rw [← ha.2]
    exact vm_inv_kept (hpalloc _ _ _ heq) h
  · rename_i sk heq
    obtain ⟨se, hev, ha⟩ := bind_eq_ok ha
    have hse := vm_inv_page_evict (vm_inv_kept (hpalloc _ _ _ heq) h) hev
    split at ha
    · rename_i k2 sr heq2
      simp only [pure_eq_ok, Except.ok.injEq, Prod.mk.injEq] at ha
      rw [← ha.2]
      exact vm_inv_kept (hpalloc _ _ _ heq2) hse
    · simp at ha

/-- The rest of `frame_alloc` keeps the residency invariant, and an entry it
hands out refers to the descriptor it was asked for. -/
theorem vm_inv_frame_alloc_entry {env : Env} {p k : Nat} {s s1 : State} {r : Option Nat}
    (h : vm_inv s) (ha : frame_alloc_entry env p k s = Except.ok (r, s1)) :
    vm_inv s1 ∧ ∀ f, r = some f → ∃ fe, s1.ftes f = some fe ∧ fe.pte = p := by
  cases r with
  | some f =>
    obtain ⟨hfn, _, _, _, hs1⟩ := frame_alloc_entry_inv ha
    have hnone : s.ftes s.next_ptr = none := h.2.2 _ (Nat.le_refl _)
    subst hs1
    refine ⟨⟨h.1, ?_, ?_⟩, ?_⟩
    · intro q e g hq hg
      obtain ⟨fe, hfe, hb⟩ := h.2.1 q e g hq hg
      have hgn : g ≠ s.next_ptr := by
        intro hh; rw [hh, hnone] at hfe; simp at hfe
      exact ⟨fe, by simp [hgn, hfe], hb⟩
    · intro g hg
      have hg' : s.next_ptr + 1 ≤ g := hg
      show (if g = s.next_ptr then _ else s.ftes g) = none
      rw [if_neg (by omega)]
      exact h.2.2 g (by omega)
    · intro f1 hf1
      simp only [Option.some.injEq] at hf1
      subst hf1
      exact ⟨⟨k, s.current, p, none⟩, by simp [hfn], rfl⟩
  | none =>
    refine ⟨?_, fun f hf => by simp at hf⟩
    cases hm : env.malloc_fte_ok with
    | false =>
      rw [frame_alloc_entry_no_memory p k hm] at ha
      simp only [Except.ok.injEq, Prod.mk.injEq, true_and] at ha
      rw [← ha]; exact h
    | true =>
      have hnone : s.ftes s.next_ptr = none := h.2.2 _ (Nat.le_refl _)
      unfold frame_alloc_entry malloc at ha
      simp only [hm, if_true] at ha
      obtain ⟨l, _, ha⟩ := bind_eq_ok ha
      unfold hash_insert_frame at ha
      split at ha
      · rename_i old s5 heq
        obtain ⟨e, _, ha⟩ := bind_eq_ok ha
        obtain ⟨l1, _, ha⟩ := bind_eq_ok ha
        simp only [pure_eq_ok, Except.ok.injEq, Prod.mk.injEq, true_and] at ha
        rw [← ha]
        split at heq
        · simp only [Prod.mk.injEq] at heq
          have hk : residency_kept s (free_fte s5 s.next_ptr) := by
            rw [← heq.2]
            refine ⟨Nat.le_succ _, fun g => ?_, fun q => rfl⟩
            by_cases hg : g = s.next_ptr
            · simp [free_fte, hg, hnone]
            · simp [free_fte, set_fte, hg]
          have h6 := vm_inv_kept hk h
          have h7 : vm_inv (set_pte (free_fte s5 s.next_ptr) p { e with fte := none }) :=
            vm_inv_but_clear_fte (vm_inv_but_of_inv p h6)
          exact vm_inv_kept (kept_of_eq rfl rfl rfl) h7
        · simp at heq
      · rename_i s5 heq
        obtain ⟨l1, _, ha⟩ := bind_eq_ok ha
        simp at ha

theorem vm_inv_page_load_unwind {p f : Nat} {s s1 : State} {r : Option Nat}
    {e : page_table_entry} (h : vm_inv_but p s) (hp : s.ptes p = some e)
    (hfte : e.fte = some f) (hu : page_load_unwind p f s = Except.ok (r, s1)) : vm_inv s1 := by
  unfold page_load_unwind at hu
  obtain ⟨sa, hfree, hu⟩ := bind_eq_ok hu
  obtain ⟨ea, _, hu⟩ := bind_eq_ok hu
  simp only [pure_eq_ok, Except.ok.injEq, Prod.mk.injEq] at hu
  rw [← hu.2]
  exact vm_inv_free_clear h hp hfte hfree

theorem vm_inv_page_load_install {env : Env} {p f : Nat} {s s1 : State} {r : Option Nat}
    {e : page_table_entry} (h : vm_inv s) (hp : s.ptes p = some e)
    (hfte : e.fte = some f) (hi : page_load_install env p f s = Except.ok (r, s1)) :
    vm_inv s1 := by
  unfold page_load_install at hi
  obtain ⟨e1, he1, hi⟩ := bind_eq_ok hi
  obtain ⟨fe1, _, hi⟩ := bind_eq_ok hi
  have hk : residency_kept s (install_page env.install_ok e1.upage fe1.kpage e1.writable s).2 := by
    unfold install_page
    split
    · exact residency_kept_refl s
    · split
      · exact kept_of_eq rfl rfl rfl
      · exact residency_kept_refl s
  have hpi : (install_page env.install_ok e1.upage fe1.kpage e1.writable s).2.ptes p
      = some e := by
    unfold install_page
    split
    · exact hp
    · split
      · exact hp
      · exact hp
  dsimp only at hi
  generalize install_page env.install_ok e1.upage fe1.kpage e1.writable s = i at hi hk hpi
  split at hi
  · exact vm_inv_page_load_unwind (vm_inv_but_of_inv p (vm_inv_kept hk h)) hpi hfte hi
  · obtain ⟨sa, hrel, hi⟩ := bind_eq_ok hi
    obtain ⟨ea, hea, hi⟩ := bind_eq_ok hi
    simp only [pure_eq_ok, Except.ok.injEq, Prod.mk.injEq] at hi
    rw [← hi.2]
    exact vm_inv_kept (kept_set_pte (deref_pte_eq_ok.mp hea) rfl rfl)
      (vm_inv_kept (frame_release_kept hrel) (vm_inv_kept hk h))

/-- The part of `page_load` after `frame_alloc` keeps the residency invariant,
given an entry that refers to the descriptor. -/
theorem vm_inv_page_load_frame {env : Env} {p : Nat} {fte : Option Nat} {s s1 : State}
    {r : Option Nat} (h : vm_inv s)
    (hback : ∀ f, fte = some f → ∃ fe, s.ftes f = some fe ∧ fe.pte = p)
    (hl : page_load_frame env p fte s = Except.ok (r, s1)) : vm_inv s1 := by
  unfold page_load_frame at hl
  cases fte with
  | none =>
    simp only [pure_eq_ok, Except.ok.injEq, Prod.mk.injEq] at hl
    rw [← hl.2]; exact h
  | some f =>
    obtain ⟨fe, hfe, hfp⟩ := hback f rfl
    simp only at hl
    obtain ⟨e2, he2, hl⟩ := bind_eq_ok hl
    have hp2 := deref_pte_eq_ok.mp he2
    -- the descriptor refers to its new frame: it is in transfer when it was swapped
    have h3 : vm_inv_but p (set_pte s p { e2 with fte := some f }) := by
      refine ⟨?_, ?_, h.2.2⟩
      · intro q eq hq hqp hs
        simp only [set_pte, hqp, if_false] at hq
        exact h.1 q eq hq hs
      · intro q eq g hq hg
        by_cases hqp : q = p
        · subst hqp
          simp only [set_pte, if_true, Option.some.injEq] at hq
          rw [← hq] at hg
          simp only [Option.some.injEq] at hg
          subst hg
          exact ⟨fe, hfe, hfp⟩
        · simp only [set_pte, hqp, if_false] at hq
          exact h.2.1 q eq g hq hg
    have hp3 : (set_pte s p { e2 with fte := some f }).ptes p = some { e2 with fte := some f } :=
      if_pos rfl
    generalize set_pte s p { e2 with fte := some f } = s3 at hl h3 hp3
    obtain ⟨s4, hacq, hl⟩ := bind_eq_ok hl
    have hk4 := frame_acquire_kept hacq
    have h4 := vm_inv_but_kept hk4 h3
    obtain ⟨f4, fe4, hf4, hfe4, _, hs4⟩ := frame_acquire_inv hacq
    simp only [Option.some.injEq] at hf4
    subst hf4
    have hp4 : s4.ptes p = some { e2 with fte := some f } := by rw [hs4]; exact hp3
    obtain ⟨rd, hread, hl⟩ := bind_eq_ok hl
    obtain ⟨b, s5⟩ := rd
    -- after `page_read` nothing is in transfer
    have h5 : vm_inv s5 := by
      obtain ⟨e, g, fg, hpe, hge, hfg, _, hcase⟩ := page_read_inv hread
      rw [hp4] at hpe
      simp only [Option.some.injEq] at hpe
      subst hpe
      simp only [Option.some.injEq] at hge
      subst hge
      rcases hcase with ⟨_, _, hsr⟩ | ⟨hns, m, hm⟩
      · obtain ⟨fe', hfe', hb'⟩ := h4.2.1 p _ f hp4 rfl
        exact vm_inv_swap_read h4 hfe' hb' hsr
      · have hk5 : residency_kept s4 s5 := by rw [hm]; exact kept_of_eq rfl rfl rfl
        refine vm_inv_of_but (vm_inv_but_kept hk5 h4) ?_
        intro e5 hq hs
        obtain ⟨e4, he4, hsw, _⟩ := residency_kept_pte hk5 hq
        rw [hp4] at he4
        simp only [Option.some.injEq] at he4
        subst he4
        rw [← hsw] at hs
        have : e2.swapped = true := hs
        rw [this] at hns
        exact Bool.noConfusion hns
    obtain ⟨_, _, _, _, _, _, _, r8⟩ := page_read_frame hread
    obtain ⟨e5, hp5, hfte5, _⟩ := r8 p _ hp4
    split at hl
    · exact vm_inv_page_load_unwind (vm_inv_but_of_inv p h5) hp5 hfte5 hl
    · exact vm_inv_page_load_install h5 hp5 hfte5 hl

/-- `page_load` keeps the residency invariant. -/
theorem vm_inv_page_load {fuel : Nat} {env : Env} {vaddr : Nat} {s s1 : State}
    {r : Option Nat} (h : vm_inv s) (hl : page_load fuel env vaddr s = Except.ok (r, s1)) :
    vm_inv s1 := by
  unfold page_load at hl
  split at hl
  · simp only [pure_eq_ok, Except.ok.injEq, Prod.mk.injEq] at hl
    rw [← hl.2]; exact h
  · split at hl
    · rename_i sg heq
      simp only [pure_eq_ok, Except.ok.injEq, Prod.mk.injEq] at hl
      rw [← hl.2]
      exact vm_inv_page_get h heq
    · rename_i p sg heq
      have hg := vm_inv_page_get h heq
      obtain ⟨e, _, hl⟩ := bind_eq_ok hl
      split at hl
      · simp only [pure_eq_ok, Except.ok.injEq, Prod.mk.injEq] at hl
        rw [← hl.2]; exact hg
      · obtain ⟨ra, hfa, hl⟩ := bind_eq_ok hl
        obtain ⟨ra1, ra2⟩ := ra
        unfold frame_alloc at hfa
        obtain ⟨rp, hpage, hentry⟩ := bind_eq_ok hfa
        have hpg := vm_inv_frame_alloc_page hg hpage
        obtain ⟨hen, hback⟩ := vm_inv_frame_alloc_entry hpg hentry
        exact vm_inv_page_load_frame hen hback hl

/-- Every reachable state satisfies the residency invariant. -/
theorem reachable_vm_inv {s : State} (h : reachable s) : vm_inv s := by
  induction h with
  | fresh s hp hf =>
    refine ⟨?_, ?_, hf⟩
    · intro p e he hs
      exact (hp p e he).2
    · intro p e f he hfte
      rw [(hp p e he).2] at hfte
      simp at hfte
  | alloc s s1 env vaddr w r _ ha ih => exact vm_inv_page_alloc ih ha
  | load s s1 fuel env vaddr r _ hl ih => exact vm_inv_page_load ih hl
  | evict s s1 fuel pte _ he ih => exact vm_inv_page_evict ih he
  | world s s1 _ hk ih => exact vm_inv_kept hk ih

/-! ## Lemmas: the sample states -/

theorem sample_state_fresh : heap_fresh sample_state := by
  intro g hg
  have h : 10 ≤ g := hg
  refine ⟨?_, ?_⟩
  · show (if g = 7 then some sample_fte else none) = none
    rw [if_neg (by omega)]
  · show g ∉ [7]
    simp; omega

theorem sample_state_table_ok : frame_table_ok sample_state := by decide

theorem sample_two_valid : frame_table_valid sample_two := by
  intro f hf
  have h : f = 7 ∨ f = 8 := by simpa [sample_two, sample_state] using hf
  rcases h with h | h
  · subst h; exact ⟨_, _, rfl, rfl⟩
  · subst h; exact ⟨_, _, rfl, rfl⟩

theorem sample_evicted_reachable : reachable sample_evicted := by
  have h0 : reachable sample_fresh :=
    reachable.fresh sample_fresh (fun p e he => by simp [sample_fresh] at he)
      (fun f _ => rfl)
  have h1 : reachable sample_loaded :=
    reachable.load sample_fresh sample_loaded 2 sample_env 0xbfffffe0 (some 10) h0 rfl
  have h2 : reachable sample_dirtied :=
    reachable.world sample_loaded sample_dirtied h1
      (kept_set_pte (e := sample_loaded_pte) rfl rfl rfl)
  exact reachable.evict sample_dirtied sample_evicted 2 (some 10) h2 rfl

theorem find_congr {α : Type} {l : List α} {p q : α → Bool} (h : ∀ a ∈ l, p a = q a) :
    l.find? p = l.find? q := by
  induction l with
  | nil => rfl
  | cons x xs ih =>
    have hx := h x (List.mem_cons_self _ _)
    have ih2 := ih (fun a ha => h a (List.mem_cons_of_mem _ ha))
    simp only [List.find?_cons, hx, ih2]

theorem page_alloc_duplicate {s : State} {env : Env} {vaddr old : Nat} (w : Bool)
    (hfind : hash_find_page s s.current (pg_round_down vaddr) = some old)
    (hunused : s.ptes s.next_ptr = none)
    (hfresh : s.next_ptr ∉ s.page_table s.current) :
    ∃ s1, page_alloc env vaddr w s = (none, s1) ∧ s1.page_table = s.page_table ∧
      s1.ptes = s.ptes := by
  cases hm : env.malloc_pte_ok with
  | false => exact ⟨s, by simp [page_alloc, malloc, hm], rfl, rfl⟩
  | true =>
    have hfind2 : hash_find_page
        (set_pte { s with next_ptr := s.next_ptr + 1 } s.next_ptr
          { page_init s.current with upage := pg_round_down vaddr, writable := w })
        s.current (pg_round_down vaddr) = some old := by
      rw [← hfind]
      unfold hash_find_page
      apply find_congr
      intro q hq
      have hne : q ≠ s.next_ptr := fun h => hfresh (h ▸ hq)
      simp [set_pte, hne]
    simp only [page_alloc, malloc, hm, if_true, hash_insert_page]
    simp only [set_pte] at hfind2 ⊢
    rw [hfind2]
    refine ⟨_, rfl, rfl, ?_⟩
    funext q
    by_cases hq : q = s.next_ptr
    · simp [free_pte, hq, hunused]
    · simp [free_pte, hq]

theorem page_alloc_no_memory {s : State} {env : Env} (vaddr : Nat) (w : Bool)
    (hm : env.malloc_pte_ok = false) : page_alloc env vaddr w s = (none, s) := by
  simp [page_alloc, malloc, hm]

/-! ## Lemmas: eviction of a clean page -/

theorem page_evict_body_clean {s : State} {p f : Nat} {e : page_table_entry}
    {fe : frame_table_entry}
    (hres : resident s p e f fe) (hl : fe.lock = some s.current) (ht : s.frame_table_lock = none)
    (hd : e.dirty = false) (hpd : pagedir_is_dirty s e.thread e.upage = false) :
    page_evict_body p s = Except.ok
      { s with
        ptes := fun q => if q = p then some { e with fte := none } else s.ptes q
        ftes := fun g => if g = f then none else s.ftes g
        frame_table := s.frame_table.eraseP (fun g => frame_key s g == some fe.kpage)
        free_frames := fe.kpage :: s.free_frames
        pagedir := fun t u => if t = e.thread ∧ u = e.upage then none else s.pagedir t u } := by
  obtain ⟨hp, hfte, hf, hback⟩ := hres
  have hdd : (e.dirty || pagedir_is_dirty s e.thread e.upage) = false := by simp [hd, hpd]
  have he : ({ e with dirty := false } : page_table_entry) = e := by
    cases e; simp_all
  have hfun : (fun q => if q = p then some e else s.ptes q) = s.ptes := by
    funext q
    by_cases hq : q = p
    · simp [hq, hp]
    · simp [hq]
  have hset : set_pte s p e = s := by
    simp only [set_pte, hfun]
  unfold page_evict_body
  rw [deref_pte_eq_ok.mpr hp, bind_ok]
  simp only []
  rw [dirty_refresh_eq hp, hdd, he, hset, deref_pte_eq_ok.mpr hp, bind_ok]
  simp [hd, set_pte, deref_pte, deref_fte, frame_free, pagedir_clear_page, hash_delete_frame,
    palloc_free_page, free_fte, hf, hl, ht, hfte, hp, frame_key]

theorem page_evict_clean {s : State} {p f : Nat} {e : page_table_entry}
    {fe : frame_table_entry} (fuel : Nat)
    (hres : resident s p e f fe) (hl : fe.lock = none) (ht : s.frame_table_lock = none)
    (hd : e.dirty = false) (hpd : pagedir_is_dirty s e.thread e.upage = false) :
    page_evict fuel (some p) s = Except.ok
      { s with
        ptes := fun q => if q = p then some { e with fte := none } else s.ptes q
        ftes := fun g => if g = f then none else s.ftes g
        frame_table := s.frame_table.eraseP (fun g => frame_key s g == some fe.kpage)
        free_frames := fe.kpage :: s.free_frames
        pagedir := fun t u => if t = e.thread ∧ u = e.upage then none else s.pagedir t u } := by
  rw [page_evict_resident fuel hres hl,
    page_evict_body_clean (resident_locked hres (some s.current)) rfl ht hd hpd]
  have hkey := frame_key_set_fte s f fe { fe with lock := some s.current } hres.2.2.1 rfl
  simp only [hkey]
  simp [set_fte]

/-! ## Lemmas: the selection loop -/

theorem accessed_clear_eq {s : State} {p : Nat} {e : page_table_entry} (hp : s.ptes p = some e) :
    (if e.accessed = true then set_pte s p { e with accessed := false } else s)
    = set_pte s p { e with accessed := false } := by
  cases ha : e.accessed with
  | true => simp
  | false =>
    have he : ({ e with accessed := false } : page_table_entry) = e := by
      cases e; simp_all
    have hfun : (fun q => if q = p then some e else s.ptes q) = s.ptes := by
      funext q
      by_cases hq : q = p
      · simp [hq, hp]
      · simp [hq]
    simp only [Bool.false_eq_true, if_false, he, set_pte, hfun]

/-- One iteration of the selection loop in which the trailing hand finds its
page unaccessed. -/
theorem frame_victim_loop_hit {s : State} {f1 f2 i : Nat} {fe1 fe2 : frame_table_entry}
    {e1 e2 : page_table_entry} (fuel : Nat)
    (hf1 : s.ftes f1 = some fe1) (he1 : s.ptes fe1.pte = some e1)
    (hf2 : s.ftes f2 = some fe2)
    (he2 : (set_pte s fe1.pte { e1 with accessed := false }).ptes fe2.pte = some e2)
    (hacc : e2.accessed = false) :
    frame_victim_loop (fuel + 1) (hash_iterator.elem i) (fte_ref.entry f1) (fte_ref.entry f2) s
      = Except.ok (fte_ref.entry f2, set_pte s fe1.pte { e1 with accessed := false }) := by
  have hf2' : (set_pte s fe1.pte { e1 with accessed := false }).ftes f2 = some fe2 := hf2
  unfold frame_victim_loop
  simp only [deref_ref, deref_fte_eq_ok.mpr hf1, bind_ok, deref_pte_eq_ok.mpr he1]
  rw [accessed_clear_eq he1]
  simp only [deref_fte_eq_ok.mpr hf2', bind_ok, deref_pte_eq_ok.mpr he2, hacc, hash_next]
  simp

/-- One iteration of the selection loop in which the trailing hand finds its
page accessed: the loop goes on with the trailing hand where the leading one
was. -/
theorem frame_victim_loop_miss {s : State} {f1 f2 i : Nat} {fe1 fe2 : frame_table_entry}
    {e1 e2 : page_table_entry} (fuel : Nat)
    (hf1 : s.ftes f1 = some fe1) (he1 : s.ptes fe1.pte = some e1)
    (hf2 : s.ftes f2 = some fe2)
    (he2 : (set_pte s fe1.pte { e1 with accessed := false }).ptes fe2.pte = some e2)
    (hacc : e2.accessed = true) (hi : i + 1 < s.frame_table.length) :
    frame_victim_loop (fuel + 1) (hash_iterator.elem i) (fte_ref.entry f1) (fte_ref.entry f2) s
      = frame_victim_loop fuel (hash_iterator.elem (i + 1))
          (hash_entry s.frame_table (hash_iterator.elem (i + 1))) (fte_ref.entry f1)
          (set_pte s fe1.pte { e1 with accessed := false }) := by
  have hf2' : (set_pte s fe1.pte { e1 with accessed := false }).ftes f2 = some fe2 := hf2
  have hlen : (set_pte s fe1.pte { e1 with accessed := false }).frame_table.length
      = s.frame_table.length := rfl
  have htab : (set_pte s fe1.pte { e1 with accessed := false }).frame_table
      = s.frame_table := rfl
  rw [frame_victim_loop]
  simp only [deref_ref, deref_fte_eq_ok.mpr hf1, bind_ok, deref_pte_eq_ok.mpr he1]
  rw [accessed_clear_eq he1]
  simp only [deref_fte_eq_ok.mpr hf2', bind_ok, deref_pte_eq_ok.mpr he2, hacc, hash_next, hlen, hi,
    htab]
  simp


/-- The part of `frame_victim` before the selection loop: with a non-empty
table of the recorded size, the trailing hand starts on the first entry and the
leading hand `frame_table_size / HAND_SPREAD` entries further. -/
theorem frame_victim_start {s : State} {f0 fg : Nat} {rest : List Nat} (fuel : Nat)
    (htable : s.frame_table = f0 :: rest)
    (hlock : s.frame_table_lock = none) (hlen : s.frame_table.length < 2 ^ 31)
    (hsize : s.frame_table_size = -1 ∨ s.frame_table_size = (s.frame_table.length : Int))
    (hfg : s.frame_table[s.frame_table.length / HAND_SPREAD]? = some fg) :
    frame_victim fuel s =
      (frame_victim_loop fuel (hash_iterator.elem (s.frame_table.length / HAND_SPREAD))
          (fte_ref.entry fg) (fte_ref.entry f0)
          { s with frame_table_lock := some s.current
                   frame_table_size := (s.frame_table.length : Int) } >>= fun r =>
        lock_release r.2.frame_table_lock r.2.current >>= fun l1 =>
        deref_ref { r.2 with frame_table_lock := l1 } r.1 >>= fun fev =>
        pure (fev.pte, { r.2 with frame_table_lock := l1 })) := by
  have hn : 0 < s.frame_table.length := by rw [htable]; simp
  have hg : s.frame_table.length / HAND_SPREAD < s.frame_table.length :=
    Nat.div_lt_self hn (by decide)
  have h0 : s.frame_table[0]? = some f0 := by rw [htable]; simp
  have e2 : (if ({ s with frame_table_lock := some s.current } : State).frame_table_size = -1
      then { ({ s with frame_table_lock := some s.current } : State) with
        frame_table_size := to_int s.frame_table.length }
      else ({ s with frame_table_lock := some s.current } : State))
      = { s with frame_table_lock := some s.current
                 frame_table_size := (s.frame_table.length : Int) } := by
    show (if s.frame_table_size = -1 then _ else _) = _
    split
    · rw [to_int_of_lt hlen]
    · rename_i h
      rcases hsize with h1 | h1
      · exact absurd h1 h
      · rw [← h1]
  unfold frame_victim
  rw [hlock, lock_acquire_none, bind_ok]
  simp only []
  rw [e2]
  simp only [hash_next, hn, if_true, bind_ok, hash_entry, h0]
  have hq : (Int.tdiv (s.frame_table.length : Int) (HAND_SPREAD : Int)).toNat
      = s.frame_table.length / HAND_SPREAD := by
    rw [← Int.ofNat_tdiv, Int.toNat_ofNat]
  rw [hq, hash_next_times_elem _ _ 0 (by omega)]
  simp only [bind_ok, Nat.zero_add, hash_entry, hfg, reduceCtorEq, or_self, if_false]


/-- The selection loop of `frame_victim` ends within two iterations, on the
entry the trailing hand points at, whose page then has its accessed flag
unset. -/
theorem frame_victim_loop_finds {s : State} {f0 : Nat} {rest : List Nat} (fuel : Nat)
    (htable : s.frame_table = f0 :: rest) (hvalid : frame_table_valid s) {fg : Nat}
    (hfg : s.frame_table[s.frame_table.length / HAND_SPREAD]? = some fg) :
    ∃ fv s3 fev ev, frame_victim_loop (fuel + 2)
        (hash_iterator.elem (s.frame_table.length / HAND_SPREAD))
        (fte_ref.entry fg) (fte_ref.entry f0) s = Except.ok (fte_ref.entry fv, s3) ∧
      fv ∈ s.frame_table ∧ s.ftes fv = some fev ∧ s3.ptes fev.pte = some ev ∧
      ev.accessed = false ∧ { s3 with ptes := s.ptes } = s := by
  have h0 : s.frame_table[0]? = some f0 := by rw [htable]; simp
  have hm0 : f0 ∈ s.frame_table := List.getElem?_mem h0
  have hmg : fg ∈ s.frame_table := List.getElem?_mem hfg
  obtain ⟨fe0, e0, hf0, he0⟩ := hvalid f0 hm0
  obtain ⟨feg, eg, hfeg, heg⟩ := hvalid fg hmg
  -- the page under the trailing hand, after the leading hand has passed
  obtain ⟨e2, he2⟩ : ∃ e2, (set_pte s feg.pte { eg with accessed := false }).ptes fe0.pte
      = some e2 := by
    by_cases h : fe0.pte = feg.pte
    · exact ⟨{ eg with accessed := false }, by simp [set_pte, h]⟩
    · exact ⟨e0, by simp [set_pte, h, he0]⟩
  cases hacc : e2.accessed with
  | false =>
    exact ⟨f0, _, fe0, e2, frame_victim_loop_hit (fuel + 1) hfeg heg hf0 he2 hacc, hm0, hf0,
      he2, hacc, rfl⟩
  | true =>
    have hne : fe0.pte ≠ feg.pte := by
      intro h
      simp only [set_pte, h, if_true, Option.some.injEq] at he2
      rw [← he2] at hacc
      exact Bool.noConfusion hacc
    have hg0 : s.frame_table.length / HAND_SPREAD ≠ 0 := by
      intro h
      rw [h, h0] at hfg
      simp only [Option.some.injEq] at hfg
      rw [hfg, hfeg] at hf0
      simp only [Option.some.injEq] at hf0
      exact hne (by rw [hf0])
    have hnext : s.frame_table.length / HAND_SPREAD + 1 < s.frame_table.length := by
      simp only [HAND_SPREAD] at hg0 ⊢
      omega
    obtain ⟨fh, hfh⟩ : ∃ fh, s.frame_table[s.frame_table.length / HAND_SPREAD + 1]? = some fh :=
      ⟨_, List.getElem?_eq_getElem hnext⟩
    obtain ⟨feh, eh, hfeh, heh⟩ := hvalid fh (List.getElem?_mem hfh)
    generalize hs1 : set_pte s feg.pte { eg with accessed := false } = s1 at he2
    have ft1 : s1.frame_table = s.frame_table := by rw [← hs1]; rfl
    have f1 : s1.ftes = s.ftes := by rw [← hs1]; rfl
    have pg1 : s1.ptes feg.pte = some { eg with accessed := false } := by
      rw [← hs1]; exact if_pos rfl
    obtain ⟨eh1, heh1⟩ : ∃ eh1, s1.ptes feh.pte = some eh1 := by
      rw [← hs1]
      by_cases h : feh.pte = feg.pte
      · exact ⟨{ eg with accessed := false }, by simp [set_pte, h]⟩
      · exact ⟨eh, by simp [set_pte, h, heh]⟩
    obtain ⟨e3, he3, hacc3⟩ : ∃ e3, (set_pte s1 feh.pte { eh1 with accessed := false }).ptes feg.pte
        = some e3 ∧ e3.accessed = false := by
      by_cases h : feg.pte = feh.pte
      · exact ⟨{ eh1 with accessed := false }, by simp [set_pte, h], rfl⟩
      · exact ⟨{ eg with accessed := false }, by simp [set_pte, h, pg1], rfl⟩
    refine ⟨fg, set_pte s1 feh.pte { eh1 with accessed := false }, feg, e3, ?_, hmg, hfeg, he3,
      hacc3, ?_⟩
    · rw [frame_victim_loop_miss (fuel + 1) hfeg heg hf0 (by rw [hs1]; exact he2) hacc hnext, hs1]
      simp only [hash_entry, hfh]
      exact frame_victim_loop_hit fuel (by rw [f1]; exact hfeh) heh1 (by rw [f1]; exact hfeg)
        he3 hacc3
    · rw [← hs1]; rfl

/-- `frame_victim` on a non-empty table of the recorded size returns within two
iterations of its loop: a descriptor whose accessed flag is unset and that
backs an entry of the frame table. -/
theorem frame_victim_finds {s : State} {f0 : Nat} {rest : List Nat} (fuel : Nat)
    (htable : s.frame_table = f0 :: rest) (hvalid : frame_table_valid s)
    (hlock : s.frame_table_lock = none) (hlen : s.frame_table.length < 2 ^ 31)
    (hsize : s.frame_table_size = -1 ∨ s.frame_table_size = (s.frame_table.length : Int)) :
    ∃ v s1 f fe e, frame_victim (fuel + 2) s = Except.ok (v, s1) ∧
      f ∈ s1.frame_table ∧ s1.ftes f = some fe ∧ fe.pte = v ∧
      s1.ptes v = some e ∧ e.accessed = false ∧
      s1.frame_table = s.frame_table ∧ s1.frame_table_lock = none := by
  have hn : 0 < s.frame_table.length := by rw [htable]; simp
  have hg : s.frame_table.length / HAND_SPREAD < s.frame_table.length :=
    Nat.div_lt_self hn (by decide)
  obtain ⟨fg, hfg⟩ : ∃ fg, s.frame_table[s.frame_table.length / HAND_SPREAD]? = some fg :=
    ⟨_, List.getElem?_eq_getElem hg⟩
  obtain ⟨s2, hs2⟩ : ∃ s2 : State, s2 = { s with
      frame_table_lock := some s.current, frame_table_size := (s.frame_table.length : Int) } :=
    ⟨_, rfl⟩
  have ft2 : s2.frame_table = s.frame_table := by rw [hs2]
  have f2 : s2.ftes = s.ftes := by rw [hs2]
  have l2 : s2.frame_table_lock = some s.current := by rw [hs2]
  have c2 : s2.current = s.current := by rw [hs2]
  have hvalid2 : frame_table_valid s2 := by rw [hs2]; exact hvalid
  obtain ⟨fv, s3, fev, ev, hloop, hmem, hfev, hev, hacc, hs3⟩ :=
    frame_victim_loop_finds (s := s2) fuel (ft2.trans htable) hvalid2 (by rw [ft2]; exact hfg)
  have hft3 : s3.frame_table = s.frame_table := (congrArg State.frame_table hs3).trans ft2
  have hf3 : s3.ftes = s.ftes := (congrArg State.ftes hs3).trans f2
  have hl3 : s3.frame_table_lock = some s.current :=
    (congrArg State.frame_table_lock hs3).trans l2
  have hc3 : s3.current = s.current := (congrArg State.current hs3).trans c2
  rw [ft2] at hloop hmem
  rw [f2] at hfev
  refine ⟨fev.pte, { s3 with frame_table_lock := none }, fv, fev, ev, ?_, ?_, ?_, rfl, hev, hacc,
    hft3, rfl⟩
  · rw [frame_victim_start (fuel + 2) htable hlock hlen hsize hfg, ← hs2, hloop, bind_ok]
    have hd : deref_fte { s3 with frame_table_lock := none } fv = Except.ok fev := by
      apply deref_fte_eq_ok.mpr
      show s3.ftes fv = some fev
      rw [hf3]; exact hfev
    have hrel : lock_release s3.frame_table_lock s3.current = Except.ok none := by
      rw [hl3, hc3]; exact lock_release_self _
    simp only [hrel, bind_ok, deref_ref, hd, pure_eq_ok]
  · show fv ∈ s3.frame_table
    rw [hft3]; exact hmem
  · show s3.ftes fv = some fev
    rw [hf3]; exact hfev

theorem frame_victim_loop_hands_erase (fuel : Nat) :
    ∀ (it : hash_iterator) (f1 f2 : fte_ref) (s : State),
      (frame_victim_loop_hands fuel it f1 f2 s).map (fun r => r.2)
        = frame_victim_loop fuel it f1 f2 s := by
  induction fuel with
  | zero => intro it f1 f2 s; rfl
  | succ n ih =>
    intro it f1 f2 s
    unfold frame_victim_loop_hands frame_victim_loop
    cases h1 : deref_ref s f1 with
    | error e => rfl
    | ok fe1 =>
      simp only [bind_ok]
      cases h2 : deref_pte s fe1.pte with
      | error e => rfl
      | ok e1 =>
        simp only [bind_ok]
        generalize (if e1.accessed = true then set_pte s fe1.pte { e1 with accessed := false }
          else s) = s1
        cases h3 : deref_ref s1 f2 with
        | error e => rfl
        | ok fe2 =>
          simp only [bind_ok]
          cases h4 : deref_pte s1 fe2.pte with
          | error e => rfl
          | ok e2 =>
            simp only [bind_ok]
            cases h5 : hash_next s1.frame_table.length it with
            | error e => rfl
            | ok it1 =>
              simp only [bind_ok]
              cases hacc : e2.accessed with
              | true =>
                simp only [Bool.not_true, Bool.false_eq_true, if_false, if_true]
                rw [← ih]
                cases frame_victim_loop_hands n
                  (if it1 = hash_iterator.null then hash_iterator.head else it1)
                  (hash_entry s1.frame_table
                    (if it1 = hash_iterator.null then hash_iterator.head else it1)) f1 s1 with
                | error e => rfl
                | ok r => rfl
              | false =>
                simp only [Bool.not_false, if_true]
                split
                · rw [← ih]
                  cases frame_victim_loop_hands n
                    (if it1 = hash_iterator.null then hash_iterator.head else it1)
                    (hash_entry s1.frame_table
                      (if it1 = hash_iterator.null then hash_iterator.head else it1)) f1 s1 with
                  | error e => rfl
                  | ok r => rfl
                · rfl

theorem sample_eight_valid : frame_table_valid sample_eight := by
  intro f hf
  have h : f = 20 ∨ f = 21 ∨ f = 22 ∨ f = 23 ∨ f = 24 ∨ f = 25 ∨ f = 26 ∨ f = 27 := by
    simpa [sample_eight, sample_state] using hf
  rcases h with h | h | h | h | h | h | h | h <;> subst h <;> exact ⟨_, _, rfl, rfl⟩

/-! ## Lemmas: what an eviction leaves alone -/

theorem page_evict_body_unloaded {s : State} {p : Nat} {e : page_table_entry}
    (hp : s.ptes p = some e) (hfte : e.fte = none) :
    page_evict_body p s = Except.ok
      { s with
        ptes := fun q =>
          if q = p then
            some { e with dirty := (e.dirty || pagedir_is_dirty s e.thread e.upage) }
          else s.ptes q
        pagedir := fun t u => if t = e.thread ∧ u = e.upage then none else s.pagedir t u } := by
  unfold page_evict_body
  rw [deref_pte_eq_ok.mpr hp, bind_ok]
  simp only []
  rw [dirty_refresh_eq hp]
  have he : ∀ d, ({ e with dirty := d, fte := none } : page_table_entry) = { e with dirty := d } := by
    intro d; cases e; simp_all
  simp [set_pte, deref_pte, pagedir_clear_page, hfte, he]

/-- Which branch a `page_evict_body` that returns has taken. -/
theorem page_evict_body_inv {s s1 : State} {p : Nat}
    (hback : ∀ e f fe, s.ptes p = some e → e.fte = some f → s.ftes f = some fe → fe.pte = p)
    (h : page_evict_body p s = Except.ok s1) :
    ∃ e, s.ptes p = some e ∧
      (∀ q, q ≠ p → s1.ptes q = s.ptes q) ∧
      (∀ k : Nat, s.swap_map[k]? = some true → s1.swap_map[k]? = some true) ∧
      (e.fte = none ∨
       ∃ f fe, resident s p e f fe ∧ fe.lock = some s.current ∧ s.frame_table_lock = none ∧
         ((e.dirty = false ∧ pagedir_is_dirty s e.thread e.upage = false) ∨
          ((e.dirty = true ∨ pagedir_is_dirty s e.thread e.upage = true) ∧
            ((∃ file, e.mapped = true ∧ e.file = some file) ∨
             (¬(e.mapped = true ∧ e.file ≠ none) ∧ ∃ k, bitmap_scan s.swap_map = some k))))) := by
  have h0 := h
  unfold page_evict_body at h
  obtain ⟨e, he1, h⟩ := bind_eq_ok h
  have hp := deref_pte_eq_ok.mp he1
  refine ⟨e, hp, ?_⟩
  cases hfte : e.fte with
  | none =>
    rw [page_evict_body_unloaded hp hfte] at h0
    simp only [Except.ok.injEq] at h0
    subst h0
    exact ⟨fun q hq => if_neg hq, fun k hk => hk, Or.inl rfl⟩
  | some f =>
    dsimp only at h
    rw [dirty_refresh_eq hp] at h
    obtain ⟨e2, he2, h⟩ := bind_eq_ok h
    have hp2 : e2 = { e with dirty := (e.dirty || pagedir_is_dirty s e.thread e.upage) } := by
      have := deref_pte_eq_ok.mp he2
      simp only [set_pte, if_true, Option.some.injEq] at this
      exact this.symm
    subst hp2
    obtain ⟨s3, hs3, h⟩ := bind_eq_ok h
    obtain ⟨e3, he3, h⟩ := bind_eq_ok h
    obtain ⟨s5, hs5, h⟩ := bind_eq_ok h
    -- what the write step leaves of the frame bookkeeping
    have hw : s3.ftes = s.ftes ∧ s3.frame_table_lock = s.frame_table_lock ∧
        s3.current = s.current ∧ e3.fte = some f ∧
        (∀ q, q ≠ p → s3.ptes q = s.ptes q) ∧
        (∀ k : Nat, s.swap_map[k]? = some true → s3.swap_map[k]? = some true) ∧
        ((e.dirty = false ∧ pagedir_is_dirty s e.thread e.upage = false) ∨
          ((e.dirty = true ∨ pagedir_is_dirty s e.thread e.upage = true) ∧
            ((∃ file, e.mapped = true ∧ e.file = some file) ∨
             (¬(e.mapped = true ∧ e.file ≠ none) ∧ ∃ k, bitmap_scan s.swap_map = some k)))) := by
      have hp3 := deref_pte_eq_ok.mp he3
      split at hs3
      · rename_i hc
        have hd : e.dirty = true ∨ pagedir_is_dirty s e.thread e.upage = true := by
          have := hc.1
          simpa using this
        obtain ⟨ew, fw, few, hpw, hftew, hfw, _, hcase⟩ := page_write_inv hs3
        simp only [set_pte, if_true, Option.some.injEq] at hpw
        subst hpw
        have hfwf : fw = f := by
          have : e.fte = some fw := hftew
          rw [hfte] at this
          simp only [Option.some.injEq] at this
          exact this.symm
        subst hfwf
        have hfw' : s.ftes fw = some few := hfw
        rcases hcase with ⟨file, hm, hfile, hs⟩ | ⟨hnm, hsw⟩
        · subst hs
          simp only [set_pte, if_true, Option.some.injEq] at hp3
          subst hp3
          exact ⟨rfl, rfl, rfl, hfte, fun q hq => by simp [set_pte, file_write_at, hq],
            fun k hk => hk, Or.inr ⟨hd, Or.inl ⟨file, hm, hfile⟩⟩⟩
        · obtain ⟨f1, fe1, e1, k, b, hf1, hfe1, hpe1, _, hk, hs⟩ := swap_write_inv hsw
          simp only [Option.some.injEq] at hf1
          subst hf1
          have hfe1' : s.ftes fw = some fe1 := hfe1
          have hb := hback e fw fe1 hp hfte hfe1'
          rw [hb] at hpe1 hs
          simp only [set_pte, if_true, Option.some.injEq] at hpe1
          subst hpe1
          subst hs
          simp only [set_pte, if_true, Option.some.injEq] at hp3
          subst hp3
          refine ⟨rfl, rfl, rfl, hfte, fun q hq => by simp [set_pte, hq], ?_,
            Or.inr ⟨hd, Or.inr ⟨hnm, k, hk⟩⟩⟩
          intro j hj
          show (s.swap_map.set k true)[j]? = some true
          by_cases hjk : k = j
          · subst hjk
            have hlt := (bitmap_scan_some hk).2.2
            have hlt' : k < s.swap_map.length := hlt
            simp [List.getElem?_set, hlt']
          · rw [List.getElem?_set_ne hjk]; exact hj
      · rename_i hc
        simp only [pure_eq_ok, Except.ok.injEq] at hs3
        subst hs3
        simp only [set_pte, if_true, Option.some.injEq] at hp3
        subst hp3
        refine ⟨rfl, rfl, rfl, hfte, fun q hq => by simp [set_pte, hq], fun k hk => hk,
          Or.inl ?_⟩
        have hnd : ¬((e.dirty || pagedir_is_dirty s e.thread e.upage) = true) := by
          intro hd
          exact hc ⟨hd, by simp [hfte]⟩
        simpa using hnd
    obtain ⟨w1, w2, w3, w4, w6, w7, w5⟩ := hw
    rw [w4] at hs5
    simp only [ne_eq, reduceCtorEq, not_false_eq_true, if_true] at hs5
    obtain ⟨f5, fe5, hf5, hfe5, hl5, ht5, hs5eq⟩ := frame_free_inv hs5
    obtain ⟨e5, _, h⟩ := bind_eq_ok h
    simp only [pure_eq_ok, Except.ok.injEq] at h
    simp only [Option.some.injEq] at hf5
    subst hf5
    have hfe : s.ftes f = some fe5 := by
      have : s3.ftes f = some fe5 := hfe5
      rw [w1] at this; exact this
    have hl : fe5.lock = some s.current := by
      have : fe5.lock = some s3.current := hl5
      rw [w3] at this; exact this
    have ht : s.frame_table_lock = none := by
      have : s3.frame_table_lock = none := ht5
      rw [w2] at this; exact this
    refine ⟨?_, ?_, Or.inr ⟨f, fe5, ⟨hp, hfte, hfe, hback e f fe5 hp hfte hfe⟩, hl, ht, w5⟩⟩
    · intro q hq
      rw [← h, hs5eq]
      simp only [set_pte, hq, if_false]
      exact w6 q hq
    · intro k hk
      rw [← h, hs5eq]
      exact w7 k hk

theorem accessed_only_refl (s : State) : accessed_only s s := ⟨rfl, fun _ => rfl⟩

theorem accessed_only_trans {s s1 s2 : State} (h1 : accessed_only s s1)
    (h2 : accessed_only s1 s2) : accessed_only s s2 := by
  refine ⟨?_, fun q => (h2.2 q).trans (h1.2 q)⟩
  have a := h1.1
  have b := h2.1
  rw [← a, ← b]

theorem accessed_only_set {s : State} {p : Nat} {e : page_table_entry} (hp : s.ptes p = some e)
    (b : Bool) : accessed_only s (set_pte s p { e with accessed := b }) := by
  refine ⟨rfl, fun q => ?_⟩
  by_cases hq : q = p
  · subst hq; simp [set_pte, hp]
  · simp [set_pte, hq]

theorem accessed_only_get {s s1 : State} (h : accessed_only s s1) {q : Nat}
    {e : page_table_entry} (hq : s.ptes q = some e) :
    ∃ a, s1.ptes q = some { e with accessed := a } := by
  have := h.2 q
  rw [hq] at this
  cases h1 : s1.ptes q with
  | none => rw [h1] at this; simp at this
  | some e1 =>
    rw [h1] at this
    simp only [Option.map_some', Option.some.injEq] at this
    refine ⟨e1.accessed, ?_⟩
    congr 1
    cases e1; cases e
    simp_all

theorem accessed_only_get_rev {s s1 : State} (h : accessed_only s s1) {q : Nat}
    {e1 : page_table_entry} (hq : s1.ptes q = some e1) :
    ∃ a, s.ptes q = some { e1 with accessed := a } := by
  have := h.2 q
  rw [hq] at this
  cases h1 : s.ptes q with
  | none => rw [h1] at this; simp at this
  | some e =>
    rw [h1] at this
    simp only [Option.map_some', Option.some.injEq] at this
    refine ⟨e.accessed, ?_⟩
    congr 1
    cases e1; cases e
    simp_all

theorem accessed_only_kept {s s1 : State} (h : accessed_only s s1) : residency_kept s s1 := by
  have hf : s1.ftes = s.ftes := by
    have := congrArg State.ftes h.1; exact this
  have hn : s1.next_ptr = s.next_ptr := by
    have := congrArg State.next_ptr h.1; exact this
  refine ⟨Nat.le_of_eq hn.symm, fun f => by rw [hf], fun p => ?_⟩
  cases hp : s.ptes p with
  | none =>
    have := h.2 p
    rw [hp] at this
    cases h1 : s1.ptes p with
    | none => rfl
    | some e1 => rw [h1] at this; simp at this
  | some e =>
    obtain ⟨a, ha⟩ := accessed_only_get h hp
    rw [ha]; rfl

theorem frame_victim_loop_accessed (fuel : Nat) :
    ∀ (it : hash_iterator) (f1 f2 : fte_ref) (s s1 : State) (r : fte_ref),
      frame_victim_loop fuel it f1 f2 s = Except.ok (r, s1) → accessed_only s s1 := by
  induction fuel with
  | zero => intro it f1 f2 s s1 r h; simp [frame_victim_loop] at h
  | succ n ih =>
    intro it f1 f2 s s1 r h
    unfold frame_victim_loop at h
    obtain ⟨fe1, _, h⟩ := bind_eq_ok h
    obtain ⟨e1, he1, h⟩ := bind_eq_ok h
    have hk : accessed_only s
        (if e1.accessed = true then set_pte s fe1.pte { e1 with accessed := false } else s) := by
      split
      · exact accessed_only_set (deref_pte_eq_ok.mp he1) false
      · exact accessed_only_refl s
    dsimp only at h
    generalize (if e1.accessed = true then set_pte s fe1.pte { e1 with accessed := false }
      else s) = sa at h hk
    obtain ⟨fe2, _, h⟩ := bind_eq_ok h
    obtain ⟨e2, _, h⟩ := bind_eq_ok h
    obtain ⟨it1, _, h⟩ := bind_eq_ok h
    cases hacc : e2.accessed with
    | true =>
      simp only [hacc, Bool.not_true, Bool.false_eq_true, if_false, if_true] at h
      exact accessed_only_trans hk (ih _ _ _ _ _ _ h)
    | false =>
      simp only [hacc, Bool.not_false, if_true] at h
      split at h
      · exact accessed_only_trans hk (ih _ _ _ _ _ _ h)
      · simp only [pure_eq_ok, Except.ok.injEq, Prod.mk.injEq] at h
        rw [← h.2]; exact hk

/-- What a `frame_victim` that returns has done: the table lock was free and is
free again, and the state differs at most in accessed flags and in the
recorded table size. -/
theorem frame_victim_inv {fuel : Nat} {s s1 : State} {v : Nat}
    (h : frame_victim fuel s = Except.ok (v, s1)) :
    s.frame_table_lock = none ∧
    ∃ z, accessed_only { s with frame_table_size := z } s1 := by
  unfold frame_victim at h
  obtain ⟨l, hl, h⟩ := bind_eq_ok h
  obtain ⟨ht, hl2⟩ := lock_acquire_eq_ok hl
  subst hl2
  refine ⟨ht, ?_⟩
  dsimp only at h
  obtain ⟨z, hz⟩ : ∃ z, (if s.frame_table_size = -1 then
      ({ s with frame_table_lock := some s.current,
                frame_table_size := to_int s.frame_table.length } : State)
    else ({ s with frame_table_lock := some s.current } : State))
      = { s with frame_table_lock := some s.current, frame_table_size := z } := by
    split
    · exact ⟨_, rfl⟩
    · exact ⟨s.frame_table_size, rfl⟩
  rw [hz] at h
  obtain ⟨it, _, h⟩ := bind_eq_ok h
  obtain ⟨it1, _, h⟩ := bind_eq_ok h
  split at h
  · simp at h
  · obtain ⟨r, hr, h⟩ := bind_eq_ok h
    obtain ⟨l1, hl1, h⟩ := bind_eq_ok h
    obtain ⟨fev, _, h⟩ := bind_eq_ok h
    simp only [pure_eq_ok, Except.ok.injEq, Prod.mk.injEq] at h
    obtain ⟨_, hl1n⟩ := lock_release_eq_ok hl1
    subst hl1n
    have ha := frame_victim_loop_accessed fuel _ _ _ _ _ _ hr
    refine ⟨z, ?_, ?_⟩
    · rw [← h.2]
      have e1 := congrArg (fun x : State => { x with frame_table_lock := (none : Option Nat) })
        ha.1
      dsimp only at e1
      show ({ r.2 with frame_table_lock := none, ptes := s.ptes } : State) = _
      rw [e1, ← ht]
    · intro q
      rw [← h.2]
      exact ha.2 q

theorem accessed_only_fields {s s1 : State} (h : accessed_only s s1) :
    s1.current = s.current ∧ s1.ftes = s.ftes ∧ s1.swap_map = s.swap_map ∧
    s1.frame_table_lock = s.frame_table_lock ∧ s1.frame_table = s.frame_table ∧
    s1.next_ptr = s.next_ptr ∧ s1.free_frames = s.free_frames ∧ s1.page_table = s.page_table ∧
    s1.pagedir = s.pagedir ∧ s1.mem = s.mem ∧ s1.swap_block = s.swap_block := by
  have h1 := h.1
  refine ⟨?_, ?_, ?_, ?_, ?_, ?_, ?_, ?_, ?_, ?_, ?_⟩
  · have := congrArg State.current h1; exact this
  · have := congrArg State.ftes h1; exact this
  · have := congrArg State.swap_map h1; exact this
  · have := congrArg State.frame_table_lock h1; exact this
  · have := congrArg State.frame_table h1; exact this
  · have := congrArg State.next_ptr h1; exact this
  · have := congrArg State.free_frames h1; exact this
  · have := congrArg State.page_table h1; exact this
  · have := congrArg State.pagedir h1; exact this
  · have := congrArg State.mem h1; exact this
  · have := congrArg State.swap_block h1; exact this

/-- What a `page_evict_locate` that returns has done. -/
theorem page_evict_locate_inv {fuel : Nat} {pte : Option Nat} {s sl : State} {p : Nat}
    (h : page_evict_locate fuel pte s = Except.ok (p, sl)) :
    ∃ s0 e, s0.ptes p = some e ∧
      ((pte = some p ∧ s0 = s) ∨
       (pte = none ∧ s.frame_table_lock = none ∧
         ∃ z, accessed_only { s with frame_table_size := z } s0)) ∧
      ((pte = some p ∧ e.fte = none ∧ sl = s0) ∨
       ∃ f fe, e.fte = some f ∧ s0.ftes f = some fe ∧ fe.lock = none ∧
         sl = set_fte s0 f { fe with lock := some s0.current }) := by
  unfold page_evict_locate at h
  cases pte with
  | none =>
    simp only at h
    obtain ⟨rv, hv, h⟩ := bind_eq_ok h
    obtain ⟨v, sv⟩ := rv
    obtain ⟨ev, hev, h⟩ := bind_eq_ok h
    obtain ⟨sa, ha, h⟩ := bind_eq_ok h
    simp only [pure_eq_ok, Except.ok.injEq, Prod.mk.injEq] at h
    obtain ⟨hvp, hsl⟩ := h
    subst hvp
    subst hsl
    obtain ⟨ht, z, hz⟩ := frame_victim_inv hv
    obtain ⟨f, fe, hf, hfe, hl, hs⟩ := frame_acquire_inv ha
    exact ⟨sv, ev, deref_pte_eq_ok.mp hev, Or.inr ⟨rfl, ht, z, hz⟩, Or.inr ⟨f, fe, hf, hfe, hl, hs⟩⟩
  | some q =>
    simp only at h
    obtain ⟨e, he, h⟩ := bind_eq_ok h
    split at h
    · rename_i hne
      obtain ⟨sa, ha, h⟩ := bind_eq_ok h
      simp only [pure_eq_ok, Except.ok.injEq, Prod.mk.injEq] at h
      obtain ⟨hqp, hsl⟩ := h
      subst hqp
      subst hsl
      obtain ⟨f, fe, hf, hfe, hl, hs⟩ := frame_acquire_inv ha
      exact ⟨s, e, deref_pte_eq_ok.mp he, Or.inl ⟨rfl, rfl⟩, Or.inr ⟨f, fe, hf, hfe, hl, hs⟩⟩
    · rename_i hne
      simp only [pure_eq_ok, Except.ok.injEq, Prod.mk.injEq] at h
      obtain ⟨hqp, hsl⟩ := h
      subst hqp
      subst hsl
      have hnone : e.fte = none := by
        cases hh : e.fte with
        | none => rfl
        | some f => exact absurd (by simp [hh]) hne
      exact ⟨s, e, deref_pte_eq_ok.mp he, Or.inl ⟨rfl, rfl⟩, Or.inl ⟨rfl, hnone, rfl⟩⟩

/-- An eviction of a victim leaves every descriptor that is not in a frame as
it is, accessed flag apart, and frees no swap slot. -/
theorem page_evict_victim_keeps {fuel : Nat} {s s1 : State} (hI : vm_inv s)
    (h : page_evict fuel none s = Except.ok s1) :
    (∀ q e, s.ptes q = some e → e.fte = none → ∃ a, s1.ptes q = some { e with accessed := a }) ∧
    (∀ k : Nat, s.swap_map[k]? = some true → s1.swap_map[k]? = some true) := by
  unfold page_evict at h
  obtain ⟨r, hr, hb⟩ := bind_eq_ok h
  obtain ⟨v, sl⟩ := r
  obtain ⟨s0, ev, hev, hfrom, hto⟩ := page_evict_locate_inv hr
  rcases hfrom with ⟨hc, _⟩ | ⟨_, _, z, hz⟩
  · simp at hc
  rcases hto with ⟨hc, _, _⟩ | ⟨f, fe, hfte, hfe, _, hsl⟩
  · simp at hc
  have hk0 : residency_kept s s0 :=
    residency_kept_trans (kept_of_eq rfl rfl rfl : residency_kept s { s with frame_table_size := z })
      (accessed_only_kept hz)
  have hI0 := vm_inv_kept hk0 hI
  have hIl : vm_inv sl := by
    rw [hsl]; exact vm_inv_kept (kept_set_fte hfe rfl) hI0
  have hpl : sl.ptes = s0.ptes := by rw [hsl]; rfl
  have hml : sl.swap_map = s0.swap_map := by rw [hsl]; rfl
  obtain ⟨_, _, hm0, _⟩ := accessed_only_fields hz
  have hback : ∀ e g fg, sl.ptes v = some e → e.fte = some g → sl.ftes g = some fg →
      fg.pte = v := by
    intro e g fg he hg hfg
    obtain ⟨fg', hfg', hb'⟩ := hIl.2.1 v e g he hg
    rw [hfg] at hfg'
    simp only [Option.some.injEq] at hfg'
    rw [hfg']; exact hb'
  obtain ⟨e, _, hothers, hmono, _⟩ := page_evict_body_inv hback hb
  refine ⟨?_, ?_⟩
  · intro q eq hq hnone
    obtain ⟨a, ha⟩ := accessed_only_get hz (q := q) hq
    have hqv : q ≠ v := by
      intro hqv
      rw [hqv, hev] at ha
      simp only [Option.some.injEq] at ha
      rw [ha] at hfte
      simp only [hnone] at hfte
      exact Option.noConfusion hfte
    exact ⟨a, by rw [hothers q hqv, hpl]; exact ha⟩
  · intro k hk
    apply hmono
    rw [hml, hm0]
    exact hk

/-- What a `frame_alloc_entry` that returns `NULL` has done: nothing when
`malloc` failed; the rollback when the frame table refused the entry. -/
theorem frame_alloc_entry_none_inv {s s1 : State} {env : Env} {p k : Nat}
    (h : frame_alloc_entry env p k s = Except.ok (none, s1)) :
    s1 = s ∨
    (s.frame_table_lock = none ∧ ∃ e, s.ptes p = some e ∧
      s1 = { s with
        next_ptr := s.next_ptr + 1
        ptes := fun q => if q = p then some { e with fte := none } else s.ptes q
        ftes := fun g => if g = s.next_ptr then none else s.ftes g
        free_frames := k :: s.free_frames }) := by
  cases hm : env.malloc_fte_ok with
  | false =>
    rw [frame_alloc_entry_no_memory p k hm] at h
    simp only [Except.ok.injEq, Prod.mk.injEq, true_and] at h
    exact Or.inl h.symm
  | true =>
    right
    unfold frame_alloc_entry malloc at h
    simp only [hm, if_true] at h
    obtain ⟨l, hl, h⟩ := bind_eq_ok h
    obtain ⟨ht, hl2⟩ := lock_acquire_eq_ok hl
    subst hl2
    unfold hash_insert_frame at h
    split at h
    · rename_i old s5 heq
      obtain ⟨e, he, h⟩ := bind_eq_ok h
      obtain ⟨l1, hl1, h⟩ := bind_eq_ok h
      simp only [pure_eq_ok, Except.ok.injEq, Prod.mk.injEq, true_and] at h
      obtain ⟨_, hl1n⟩ := lock_release_eq_ok hl1
      subst hl1n
      split at heq
      · simp only [Prod.mk.injEq] at heq
        obtain ⟨_, hs5⟩ := heq
        subst hs5
        have hp : s.ptes p = some e := deref_pte_eq_ok.mp he
        refine ⟨ht, e, hp, ?_⟩
        rw [← h]
        simp only [set_pte, free_fte, set_fte, palloc_free_page, ht]
        congr 1
        all_goals first
          | exact ht.symm
          | (funext g; by_cases hg : g = s.next_ptr <;> simp [hg])
      · simp at heq
    · rename_i s5 heq
      obtain ⟨l1, _, h⟩ := bind_eq_ok h
      simp at h

/-- `frame_alloc` leaves every descriptor that is not in a frame as it is,
accessed flag apart, and frees no swap slot; an entry it returns is a fresh
record for the descriptor, not yet locked. -/
theorem frame_alloc_keeps {fuel : Nat} {env : Env} {p : Nat} {s s2 : State} {r : Option Nat}
    (hI : vm_inv s) (h : frame_alloc fuel env p s = Except.ok (r, s2)) :
    (∀ q e, s.ptes q = some e → e.fte = none → ∃ a, s2.ptes q = some { e with accessed := a }) ∧
    (∀ k : Nat, s.swap_map[k]? = some true → s2.swap_map[k]? = some true) ∧
    (∀ f, r = some f → ∃ k, s2.ftes f = some ⟨k, s2.current, p, none⟩) := by
  unfold frame_alloc at h
  obtain ⟨rp, hpage, hentry⟩ := bind_eq_ok h
  obtain ⟨k, sa⟩ := rp
  -- the frame
  have hA : (∀ q e, s.ptes q = some e → e.fte = none →
        ∃ a, sa.ptes q = some { e with accessed := a }) ∧
      (∀ k : Nat, s.swap_map[k]? = some true → sa.swap_map[k]? = some true) := by
    have hpalloc : ∀ (x x1 : State) (r : Option Nat), palloc_get_page x = (r, x1) →
        x1.ptes = x.ptes ∧ x1.swap_map = x.swap_map := by
      intro x x1 r hx
      unfold palloc_get_page at hx
      split at hx
      · simp only [Prod.mk.injEq] at hx; rw [← hx.2]; exact ⟨rfl, rfl⟩
      · simp only [Prod.mk.injEq] at hx; rw [← hx.2]; exact ⟨rfl, rfl⟩
    unfold frame_alloc_page at hpage
    split at hpage
    · rename_i k1 sk heq
      simp only [pure_eq_ok, Except.ok.injEq, Prod.mk.injEq] at hpage
      obtain ⟨h1, h2⟩ := hpalloc _ _ _ heq
      rw [← hpage.2, h1, h2]
      exact ⟨fun q e hq _ => ⟨e.accessed, hq⟩, fun k hk => hk⟩
    · rename_i sk heq
      obtain ⟨se, hev, hpage⟩ := bind_eq_ok hpage
      obtain ⟨h1, h2⟩ := hpalloc _ _ _ heq
      have hIk : vm_inv sk := by
        have hk : residency_kept s sk := by
          unfold palloc_get_page at heq
          split at heq
          · simp only [Prod.mk.injEq] at heq; rw [← heq.2]; exact residency_kept_refl s
          · simp at heq
        exact vm_inv_kept hk hI
      obtain ⟨hE1, hE2⟩ := page_evict_victim_keeps hIk hev
      rw [h1] at hE1
      rw [h2] at hE2
      split at hpage
      · rename_i k2 sr heq2
        simp only [pure_eq_ok, Except.ok.injEq, Prod.mk.injEq] at hpage
        obtain ⟨h3, h4⟩ := hpalloc _ _ _ heq2
        rw [← hpage.2, h3, h4]
        exact ⟨hE1, hE2⟩
      · simp at hpage
  obtain ⟨hA1, hA2⟩ := hA
  -- the entry
  cases r with
  | some f =>
    obtain ⟨hfn, _, _, _, hs2⟩ := frame_alloc_entry_inv hentry
    subst hs2
    refine ⟨hA1, hA2, ?_⟩
    intro f1 hf1
    simp only [Option.some.injEq] at hf1
    subst hf1
    exact ⟨k, by simp [hfn]⟩
  | none =>
    refine ⟨?_, ?_, fun f hf => by simp at hf⟩
    · rcases frame_alloc_entry_none_inv hentry with hs | ⟨_, e, hp, hs⟩
      · rw [hs]; exact hA1
      · intro q eq hq hnone
        obtain ⟨a, ha⟩ := hA1 q eq hq hnone
        rw [hs]
        by_cases hqp : q = p
        · subst hqp
          have ha' : sa.ptes q = some { eq with accessed := a } := ha
          rw [hp] at ha'
          simp only [Option.some.injEq] at ha'
          refine ⟨a, ?_⟩
          simp only [if_true, ha', Option.some.injEq]
          cases eq
          simp_all
        · exact ⟨a, by simp only [hqp, if_false]; exact ha⟩
    · rcases frame_alloc_entry_none_inv hentry with hs | ⟨_, e, hp, hs⟩
      · rw [hs]; exact hA2
      · rw [hs]; exact hA2

/-! ## Lemmas: the slot invariant -/

/-- What a `page_load_unwind` that returns has done. -/
theorem page_load_unwind_inv {p f : Nat} {s s1 : State} {r : Option Nat}
    (h : page_load_unwind p f s = Except.ok (r, s1)) :
    r = none ∧ ∃ fe e, s.ftes f = some fe ∧ fe.lock = some s.current ∧
      s.frame_table_lock = none ∧ s.ptes p = some e ∧
      s1 = { s with
        ptes := fun q => if q = p then some { e with fte := none } else s.ptes q
        ftes := fun g => if g = f then none else s.ftes g
        frame_table := s.frame_table.eraseP (fun g => frame_key s g == some fe.kpage)
        free_frames := fe.kpage :: s.free_frames } := by
  have h0 := h
  unfold page_load_unwind at h
  obtain ⟨sa, hfree, h⟩ := bind_eq_ok h
  obtain ⟨ea, hea, h⟩ := bind_eq_ok h
  obtain ⟨f1, fe, hf1, hfe, hl, ht, hsa⟩ := frame_free_inv hfree
  simp only [Option.some.injEq] at hf1
  subst hf1
  have hp : s.ptes p = some ea := by
    have := deref_pte_eq_ok.mp hea
    rw [hsa] at this
    exact this
  rw [page_load_unwind_ok hp hfe hl ht] at h0
  simp only [Except.ok.injEq, Prod.mk.injEq] at h0
  exact ⟨h0.1.symm, fe, ea, hfe, hl, ht, hp, h0.2.symm⟩

/-! ## Lemmas: assertions -/

theorem safe_post_ok {α : Type} {a : α} {Q : α → Prop} (h : Q a) :
    safe_post (Except.ok a) Q := h

theorem safe_post_pure {α : Type} {a : α} {Q : α → Prop} (h : Q a) :
    safe_post (pure a : Except Fault α) Q := h

theorem safe_post_of_ne {α : Type} {x : Except Fault α}
    (h : x ≠ Except.error Fault.assertion) : safe_post x (fun a => x = Except.ok a) := by
  cases x with
  | ok a => exact rfl
  | error e => exact fun he => h (by rw [he])

theorem safe_post_ne {α : Type} {x : Except Fault α} {Q : α → Prop}
    (h : safe_post x Q) : x ≠ Except.error Fault.assertion := by
  intro hx
  rw [hx] at h
  exact h rfl

theorem safe_post_result {α : Type} {x : Except Fault α} {Q : α → Prop} {a : α}
    (h : safe_post x Q) (hx : x = Except.ok a) : Q a := by
  rw [hx] at h
  exact h

theorem safe_post_mono {α : Type} {x : Except Fault α} {P Q : α → Prop}
    (h : safe_post x P) (hpq : ∀ a, x = Except.ok a → P a → Q a) : safe_post x Q := by
  cases x with
  | ok a => exact hpq a rfl h
  | error e => exact h

theorem safe_bind {α β : Type} {x : Except Fault α} {f : α → Except Fault β}
    {Q : β → Prop} (hx : x ≠ Except.error Fault.assertion)
    (hf : ∀ a, x = Except.ok a → safe_post (f a) Q) : safe_post (x >>= f) Q := by
  cases x with
  | ok a => exact hf a rfl
  | error e => exact fun he => hx (by rw [he])

theorem deref_pte_safe (s : State) (p : Nat) :
    deref_pte s p ≠ Except.error Fault.assertion := by
  unfold deref_pte
  cases s.ptes p <;> simp

theorem deref_fte_safe (s : State) (f : Nat) :
    deref_fte s f ≠ Except.error Fault.assertion := by
  unfold deref_fte
  cases s.ftes f <;> simp

theorem deref_ref_safe (s : State) (r : fte_ref) :
    deref_ref s r ≠ Except.error Fault.assertion := by
  cases r with
  | entry f => exact deref_fte_safe s f
  | null => simp [deref_ref]
  | wild => simp [deref_ref]

theorem non_null_safe (ptr : Option Nat) : non_null ptr ≠ Except.error Fault.assertion := by
  cases ptr <;> simp

theorem ASSERT_safe {c : Prop} [Decidable c] (h : c) :
    ASSERT c ≠ Except.error Fault.assertion := by
  simp [ASSERT, h]

theorem lock_acquire_safe {holder : Option Nat} {cur : Nat} (h : holder ≠ some cur) :
    lock_acquire holder cur ≠ Except.error Fault.assertion := by
  cases holder with
  | none => simp
  | some a =>
    have : a ≠ cur := fun hh => h (by rw [hh])
    simp [lock_acquire, this]

theorem lock_release_safe {holder : Option Nat} {cur : Nat} (h : holder = some cur) :
    lock_release holder cur ≠ Except.error Fault.assertion := by
  simp [lock_release, h]

theorem hash_next_safe (n : Nat) (it : hash_iterator) :
    hash_next n it ≠ Except.error Fault.assertion := by
  cases it <;> simp [hash_next]

theorem hash_next_times_safe (n cnt : Nat) :
    ∀ it, hash_next_times n cnt it ≠ Except.error Fault.assertion := by
  induction cnt with
  | zero => intro it; simp [hash_next_times]
  | succ c ih =>
    intro it
    unfold hash_next_times
    cases h : hash_next n it with
    | error e =>
      have := hash_next_safe n it
      rw [h] at this
      simpa using this
    | ok it1 => simpa using ih it1

theorem bitmap_set_safe {b : List Bool} {idx : Nat} (v : Bool) (h : idx < b.length) :
    bitmap_set b idx v ≠ Except.error Fault.assertion := by
  simp [bitmap_set, h]

theorem swap_write_safe {s : State} {f : Nat}
    (hl : ∀ fe, s.ftes f = some fe → fe.lock = some s.current) :
    swap_write (some f) s ≠ Except.error Fault.assertion := by
  unfold swap_write
  apply safe_post_ne (Q := fun _ => True)
  refine safe_bind (ASSERT_safe (by simp)) (fun _ _ => ?_)
  refine safe_bind (non_null_safe _) (fun f1 hf1 => ?_)
  simp only [non_null_some, Except.ok.injEq] at hf1
  subst hf1
  refine safe_bind (deref_fte_safe _ _) (fun fe hfe => ?_)
  refine safe_bind (ASSERT_safe (hl fe (deref_fte_eq_ok.mp hfe))) (fun _ _ => ?_)
  cases hk : bitmap_scan_and_flip s.swap_map with
  | none => simp [safe_post]
  | some r =>
    simp only
    refine safe_bind (deref_pte_safe _ _) (fun e _ => ?_)
    exact trivial

theorem swap_read_safe {s : State} {f : Nat}
    (hl : ∀ fe, s.ftes f = some fe → fe.lock = some s.current)
    (hs : ∀ fe e, s.ftes f = some fe → s.ptes fe.pte = some e →
      e.sector ≠ -1 ∧ slot_of e < s.swap_map.length) :
    swap_read (some f) s ≠ Except.error Fault.assertion := by
  unfold swap_read
  apply safe_post_ne (Q := fun _ => True)
  refine safe_bind (ASSERT_safe (by simp)) (fun _ _ => ?_)
  refine safe_bind (non_null_safe _) (fun f1 hf1 => ?_)
  simp only [non_null_some, Except.ok.injEq] at hf1
  subst hf1
  refine safe_bind (deref_fte_safe _ _) (fun fe hfe => ?_)
  have hfe' := deref_fte_eq_ok.mp hfe
  refine safe_bind (ASSERT_safe (hl fe hfe')) (fun _ _ => ?_)
  refine safe_bind (deref_pte_safe _ _) (fun e he => ?_)
  obtain ⟨h1, h2⟩ := hs fe e hfe' (deref_pte_eq_ok.mp he)
  refine safe_bind (ASSERT_safe h1) (fun _ _ => ?_)
  have hmap : (swap_read_loop e.sector fe.kpage s).swap_map = s.swap_map := by
    rw [swap_read_loop_eq]
  refine safe_bind (bitmap_set_safe false (by rw [hmap]; exact h2)) (fun _ _ => ?_)
  exact trivial

theorem frame_acquire_safe {s : State} {fte : Option Nat}
    (hl : ∀ f fe, fte = some f → s.ftes f = some fe → fe.lock ≠ some s.current) :
    frame_acquire fte s ≠ Except.error Fault.assertion := by
  unfold frame_acquire
  apply safe_post_ne (Q := fun _ => True)
  refine safe_bind (non_null_safe _) (fun f hf => ?_)
  refine safe_bind (deref_fte_safe _ _) (fun fe hfe => ?_)
  refine safe_bind (lock_acquire_safe (hl f fe (non_null_eq_ok hf) (deref_fte_eq_ok.mp hfe)))
    (fun _ _ => ?_)
  exact trivial

theorem frame_release_safe {s : State} {fte : Option Nat}
    (hl : ∀ f fe, fte = some f → s.ftes f = some fe → fe.lock = some s.current) :
    frame_release fte s ≠ Except.error Fault.assertion := by
  unfold frame_release
  apply safe_post_ne (Q := fun _ => True)
  refine safe_bind (non_null_safe _) (fun f hf => ?_)
  refine safe_bind (deref_fte_safe _ _) (fun fe hfe => ?_)
  refine safe_bind (lock_release_safe (hl f fe (non_null_eq_ok hf) (deref_fte_eq_ok.mp hfe)))
    (fun _ _ => ?_)
  exact trivial

theorem frame_free_safe {s : State} {fte : Option Nat}
    (hl : ∀ f fe, fte = some f → s.ftes f = some fe → fe.lock = some s.current)
    (ht : s.frame_table_lock ≠ some s.current) :
    frame_free fte s ≠ Except.error Fault.assertion := by
  unfold frame_free
  apply safe_post_ne (Q := fun _ => True)
  refine safe_bind (non_null_safe _) (fun f hf => ?_)
  refine safe_bind (deref_fte_safe _ _) (fun fe hfe => ?_)
  refine safe_bind (ASSERT_safe (hl f fe (non_null_eq_ok hf) (deref_fte_eq_ok.mp hfe)))
    (fun _ _ => ?_)
  refine safe_bind (lock_acquire_safe ht) (fun l hl1 => ?_)
  obtain ⟨_, hl2⟩ := lock_acquire_eq_ok hl1
  subst hl2
  refine safe_bind (lock_release_safe rfl) (fun _ _ => ?_)
  exact trivial

theorem frame_victim_loop_safe (fuel : Nat) :
    ∀ (it : hash_iterator) (f1 f2 : fte_ref) (s : State),
      frame_victim_loop fuel it f1 f2 s ≠ Except.error Fault.assertion := by
  induction fuel with
  | zero => intro it f1 f2 s; simp [frame_victim_loop]
  | succ n ih =>
    intro it f1 f2 s
    unfold frame_victim_loop
    apply safe_post_ne (Q := fun _ => True)
    refine safe_bind (deref_ref_safe _ _) (fun fe1 _ => ?_)
    refine safe_bind (deref_pte_safe _ _) (fun e1 _ => ?_)
    dsimp only
    refine safe_bind (deref_ref_safe _ _) (fun fe2 _ => ?_)
    refine safe_bind (deref_pte_safe _ _) (fun e2 _ => ?_)
    refine safe_bind (hash_next_safe _ _) (fun it1 _ => ?_)
    cases hacc : e2.accessed with
    | true =>
      simp only [Bool.not_true, Bool.false_eq_true, if_false, if_true]
      exact safe_post_mono (safe_post_of_ne (ih _ _ _ _)) (fun _ _ _ => trivial)
    | false =>
      simp only [Bool.not_false, if_true]
      split
      · exact safe_post_mono (safe_post_of_ne (ih _ _ _ _)) (fun _ _ _ => trivial)
      · exact trivial

theorem frame_victim_safe {fuel : Nat} {s : State} (ht : s.frame_table_lock ≠ some s.current) :
    frame_victim fuel s ≠ Except.error Fault.assertion := by
  unfold frame_victim
  apply safe_post_ne (Q := fun _ => True)
  refine safe_bind (lock_acquire_safe ht) (fun l hl => ?_)
  obtain ⟨_, hl2⟩ := lock_acquire_eq_ok hl
  subst hl2
  dsimp only
  obtain ⟨z, hz⟩ : ∃ z, (if s.frame_table_size = -1 then
      ({ s with frame_table_lock := some s.current,
                frame_table_size := to_int s.frame_table.length } : State)
    else ({ s with frame_table_lock := some s.current } : State))
      = { s with frame_table_lock := some s.current, frame_table_size := z } := by
    split
    · exact ⟨_, rfl⟩
    · exact ⟨s.frame_table_size, rfl⟩
  rw [hz]
  refine safe_bind (hash_next_safe _ _) (fun it _ => ?_)
  refine safe_bind (hash_next_times_safe _ _ _) (fun it1 _ => ?_)
  split
  · simp [safe_post]
  · refine safe_bind (frame_victim_loop_safe _ _ _ _ _) (fun r hr => ?_)
    obtain ⟨rv, s3⟩ := r
    obtain ⟨_, _, _, h4, _⟩ := accessed_only_fields (frame_victim_loop_accessed fuel _ _ _ _ _ _ hr)
    obtain ⟨h1, _⟩ := accessed_only_fields (frame_victim_loop_accessed fuel _ _ _ _ _ _ hr)
    have hrel : s3.frame_table_lock = some s3.current := by
      rw [h4, h1]
    refine safe_bind (lock_release_safe hrel) (fun _ _ => ?_)
    refine safe_bind (deref_ref_safe _ _) (fun _ _ => ?_)
    exact trivial

theorem page_write_safe {s : State} {p : Nat}
    (hl : ∀ e, s.ptes p = some e → ∃ f, e.fte = some f ∧
      ∀ fe, s.ftes f = some fe → fe.lock = some s.current) :
    page_write p s ≠ Except.error Fault.assertion := by
  unfold page_write
  apply safe_post_ne (Q := fun _ => True)
  refine safe_bind (deref_pte_safe _ _) (fun e he => ?_)
  obtain ⟨f, hf, hlock⟩ := hl e (deref_pte_eq_ok.mp he)
  refine safe_bind (ASSERT_safe (by simp [hf])) (fun _ _ => ?_)
  refine safe_bind (non_null_safe _) (fun f1 hf1 => ?_)
  have := non_null_eq_ok hf1
  rw [hf] at this
  simp only [Option.some.injEq] at this
  subst this
  refine safe_bind (deref_fte_safe _ _) (fun fe hfe => ?_)
  refine safe_bind (ASSERT_safe (hlock fe (deref_fte_eq_ok.mp hfe))) (fun _ _ => ?_)
  split
  · exact trivial
  · rw [hf]
    exact safe_post_mono (safe_post_of_ne (swap_write_safe hlock)) (fun _ _ _ => trivial)

theorem page_read_safe {s : State} {p : Nat}
    (hl : ∀ e, s.ptes p = some e → ∃ f, e.fte = some f ∧
      ∀ fe, s.ftes f = some fe → fe.lock = some s.current ∧
        (e.swapped = true → ∀ e1, s.ptes fe.pte = some e1 →
          e1.sector ≠ -1 ∧ slot_of e1 < s.swap_map.length)) :
    page_read p s ≠ Except.error Fault.assertion := by
  unfold page_read
  apply safe_post_ne (Q := fun _ => True)
  refine safe_bind (deref_pte_safe _ _) (fun e he => ?_)
  obtain ⟨f, hf, hlock⟩ := hl e (deref_pte_eq_ok.mp he)
  refine safe_bind (ASSERT_safe (by simp [hf])) (fun _ _ => ?_)
  refine safe_bind (non_null_safe _) (fun f1 hf1 => ?_)
  have := non_null_eq_ok hf1
  rw [hf] at this
  simp only [Option.some.injEq] at this
  subst this
  refine safe_bind (deref_fte_safe _ _) (fun fe hfe => ?_)
  refine safe_bind (ASSERT_safe (hlock fe (deref_fte_eq_ok.mp hfe)).1) (fun _ _ => ?_)
  split
  · rename_i hsw
    rw [hf]
    refine safe_bind (swap_read_safe (fun fe1 h1 => (hlock fe1 h1).1)
      (fun fe1 e1 h1 h2 => (hlock fe1 h1).2 hsw e1 h2)) (fun _ _ => ?_)
    exact trivial
  · split
    · dsimp only
      split
      · exact trivial
      · exact trivial
    · exact trivial

theorem safe_post_intro {α : Type} {x : Except Fault α} {Q : α → Prop}
    (h1 : x ≠ Except.error Fault.assertion) (h2 : ∀ a, x = Except.ok a → Q a) :
    safe_post x Q := by
  cases x with
  | ok a => exact h2 a rfl
  | error e => exact fun he => h1 (by rw [he])

/-- The assertion invariant carries over to a state whose locks are as stated
and whose swapped descriptors were swapped before, with the same sector, or
hold the first sector of a slot. -/
theorem assert_inv_holding_congr {held held1 : Option Nat} {s s1 : State}
    (hI : assert_inv_holding held s)
    (hc : s1.current = s.current) (ht : s1.frame_table_lock = s.frame_table_lock)
    (hl : ∀ g fe1, s1.ftes g = some fe1 → (fe1.lock = some s.current ↔ held1 = some g))
    (hm : s1.swap_map.length = s.swap_map.length)
    (hp : ∀ p e1, s1.ptes p = some e1 → e1.swapped = true →
      (∃ e, s.ptes p = some e ∧ e.swapped = true ∧ e.sector = e1.sector) ∨
      (∃ k, k < s.swap_map.length ∧ e1.sector = ((k * SECTORS_PER_PAGE : Nat) : Int))) :
    assert_inv_holding held1 s1 := by
  obtain ⟨⟨h1, _⟩, hfit, hv⟩ := hI
  refine ⟨⟨?_, ?_⟩, ?_, ?_⟩
  · rw [ht, hc]; exact h1
  · intro g fe1 hg
    rw [hc]; exact hl g fe1 hg
  · unfold swap_fits at hfit ⊢
    rw [hm]; exact hfit
  · intro p e1 hp1 hsw
    rw [hm]
    rcases hp p e1 hp1 hsw with ⟨e, he, hs, hsec⟩ | hk
    · obtain ⟨k, hk1, hk2⟩ := hv p e he hs
      exact ⟨k, hk1, hsec ▸ hk2⟩
    · exact hk

/-- A store to a descriptor that keeps its `swapped` and `sector` fields keeps
the assertion invariant. -/
theorem assert_inv_holding_set_pte {held : Option Nat} {s : State} {p : Nat}
    {e e1 : page_table_entry} (hI : assert_inv_holding held s) (hp : s.ptes p = some e)
    (h1 : e1.swapped = e.swapped) (h2 : e1.sector = e.sector) :
    assert_inv_holding held (set_pte s p e1) := by
  refine assert_inv_holding_congr hI rfl rfl (fun g fe1 hg => hI.1.2 g fe1 hg) rfl ?_
  intro q eq hq hsw
  left
  by_cases hqp : q = p
  · subst hqp
    simp only [set_pte, if_true, Option.some.injEq] at hq
    subst hq
    exact ⟨e, hp, h1 ▸ hsw, h2.symm⟩
  · simp only [set_pte, hqp, if_false] at hq
    exact ⟨eq, hq, hsw, rfl⟩

/-- `page_write` keeps the assertion invariant and the frame reference of the
descriptor. -/
theorem page_write_holding {held : Option Nat} {s s1 : State} {p : Nat}
    (hI : assert_inv_holding held s) (h : page_write p s = Except.ok s1) :
    assert_inv_holding held s1 ∧
    ∀ e, s.ptes p = some e → ∃ e1, s1.ptes p = some e1 ∧ e1.fte = e.fte := by
  obtain ⟨e, f, fe, hp, hfte, hf, _, hcase⟩ := page_write_inv h
  rcases hcase with ⟨file, _, _, hs1⟩ | ⟨_, hsw⟩
  · subst hs1
    refine ⟨?_, ?_⟩
    · have h1 : assert_inv_holding held
          (file_write_at s file fe.kpage (to_int e.file_bytes) e.file_ofs) :=
        assert_inv_holding_congr hI rfl rfl (fun g fe1 hg => hI.1.2 g fe1 hg) rfl
          (fun q eq hq hs => Or.inl ⟨eq, hq, hs, rfl⟩)
      exact assert_inv_holding_set_pte h1 hp rfl rfl
    · intro e' he'
      rw [hp] at he'
      simp only [Option.some.injEq] at he'
      subst he'
      exact ⟨_, if_pos rfl, rfl⟩
  · obtain ⟨f1, fe1, e0, k, b, _, _, he0, _, hk, hs1⟩ := swap_write_inv hsw
    obtain ⟨_, _, hk3⟩ := bitmap_scan_some hk
    have hb := slot_sector_bound hk3 hI.2.1
    have hlt : k * SECTORS_PER_PAGE < 2 ^ 31 := by
      simp only [SECTORS_PER_PAGE, PGSIZE, BLOCK_SECTOR_SIZE] at *; omega
    have hmod : k * SECTORS_PER_PAGE % WORD = k * SECTORS_PER_PAGE :=
      Nat.mod_eq_of_lt (by simp only [WORD]; omega)
    rw [hmod, to_int_of_lt hlt] at hs1
    subst hs1
    refine ⟨?_, ?_⟩
    · refine assert_inv_holding_congr hI rfl rfl (fun g fe1 hg => hI.1.2 g fe1 hg)
        (List.length_set _ _ _) ?_
      intro q eq hq hs
      by_cases hqt : q = fe1.pte
      · subst hqt
        simp only [set_pte, if_true, Option.some.injEq] at hq
        subst hq
        exact Or.inr ⟨k, hk3, rfl⟩
      · simp only [set_pte, hqt, if_false] at hq
        exact Or.inl ⟨eq, hq, hs, rfl⟩
    · intro e' he'
      by_cases hpt : p = fe1.pte
      · subst hpt
        rw [he0] at he'
        simp only [Option.some.injEq] at he'
        subst he'
        exact ⟨_, if_pos rfl, rfl⟩
      · exact ⟨e', by simp only [set_pte, hpt, if_false]; exact he', rfl⟩

/-- `page_evict_body` fails no assertion and restores the assertion invariant,
when the running context holds the lock of the frame of the descriptor and no
other. -/
theorem page_evict_body_safe {s : State} {p : Nat} {e : page_table_entry}
    (hp : s.ptes p = some e) (hI : assert_inv_holding e.fte s) :
    safe_post (page_evict_body p s) assert_inv := by
  unfold page_evict_body
  refine safe_bind (deref_pte_safe _ _) (fun e1 he1 => ?_)
  have := deref_pte_eq_ok.mp he1
  rw [hp] at this
  simp only [Option.some.injEq] at this
  subst this
  dsimp only
  rw [dirty_refresh_eq hp]
  have hI2 : assert_inv_holding e.fte
      (set_pte s p { e with dirty := (e.dirty || pagedir_is_dirty s e.thread e.upage) }) :=
    assert_inv_holding_set_pte hI hp rfl rfl
  have hp2 : (set_pte s p { e with dirty := (e.dirty || pagedir_is_dirty s e.thread e.upage) }).ptes
      p = some { e with dirty := (e.dirty || pagedir_is_dirty s e.thread e.upage) } := if_pos rfl
  generalize set_pte s p { e with dirty := (e.dirty || pagedir_is_dirty s e.thread e.upage) }
    = s2 at hI2 hp2
  have hfte2 : ({ e with dirty := (e.dirty || pagedir_is_dirty s e.thread e.upage) }
    : page_table_entry).fte = e.fte := rfl
  generalize ({ e with dirty := (e.dirty || pagedir_is_dirty s e.thread e.upage) }
    : page_table_entry) = e2 at hp2 hfte2
  rw [← hfte2] at hI2
  refine safe_bind (deref_pte_safe _ _) (fun e2' he2 => ?_)
  have := deref_pte_eq_ok.mp he2
  rw [hp2] at this
  simp only [Option.some.injEq] at this
  subst this
  -- the write step
  have hwsafe : (if e2.dirty = true ∧ e2.fte ≠ none then page_write p s2 else pure s2)
      ≠ Except.error Fault.assertion := by
    split
    · rename_i hc
      apply page_write_safe
      intro e' he'
      rw [hp2] at he'
      simp only [Option.some.injEq] at he'
      subst he'
      cases hf : e2.fte with
      | none => exact absurd hf hc.2
      | some f =>
        refine ⟨f, rfl, fun fe hfe => ?_⟩
        exact (hI2.1.2 f fe hfe).mpr hf
    · simp
  refine safe_bind hwsafe (fun s3 hs3 => ?_)
  have hw : assert_inv_holding e2.fte s3 ∧ ∃ e3, s3.ptes p = some e3 ∧ e3.fte = e2.fte := by
    split at hs3
    · obtain ⟨h1, h2⟩ := page_write_holding hI2 hs3
      exact ⟨h1, h2 e2 hp2⟩
    · simp only [pure_eq_ok, Except.ok.injEq] at hs3
      subst hs3
      exact ⟨hI2, e2, hp2, rfl⟩
  obtain ⟨hI3, e3, hp3, hfte3⟩ := hw
  refine safe_bind (deref_pte_safe _ _) (fun e3' he3 => ?_)
  have := deref_pte_eq_ok.mp he3
  rw [hp3] at this
  simp only [Option.some.injEq] at this
  subst this
  have hI4 : assert_inv_holding e2.fte (pagedir_clear_page s3 e3.thread e3.upage) :=
    assert_inv_holding_congr hI3 rfl rfl (fun g fe1 hg => hI3.1.2 g fe1 hg) rfl
      (fun q eq hq hs => Or.inl ⟨eq, hq, hs, rfl⟩)
  have hp4 : (pagedir_clear_page s3 e3.thread e3.upage).ptes p = some e3 := hp3
  generalize pagedir_clear_page s3 e3.thread e3.upage = s4 at hI4 hp4
  -- the free step
  have hfsafe : (if e3.fte ≠ none then frame_free e3.fte s4 else pure s4)
      ≠ Except.error Fault.assertion := by
    split
    · apply frame_free_safe
      · intro f fe hf hfe
        exact (hI4.1.2 f fe hfe).mpr (hfte3 ▸ hf)
      · exact hI4.1.1
    · simp
  refine safe_bind hfsafe (fun s5 hs5 => ?_)
  have hI5 : assert_inv s5 ∧ s5.ptes = s4.ptes := by
    split at hs5
    · obtain ⟨f, fe, hf, hfe, _, _, hs⟩ := frame_free_inv hs5
      subst hs
      refine ⟨?_, rfl⟩
      refine assert_inv_holding_congr hI4 rfl rfl ?_ rfl
        (fun q eq hq hs => Or.inl ⟨eq, hq, hs, rfl⟩)
      intro g fe1 hg
      have hg' : (if g = f then none else s4.ftes g) = some fe1 := hg
      by_cases hgf : g = f
      · simp [hgf] at hg'
      · rw [if_neg hgf] at hg'
        have := hI4.1.2 g fe1 hg'
        rw [← hfte3, hf] at this
        constructor
        · intro h
          have := this.mp h
          simp only [Option.some.injEq] at this
          exact absurd this.symm hgf
        · intro h
          simp at h
    · rename_i hne
      simp only [pure_eq_ok, Except.ok.injEq] at hs5
      subst hs5
      have hnone : e3.fte = none := by
        cases hh : e3.fte with
        | none => rfl
        | some f => exact absurd (by simp [hh]) hne
      rw [← hfte3, hnone] at hI4
      exact ⟨hI4, rfl⟩
  obtain ⟨hI5, hp5⟩ := hI5
  refine safe_bind (deref_pte_safe _ _) (fun e5 he5 => ?_)
  have hp5' : s5.ptes p = some e5 := deref_pte_eq_ok.mp he5
  exact assert_inv_holding_set_pte hI5 hp5' rfl rfl

theorem assert_inv_holding_same {held : Option Nat} {s s1 : State}
    (hI : assert_inv_holding held s) (hc : s1.current = s.current)
    (ht : s1.frame_table_lock = s.frame_table_lock) (hf : s1.ftes = s.ftes)
    (hm : s1.swap_map = s.swap_map)
    (hp : ∀ p e1, s1.ptes p = some e1 → e1.swapped = true →
      ∃ e, s.ptes p = some e ∧ e.swapped = true ∧ e.sector = e1.sector) :
    assert_inv_holding held s1 :=
  assert_inv_holding_congr hI hc ht (fun g fe1 hg => hI.1.2 g fe1 (hf ▸ hg)) (by rw [hm])
    (fun p e1 hp1 hs => Or.inl (hp p e1 hp1 hs))

theorem assert_inv_holding_accessed {held : Option Nat} {s s1 : State} (z : Int)
    (hI : assert_inv_holding held s) (ha : accessed_only { s with frame_table_size := z } s1) :
    assert_inv_holding held s1 := by
  obtain ⟨h1, h2, h3, h4, _⟩ := accessed_only_fields ha
  refine assert_inv_holding_same hI h1 h4 h2 h3 ?_
  intro p e1 hp hs
  obtain ⟨a, ha1⟩ := accessed_only_get_rev ha hp
  exact ⟨_, ha1, hs, rfl⟩

/-- `frame_acquire` by a context that holds no lock leaves it holding the lock
of the entry. -/
theorem assert_inv_frame_acquire {s s1 : State} {f : Nat} (hI : assert_inv s)
    (h : frame_acquire (some f) s = Except.ok s1) :
    assert_inv_holding (some f) s1 ∧ s1.ptes = s.ptes := by
  obtain ⟨f1, fe, hf1, hfe, _, hs⟩ := frame_acquire_inv h
  simp only [Option.some.injEq] at hf1
  subst hf1
  subst hs
  refine ⟨?_, rfl⟩
  refine assert_inv_holding_congr hI rfl rfl ?_ rfl (fun q eq hq hs => Or.inl ⟨eq, hq, hs, rfl⟩)
  intro g fe1 hg
  by_cases hgf : g = f
  · subst hgf
    simp only [set_fte, if_true, Option.some.injEq] at hg
    subst hg
    simp
  · simp only [set_fte, hgf, if_false] at hg
    have := hI.1.2 g fe1 hg
    constructor
    · intro h1
      exact absurd (this.mp h1) (by simp)
    · intro h1
      simp only [Option.some.injEq] at h1
      exact absurd h1.symm hgf

theorem page_evict_locate_safe (fuel : Nat) (pte : Option Nat) {s : State}
    (hI : assert_inv s) :
    safe_post (page_evict_locate fuel pte s)
      (fun r => ∃ e, r.2.ptes r.1 = some e ∧ assert_inv_holding e.fte r.2) := by
  unfold page_evict_locate
  cases pte with
  | none =>
    simp only
    refine safe_bind (frame_victim_safe hI.1.1) (fun rv hv => ?_)
    obtain ⟨v, sv⟩ := rv
    obtain ⟨_, z, hz⟩ := frame_victim_inv hv
    have hIv : assert_inv sv := assert_inv_holding_accessed z hI hz
    refine safe_bind (deref_pte_safe _ _) (fun ev hev => ?_)
    have hpv := deref_pte_eq_ok.mp hev
    have hsafe : frame_acquire ev.fte sv ≠ Except.error Fault.assertion := by
      apply frame_acquire_safe
      intro f fe _ hfe h1
      exact absurd ((hIv.1.2 f fe hfe).mp h1) (by simp)
    refine safe_bind hsafe (fun sa ha => ?_)
    obtain ⟨f, fe, hf, _⟩ := frame_acquire_inv ha
    have ha' : frame_acquire (some f) sv = Except.ok sa := hf ▸ ha
    obtain ⟨h1, h2⟩ := assert_inv_frame_acquire hIv ha'
    refine ⟨ev, ?_, ?_⟩
    · show sa.ptes v = some ev
      rw [h2]; exact hpv
    · show assert_inv_holding ev.fte sa
      rw [hf]; exact h1
  | some p =>
    simp only
    refine safe_bind (deref_pte_safe _ _) (fun e he => ?_)
    have hp := deref_pte_eq_ok.mp he
    split
    · have hsafe : frame_acquire e.fte s ≠ Except.error Fault.assertion := by
        apply frame_acquire_safe
        intro f fe _ hfe h1
        exact absurd ((hI.1.2 f fe hfe).mp h1) (by simp)
      refine safe_bind hsafe (fun sa ha => ?_)
      obtain ⟨f, fe, hf, _⟩ := frame_acquire_inv ha
      have ha' : frame_acquire (some f) s = Except.ok sa := hf ▸ ha
      obtain ⟨h1, h2⟩ := assert_inv_frame_acquire hI ha'
      refine ⟨e, ?_, ?_⟩
      · show sa.ptes p = some e
        rw [h2]; exact hp
      · show assert_inv_holding e.fte sa
        rw [hf]; exact h1
    · rename_i hne
      have hnone : e.fte = none := by
        cases hh : e.fte with
        | none => rfl
        | some f => exact absurd (by simp [hh]) hne
      refine ⟨e, hp, ?_⟩
      show assert_inv_holding e.fte s
      rw [hnone]; exact hI

/-- `page_evict` fails no assertion and keeps the assertion invariant. -/
theorem page_evict_safe (fuel : Nat) (pte : Option Nat) {s : State} (hI : assert_inv s) :
    safe_post (page_evict fuel pte s) assert_inv := by
  unfold page_evict
  have hloc := page_evict_locate_safe fuel pte hI
  refine safe_bind (safe_post_ne hloc) (fun r hr => ?_)
  obtain ⟨e, hp, hIh⟩ := safe_post_result hloc hr
  exact page_evict_body_safe hp hIh

theorem frame_alloc_page_safe (fuel : Nat) {s : State} (hI : assert_inv s) :
    safe_post (frame_alloc_page fuel s) (fun r => assert_inv r.2) := by
  have hpalloc : ∀ (x x1 : State) (r : Option Nat), palloc_get_page x = (r, x1) →
      assert_inv x → assert_inv x1 := by
    intro x x1 r hx hIx
    unfold palloc_get_page at hx
    split at hx
    · simp only [Prod.mk.injEq] at hx; rw [← hx.2]; exact hIx
    · simp only [Prod.mk.injEq] at hx; rw [← hx.2]
      exact assert_inv_holding_same hIx rfl rfl rfl rfl (fun p e hp hs => ⟨e, hp, hs, rfl⟩)
  unfold frame_alloc_page
  split
  · rename_i k sk heq
    exact hpalloc _ _ _ heq hI
  · rename_i sk heq
    have hIk := hpalloc _ _ _ heq hI
    have hev := page_evict_safe fuel none hIk
    refine safe_bind (safe_post_ne hev) (fun se hse => ?_)
    have hIe := safe_post_result hev hse
    split
    · rename_i k2 sr heq2
      exact hpalloc _ _ _ heq2 hIe
    · simp [safe_post]

theorem frame_alloc_entry_safe {env : Env} {p k : Nat} {s : State} (hI : assert_inv s) :
    safe_post (frame_alloc_entry env p k s)
      (fun r => assert_inv r.2 ∧
        ∀ f, r.1 = some f → ∃ fe, r.2.ftes f = some fe ∧ fe.lock = none ∧ fe.pte = p) := by
  apply safe_post_intro
  · -- no assertion fails
    unfold frame_alloc_entry
    split
    · simp
    · rename_i f s2 heq
      have hs2 : s2.frame_table_lock = s.frame_table_lock ∧ s2.current = s.current := by
        unfold malloc at heq
        split at heq
        · simp only [Prod.mk.injEq] at heq; rw [← heq.2]; exact ⟨rfl, rfl⟩
        · simp only [Prod.mk.injEq] at heq; rw [← heq.2]; exact ⟨rfl, rfl⟩
      apply safe_post_ne (Q := fun _ => True)
      dsimp only
      have hlk : (set_fte s2 f ⟨k, s2.current, p, none⟩).frame_table_lock
          ≠ some (set_fte s2 f ⟨k, s2.current, p, none⟩).current := by
        show s2.frame_table_lock ≠ some s2.current
        rw [hs2.1, hs2.2]; exact hI.1.1
      refine safe_bind (lock_acquire_safe hlk) (fun l hl => ?_)
      obtain ⟨_, hl2⟩ := lock_acquire_eq_ok hl
      subst hl2
      split
      · rename_i old s5 heq5
        have h5 : s5.frame_table_lock = some s5.current := by
          unfold hash_insert_frame at heq5
          split at heq5
          · simp only [Prod.mk.injEq] at heq5; rw [← heq5.2]
          · simp only [Prod.mk.injEq] at heq5; rw [← heq5.2]
        refine safe_bind (deref_pte_safe _ _) (fun e _ => ?_)
        refine safe_bind (lock_release_safe h5) (fun _ _ => ?_)
        exact trivial
      · rename_i s5 heq5
        have h5 : s5.frame_table_lock = some s5.current := by
          unfold hash_insert_frame at heq5
          split at heq5
          · simp only [Prod.mk.injEq] at heq5; rw [← heq5.2]
          · simp only [Prod.mk.injEq] at heq5; rw [← heq5.2]
        refine safe_bind (lock_release_safe h5) (fun _ _ => ?_)
        exact trivial
  · -- what a returning call leaves
    intro r hr
    obtain ⟨r1, s1⟩ := r
    cases r1 with
    | some f =>
      obtain ⟨hfn, _, _, _, hs1⟩ := frame_alloc_entry_inv hr
      subst hs1
      refine ⟨?_, ?_⟩
      · refine assert_inv_holding_congr hI rfl rfl ?_ rfl
          (fun q eq hq hs => Or.inl ⟨eq, hq, hs, rfl⟩)
        intro g fe1 hg
        have hg' : (if g = s.next_ptr then some ⟨k, s.current, p, none⟩ else s.ftes g)
            = some fe1 := hg
        by_cases hgn : g = s.next_ptr
        · rw [if_pos hgn] at hg'
          simp only [Option.some.injEq] at hg'
          subst hg'
          simp
        · rw [if_neg hgn] at hg'
          exact hI.1.2 g fe1 hg'
      · intro f1 hf1
        simp only [Option.some.injEq] at hf1
        subst hf1
        exact ⟨⟨k, s.current, p, none⟩, by simp [hfn], rfl, rfl⟩
    | none =>
      refine ⟨?_, fun f hf => by simp at hf⟩
      rcases frame_alloc_entry_none_inv hr with hs | ⟨_, e, hp, hs⟩
      · rw [hs]; exact hI
      · subst hs
        refine assert_inv_holding_congr hI rfl rfl ?_ rfl ?_
        · intro g fe1 hg
          have hg' : (if g = s.next_ptr then none else s.ftes g) = some fe1 := hg
          by_cases hgn : g = s.next_ptr
          · simp [hgn] at hg'
          · rw [if_neg hgn] at hg'
            exact hI.1.2 g fe1 hg'
        · intro q eq hq hs
          left
          have hq' : (if q = p then some { e with fte := none } else s.ptes q) = some eq := hq
          by_cases hqp : q = p
          · rw [if_pos hqp] at hq'
            simp only [Option.some.injEq] at hq'
            subst hq'
            exact ⟨e, hqp ▸ hp, hs, rfl⟩
          · rw [if_neg hqp] at hq'
            exact ⟨eq, hq', hs, rfl⟩

theorem frame_alloc_safe (fuel : Nat) (env : Env) (p : Nat) {s : State} (hI : assert_inv s) :
    safe_post (frame_alloc fuel env p s)
      (fun r => assert_inv r.2 ∧
        ∀ f, r.1 = some f → ∃ fe, r.2.ftes f = some fe ∧ fe.lock = none ∧ fe.pte = p) := by
  unfold frame_alloc
  have hpage := frame_alloc_page_safe fuel hI
  refine safe_bind (safe_post_ne hpage) (fun r hr => ?_)
  have hIr : assert_inv r.2 := safe_post_result (Q := fun r => assert_inv r.2) hpage hr
  exact frame_alloc_entry_safe hIr

theorem assert_inv_page_alloc {env : Env} {vaddr : Nat} {w : Bool} {s s1 : State}
    {r : Option Nat} (hI : assert_inv s) (ha : page_alloc env vaddr w s = (r, s1)) :
    assert_inv s1 := by
  have hnew : ∀ pt : Nat → List Nat, assert_inv
      (set_pte { s with next_ptr := s.next_ptr + 1, page_table := pt } s.next_ptr
        { page_init s.current with upage := pg_round_down vaddr, writable := w }) := by
    intro pt
    refine assert_inv_holding_congr hI rfl rfl (fun g fe1 hg => hI.1.2 g fe1 hg) rfl ?_
    intro q eq hq hs
    by_cases hqn : q = s.next_ptr
    · subst hqn
      simp only [set_pte, if_true, Option.some.injEq] at hq
      rw [← hq] at hs
      exact Bool.noConfusion hs
    · simp only [set_pte, hqn, if_false] at hq
      exact Or.inl ⟨eq, hq, hs, rfl⟩
  unfold page_alloc malloc at ha
  cases hm : env.malloc_pte_ok with
  | false =>
    simp only [hm, Bool.false_eq_true, if_false, Prod.mk.injEq] at ha
    rw [← ha.2]; exact hI
  | true =>
    simp only [hm, if_true] at ha
    unfold hash_insert_page at ha
    split at ha
    · rename_i old s3 heq
      simp only [Prod.mk.injEq] at ha
      rw [← ha.2]
      split at heq
      · simp only [Prod.mk.injEq] at heq
        rw [← heq.2]
        have h2 := hnew s.page_table
        refine assert_inv_holding_congr h2 rfl rfl (fun g fe1 hg => h2.1.2 g fe1 hg) rfl ?_
        intro q eq hq hs
        left
        by_cases hqn : q = s.next_ptr
        · subst hqn; simp [free_pte] at hq
        · simp only [free_pte, hqn, if_false] at hq
          exact ⟨eq, hq, hs, rfl⟩
      · simp at heq
    · rename_i s3 heq
      simp only [Prod.mk.injEq] at ha
      rw [← ha.2]
      split at heq
      · simp at heq
      · simp only [Prod.mk.injEq, true_and] at heq
        rw [← heq]
        exact hnew _

theorem assert_inv_page_get {env : Env} {vaddr : Nat} {stack : Bool} {s s1 : State}
    {r : Option Nat} (hI : assert_inv s) (hg : page_get env vaddr stack s = (r, s1)) :
    assert_inv s1 := by
  unfold page_get at hg
  split at hg
  · simp only [Prod.mk.injEq] at hg; rw [← hg.2]; exact hI
  · dsimp only at hg
    split at hg
    · simp only [Prod.mk.injEq] at hg; rw [← hg.2]; exact hI
    · split at hg
      · exact assert_inv_page_alloc hI hg
      · simp only [Prod.mk.injEq] at hg; rw [← hg.2]; exact hI

/-- The sector of a swapped descriptor passes the checks of `swap_read`. -/
theorem slot_valid_bounds {held : Option Nat} {s : State} {p : Nat} {e : page_table_entry}
    (hI : assert_inv_holding held s) (hp : s.ptes p = some e) (hs : e.swapped = true) :
    e.sector ≠ -1 ∧ slot_of e < s.swap_map.length := by
  obtain ⟨k, hk1, hk2⟩ := hI.2.2 p e hp hs
  have hb := slot_sector_bound hk1 hI.2.1
  have hlt : k * SECTORS_PER_PAGE < 2 ^ 31 := by
    simp only [SECTORS_PER_PAGE, PGSIZE, BLOCK_SECTOR_SIZE] at *; omega
  refine ⟨by rw [hk2]; omega, ?_⟩
  rw [slot_of_sector hk2 hlt]; exact hk1

theorem page_load_unwind_safe {p f : Nat} {s : State} (hI : assert_inv_holding (some f) s) :
    safe_post (page_load_unwind p f s) (fun r => assert_inv r.2) := by
  apply safe_post_intro
  · unfold page_load_unwind
    apply safe_post_ne (Q := fun _ => True)
    have hsafe : frame_free (some f) s ≠ Except.error Fault.assertion := by
      apply frame_free_safe
      · intro g fe hg hfe
        exact (hI.1.2 g fe hfe).mpr hg
      · exact hI.1.1
    refine safe_bind hsafe (fun s1 _ => ?_)
    refine safe_bind (deref_pte_safe _ _) (fun _ _ => ?_)
    exact trivial
  · intro r hr
    obtain ⟨_, fe, e, hfe, _, _, hp, hs1⟩ := page_load_unwind_inv hr
    rw [hs1]
    refine assert_inv_holding_congr hI rfl rfl ?_ rfl ?_
    · intro g fe1 hg
      have hg' : (if g = f then none else s.ftes g) = some fe1 := hg
      by_cases hgf : g = f
      · simp [hgf] at hg'
      · rw [if_neg hgf] at hg'
        have := hI.1.2 g fe1 hg'
        constructor
        · intro h
          have := this.mp h
          simp only [Option.some.injEq] at this
          exact absurd this.symm hgf
        · intro h
          simp at h
    · intro q eq hq hs
      left
      have hq' : (if q = p then some { e with fte := none } else s.ptes q) = some eq := hq
      by_cases hqp : q = p
      · rw [if_pos hqp] at hq'
        simp only [Option.some.injEq] at hq'
        subst hq'
        exact ⟨e, hqp ▸ hp, hs, rfl⟩
      · rw [if_neg hqp] at hq'
        exact ⟨eq, hq', hs, rfl⟩

theorem page_load_install_safe {env : Env} {p f : Nat} {s : State}
    (hI : assert_inv_holding (some f) s) :
    safe_post (page_load_install env p f s) (fun r => assert_inv r.2) := by
  unfold page_load_install
  refine safe_bind (deref_pte_safe _ _) (fun e he => ?_)
  refine safe_bind (deref_fte_safe _ _) (fun fe hfe => ?_)
  have hi : assert_inv_holding (some f)
      (install_page env.install_ok e.upage fe.kpage e.writable s).2 ∧
      (install_page env.install_ok e.upage fe.kpage e.writable s).2.ptes = s.ptes := by
    unfold install_page
    split
    · exact ⟨hI, rfl⟩
    · split
      · exact ⟨assert_inv_holding_same hI rfl rfl rfl rfl (fun q eq hq hs => ⟨eq, hq, hs, rfl⟩),
          rfl⟩
      · exact ⟨hI, rfl⟩
  dsimp only
  generalize install_page env.install_ok e.upage fe.kpage e.writable s = i at hi
  obtain ⟨hIi, hpi⟩ := hi
  split
  · exact page_load_unwind_safe hIi
  · have hsafe : frame_release (some f) i.2 ≠ Except.error Fault.assertion := by
      apply frame_release_safe
      intro g fg hg hfg
      exact (hIi.1.2 g fg hfg).mpr hg
    refine safe_bind hsafe (fun s1 hs1 => ?_)
    obtain ⟨f1, fe1, hf1, hfe1, _, hs⟩ := frame_release_inv hs1
    simp only [Option.some.injEq] at hf1
    subst hf1
    have hI1 : assert_inv s1 := by
      rw [hs]
      refine assert_inv_holding_congr hIi rfl rfl ?_ rfl
        (fun q eq hq hs => Or.inl ⟨eq, hq, hs, rfl⟩)
      intro g fg hg
      by_cases hgf : g = f
      · subst hgf
        simp only [set_fte, if_true, Option.some.injEq] at hg
        subst hg
        simp
      · simp only [set_fte, hgf, if_false] at hg
        have := hIi.1.2 g fg hg
        constructor
        · intro h
          have := this.mp h
          simp only [Option.some.injEq] at this
          exact absurd this.symm hgf
        · intro h
          simp at h
    refine safe_bind (deref_pte_safe _ _) (fun e1 he1 => ?_)
    exact assert_inv_holding_set_pte hI1 (deref_pte_eq_ok.mp he1) rfl rfl

theorem page_read_holding {held : Option Nat} {s s1 : State} {p : Nat} {b : Bool}
    (hI : assert_inv_holding held s) (h : page_read p s = Except.ok (b, s1)) :
    assert_inv_holding held s1 := by
  obtain ⟨e, f, fe, _, _, _, _, hcase⟩ := page_read_inv h
  rcases hcase with ⟨_, _, hsr⟩ | ⟨_, m, hm⟩
  · obtain ⟨f1, fe1, e1, _, _, _, _, _, _, hs⟩ := swap_read_inv hsr
    rw [swap_read_loop_eq] at hs
    subst hs
    refine assert_inv_holding_congr hI rfl rfl (fun g fg hg => hI.1.2 g fg hg)
      (List.length_set _ _ _) ?_
    intro q eq hq hs
    left
    by_cases hqt : q = fe1.pte
    · subst hqt
      simp only [set_pte, if_true, Option.some.injEq] at hq
      rw [← hq] at hs
      exact Bool.noConfusion hs
    · simp only [set_pte, hqt, if_false] at hq
      exact ⟨eq, hq, hs, rfl⟩
  · subst hm
    exact assert_inv_holding_same hI rfl rfl rfl rfl (fun q eq hq hs => ⟨eq, hq, hs, rfl⟩)

/-- The part of `page_load` after `frame_alloc` fails no assertion and keeps
the assertion invariant, given a fresh entry for the descriptor. -/
theorem page_load_frame_safe {env : Env} {p : Nat} {fte : Option Nat} {s : State}
    (hI : assert_inv s)
    (hback : ∀ f, fte = some f → ∃ fe, s.ftes f = some fe ∧ fe.lock = none ∧ fe.pte = p) :
    safe_post (page_load_frame env p fte s) (fun r => assert_inv r.2) := by
  unfold page_load_frame
  cases fte with
  | none => exact hI
  | some f =>
    obtain ⟨fe, hfe, _, hfp⟩ := hback f rfl
    simp only
    refine safe_bind (deref_pte_safe _ _) (fun e2 he2 => ?_)
    have hp2 := deref_pte_eq_ok.mp he2
    have hI3 : assert_inv (set_pte s p { e2 with fte := some f }) :=
      assert_inv_holding_set_pte hI hp2 rfl rfl
    have hp3 : (set_pte s p { e2 with fte := some f }).ptes p = some { e2 with fte := some f } :=
      if_pos rfl
    have hf3 : (set_pte s p { e2 with fte := some f }).ftes f = some fe := hfe
    generalize set_pte s p { e2 with fte := some f } = s3 at hI3 hp3 hf3
    have hsafe : frame_acquire (some f) s3 ≠ Except.error Fault.assertion := by
      apply frame_acquire_safe
      intro g fg _ hfg h1
      exact absurd ((hI3.1.2 g fg hfg).mp h1) (by simp)
    refine safe_bind hsafe (fun s4 hs4 => ?_)
    obtain ⟨hI4, hpt4⟩ := assert_inv_frame_acquire hI3 hs4
    have hp4 : s4.ptes p = some { e2 with fte := some f } := by rw [hpt4]; exact hp3
    have hf4 : ∀ fg, s4.ftes f = some fg → fg.pte = p := by
      obtain ⟨f1, fe1, hf1, hfe1, _, hs⟩ := frame_acquire_inv hs4
      simp only [Option.some.injEq] at hf1
      subst hf1
      rw [hf3] at hfe1
      simp only [Option.some.injEq] at hfe1
      subst hfe1
      intro fg hfg
      rw [hs] at hfg
      simp only [set_fte, if_true, Option.some.injEq] at hfg
      rw [← hfg]; exact hfp
    have hrsafe : page_read p s4 ≠ Except.error Fault.assertion := by
      apply page_read_safe
      intro e he
      rw [hp4] at he
      simp only [Option.some.injEq] at he
      subst he
      refine ⟨f, rfl, fun fg hfg => ⟨(hI4.1.2 f fg hfg).mpr rfl, ?_⟩⟩
      intro hsw e1 he1
      rw [hf4 fg hfg, hp4] at he1
      simp only [Option.some.injEq] at he1
      subst he1
      exact slot_valid_bounds hI4 hp4 hsw
    refine safe_bind hrsafe (fun rd hrd => ?_)
    obtain ⟨b, s5⟩ := rd
    have hI5 := page_read_holding hI4 hrd
    split
    · exact page_load_unwind_safe hI5
    · exact page_load_install_safe hI5

/-- `page_load` fails no assertion and keeps the assertion invariant. -/
theorem page_load_safe (fuel : Nat) (env : Env) (vaddr : Nat) {s : State} (hI : assert_inv s) :
    safe_post (page_load fuel env vaddr s) (fun r => assert_inv r.2) := by
  unfold page_load
  split
  · exact hI
  · split
    · rename_i sg heq
      exact assert_inv_page_get hI heq
    · rename_i p sg heq
      have hIg := assert_inv_page_get hI heq
      refine safe_bind (deref_pte_safe _ _) (fun e _ => ?_)
      split
      · exact hIg
      · have hfa := frame_alloc_safe fuel env p hIg
        refine safe_bind (safe_post_ne hfa) (fun r hr => ?_)
        obtain ⟨hIr, hback⟩ := safe_post_result
          (Q := fun r => assert_inv r.2 ∧
            ∀ f, r.1 = some f → ∃ fe, r.2.ftes f = some fe ∧ fe.lock = none ∧ fe.pte = p) hfa hr
        exact page_load_frame_safe hIr hback

theorem sample_state_assert_inv : assert_inv sample_state := by
  refine ⟨⟨by decide, ?_⟩, by decide, ?_⟩
  · intro g fe hg
    have h : (if g = 7 then some sample_fte else none) = some fe := hg
    split at h
    · simp only [Option.some.injEq] at h
      rw [← h]
      simp [sample_fte]
    · simp at h
  · intro p e hp hs
    have h : (if p = 3 then some sample_pte else none) = some e := hp
    split at h
    · simp only [Option.some.injEq] at h
      rw [← h] at hs
      exact absurd hs (by decide)
    · simp at h

/-! ## Lemmas: loading an anonymous page -/

/-- C1. Swap round trip: evicting a resident, dirty, not file-mapped page whose
frame holds the bytes `B`, and then faulting on an address of the same page,
gives on every successful `page_load` a frame that holds exactly `B`; and the
load does succeed when the collaborators do. -/
theorem swap_round_trip (fuel : Nat) (s : State) (p f j0 vaddr : Nat)
    (e : page_table_entry) (fe : frame_table_entry) (B : Nat → UInt8)
    (hres : resident s p e f fe) (hl : fe.lock = none) (ht : s.frame_table_lock = none)
    (hok : frame_table_ok s) (hfresh : heap_fresh s)
    (hd : e.dirty = true ∨ pagedir_is_dirty s e.thread e.upage = true)
    (hm : ¬(e.mapped = true ∧ e.file ≠ none))
    (hfit : swap_fits s) (hfree : s.swap_map[j0]? = some false)
    (hB : ∀ i, i < PGSIZE → s.mem (fe.kpage + i) = B i)
    (h0 : vaddr ≠ 0) (hu : vaddr < PHYS_BASE)
    (hfind : hash_find_page s s.current (pg_round_down vaddr) = some p) :
    ∃ s1, page_evict fuel (some p) s = Except.ok s1 ∧
      (∀ env : Env, e.thread = s.current → env.malloc_fte_ok = true → env.install_ok = true →
        ∃ s2, page_load fuel env vaddr s1 = Except.ok (some p, s2)) ∧
      (∀ (env : Env) (q : Nat) (s2 : State),
        page_load fuel env vaddr s1 = Except.ok (some q, s2) →
        q = p ∧ ∃ e2 f2 fe2, resident s2 p e2 f2 fe2 ∧
          ∀ i, i < PGSIZE → s2.mem (fe2.kpage + i) = B i) := by
  obtain ⟨k, hk, _⟩ := bitmap_scan_of_free hfree
  obtain ⟨_, _, hk3⟩ := bitmap_scan_some hk
  have hkeyf : frame_key s f = some fe.kpage := by simp [frame_key, hres.2.2.1]
  have herase := frame_table_erase_key hok fe.kpage
  refine ⟨_, page_evict_to_swap fuel hres hl ht hd hm hk hfit, ?_⟩
  obtain ⟨hp, hfte, hf, hback⟩ := hres
  -- the state after eviction, and what the fault finds in it
  generalize hs1 : ({ s with
        ptes := fun q =>
          if q = p then
            some { e with
                   dirty := true, swapped := true,
                   sector := ((k * SECTORS_PER_PAGE : Nat) : Int), fte := none }
          else s.ptes q
        ftes := fun g => if g = f then none else s.ftes g
        frame_table := s.frame_table.eraseP (fun g => frame_key s g == some fe.kpage)
        free_frames := fe.kpage :: s.free_frames
        pagedir := fun t u => if t = e.thread ∧ u = e.upage then none else s.pagedir t u
        swap_map := s.swap_map.set k true
        swap_block := fun sec off =>
          if k * SECTORS_PER_PAGE ≤ sec ∧ sec < k * SECTORS_PER_PAGE + SECTORS_PER_PAGE
              ∧ off < BLOCK_SECTOR_SIZE
          then s.mem (fe.kpage + (sec - k * SECTORS_PER_PAGE) * BLOCK_SECTOR_SIZE + off)
          else s.swap_block sec off } : State) = s1
  have c1 : s1.current = s.current := by rw [← hs1]
  have p1 : s1.ptes p = some { e with
      dirty := true, swapped := true,
      sector := ((k * SECTORS_PER_PAGE : Nat) : Int), fte := none } := by
    rw [← hs1]; exact if_pos rfl
  have fr1 : s1.free_frames = fe.kpage :: s.free_frames := by rw [← hs1]
  have tl1 : s1.frame_table_lock = none := by rw [← hs1]; exact ht
  have sm1 : s1.swap_map = s.swap_map.set k true := by rw [← hs1]
  have pd1 : ∀ t u, s1.pagedir t u
      = if t = e.thread ∧ u = e.upage then none else s.pagedir t u := by
    intro t u; rw [← hs1]
  have fresh1 : heap_fresh s1 := by
    rw [← hs1]
    intro g hg
    obtain ⟨h1, h2⟩ := hfresh g hg
    refine ⟨?_, fun hin => h2 (List.mem_of_mem_eraseP hin)⟩
    show (if g = f then none else s.ftes g) = none
    split
    · rfl
    · exact h1
  have key1 : ∀ g ∈ s1.frame_table, frame_key s1 g ≠ some fe.kpage := by
    rw [← hs1]
    intro g hg
    have hgf : g ≠ f := fun h => herase f (h ▸ hg) hkeyf
    have h2 := herase g hg
    simp only [frame_key] at h2 ⊢
    simpa [hgf] using h2
  have sb1 : ∀ i, i < PGSIZE →
      s1.swap_block (k * SECTORS_PER_PAGE + i / BLOCK_SECTOR_SIZE) (i % BLOCK_SECTOR_SIZE)
        = B i := by
    intro i hi
    rw [← hs1, ← hB i hi]
    simp only [SECTORS_PER_PAGE, PGSIZE, BLOCK_SECTOR_SIZE] at hi ⊢
    have h1 : k * (4096 / 512) ≤ k * (4096 / 512) + i / 512 ∧
        k * (4096 / 512) + i / 512 < k * (4096 / 512) + 4096 / 512 ∧ i % 512 < 512 := by
      omega
    have h2 : (k * (4096 / 512) + i / 512 - k * (4096 / 512)) * 512 + i % 512 = i := by omega
    simp only [h1, and_self, if_true, Nat.add_assoc, h2]
  have hfind1 : hash_find_page s1 s1.current (pg_round_down vaddr) = some p := by
    rw [← hfind, c1, ← hs1]
    refine hash_find_page_congr _ _ rfl (fun q => ?_)
    by_cases hq : q = p
    · subst hq; simp [hp]
    · simp [hq]
  have hfit1 : swap_fits s1 := by
    unfold swap_fits at hfit ⊢
    rw [sm1, List.length_set]; exact hfit
  have hk1 : k < s1.swap_map.length := by rw [sm1, List.length_set]; exact hk3
  clear hs1 hfind hp hf herase hkeyf hok hfresh hd hm hfit hfree hB hl ht hk hk3
  -- the fault: the frame just released is handed out again
  have hload : ∀ env : Env, page_load fuel env vaddr s1 =
      frame_alloc_entry env p fe.kpage
        (memset { s1 with free_frames := s.free_frames } fe.kpage 0 PGSIZE) >>= fun r =>
        page_load_frame env p r.1 r.2 := by
    intro env
    rw [page_load_found fuel env h0 hu hfind1 p1 rfl, frame_alloc_free_frame fuel env p fr1]
  -- with an entry record, the page comes back from its slot
  have hcore : ∀ env : Env, env.malloc_fte_ok = true →
      ∃ s5 e5 fe5, page_load fuel env vaddr s1 = page_load_install env p s1.next_ptr s5 ∧
        s5.ptes p = some e5 ∧ e5.fte = some s1.next_ptr ∧ e5.upage = e.upage ∧
        s5.ftes s1.next_ptr = some fe5 ∧ fe5.kpage = fe.kpage ∧ fe5.pte = p ∧
        fe5.lock = some s5.current ∧ s5.current = s1.current ∧ s5.pagedir = s1.pagedir ∧
        ∀ i, i < PGSIZE → s5.mem (fe.kpage + i) = B i := by
    intro env hmal
    obtain ⟨sB, hE, hsB⟩ := exists_state_eq (frame_alloc_entry_ok
      (s := memset { s1 with free_frames := s.free_frames } fe.kpage 0 PGSIZE)
      p fe.kpage hmal tl1 fresh1 key1)
    have pB : sB.ptes p = some { e with
        dirty := true, swapped := true,
        sector := ((k * SECTORS_PER_PAGE : Nat) : Int), fte := none } := by
      rw [hsB]; exact p1
    have fB : sB.ftes s1.next_ptr = some ⟨fe.kpage, s1.current, p, none⟩ := by
      rw [hsB]; exact if_pos rfl
    have cB : sB.current = s1.current := by rw [hsB]; rfl
    have smB : sB.swap_map = s1.swap_map := by rw [hsB]; rfl
    have sbB : sB.swap_block = s1.swap_block := by rw [hsB]; rfl
    have pdB : sB.pagedir = s1.pagedir := by rw [hsB]; rfl
    clear hsB
    have hres4 : resident
        (set_fte (set_pte sB p { e with
            dirty := true, swapped := true,
            sector := ((k * SECTORS_PER_PAGE : Nat) : Int), fte := some s1.next_ptr })
          s1.next_ptr ⟨fe.kpage, s1.current, p, some sB.current⟩)
        p { e with
            dirty := true, swapped := true,
            sector := ((k * SECTORS_PER_PAGE : Nat) : Int), fte := some s1.next_ptr }
        s1.next_ptr ⟨fe.kpage, s1.current, p, some sB.current⟩ :=
      ⟨if_pos rfl, rfl, if_pos rfl, rfl⟩
    obtain ⟨s5, h5, hs5⟩ := exists_state_eq (page_read_swapped (k := k) hres4 rfl rfl rfl
      (by show k < sB.swap_map.length; rw [smB]; exact hk1)
      (by unfold swap_fits at hfit1 ⊢; show sB.swap_map.length * _ ≤ _; rw [smB]; exact hfit1))
    rw [hload env, hE, bind_ok]
    show ∃ s5 e5 fe5, page_load_frame env p (some s1.next_ptr) sB = _ ∧ _
    rw [page_load_frame_eq env pB fB rfl, h5, bind_ok]
    simp only [Bool.not_true, Bool.false_eq_true, if_false]
    have p5 : s5.ptes p = some { e with
        dirty := true, swapped := false, sector := -1, fte := some s1.next_ptr } := by
      rw [hs5]; exact if_pos rfl
    have f5 : s5.ftes s1.next_ptr = some ⟨fe.kpage, s1.current, p, some sB.current⟩ := by
      rw [hs5]; exact if_pos rfl
    have c5 : s5.current = sB.current := by rw [hs5]; rfl
    have pd5 : s5.pagedir = sB.pagedir := by rw [hs5]; rfl
    refine ⟨s5, _, _, rfl, p5, rfl, rfl, f5, rfl, rfl, ?_, c5.trans cB, pd5.trans pdB, ?_⟩
    · show some sB.current = some s5.current
      rw [c5]
    intro i hi
    have hr : fe.kpage ≤ fe.kpage + i ∧ fe.kpage + i < fe.kpage + PGSIZE := by omega
    rw [hs5]
    show (if fe.kpage ≤ fe.kpage + i ∧ fe.kpage + i < fe.kpage + PGSIZE
        then sB.swap_block (k * SECTORS_PER_PAGE + (fe.kpage + i - fe.kpage) / BLOCK_SECTOR_SIZE)
              ((fe.kpage + i - fe.kpage) % BLOCK_SECTOR_SIZE)
        else _) = B i
    rw [if_pos hr, Nat.add_sub_cancel_left, sbB]
    exact sb1 i hi
  refine ⟨?_, ?_⟩
  · intro env hown hmal hinst
    obtain ⟨s5, e5, fe5, hpl, hp5, _, hup5, hf5, _, _, hl5, hc5, hpd5, _⟩ := hcore env hmal
    have hpd : s5.pagedir s5.current e5.upage = none := by
      rw [hpd5, hc5, hup5, pd1, c1, hown]; simp
    rw [hpl, page_load_install_ok hp5 hf5 hl5 hpd hinst]
    exact ⟨_, rfl⟩
  · intro env q s2 hq
    cases hmal : env.malloc_fte_ok with
    | false =>
      rw [hload env, frame_alloc_entry_no_memory p fe.kpage hmal] at hq
      simp [page_load_frame] at hq
    | true =>
      obtain ⟨s5, e5, fe5, hpl, hp5, hfte5, _, hf5, hk5, hb5, hl5, _, _, hmem5⟩ := hcore env hmal
      rw [hpl] at hq
      by_cases hinst : env.install_ok = true ∧ s5.pagedir s5.current e5.upage = none
      · rw [page_load_install_ok hp5 hf5 hl5 hinst.2 hinst.1] at hq
        simp only [Except.ok.injEq, Prod.mk.injEq, Option.some.injEq] at hq
        obtain ⟨hqp, hs2⟩ := hq
        refine ⟨hqp.symm, { e5 with accessed := true }, s1.next_ptr, { fe5 with lock := none },
          ?_, ?_⟩
        · rw [← hs2]
          exact ⟨if_pos rfl, hfte5, if_pos rfl, hb5⟩
        · intro i hi
          rw [← hs2]
          show s5.mem (fe5.kpage + i) = B i
          rw [hk5]
          exact hmem5 i hi
      · have hfail : env.install_ok = false ∨ s5.pagedir s5.current e5.upage ≠ none := by
          by_cases h1 : env.install_ok = true
          · exact Or.inr (fun h2 => hinst ⟨h1, h2⟩)
          · exact Or.inl (by simpa using h1)
        rw [page_load_install_fail hp5 hf5 hfail] at hq
        exact (page_load_unwind_none hq).elim

theorem swap_round_trip_witness :
    ∃ s1, page_evict 2 (some 3) sample_state = Except.ok s1 ∧
      (∀ env : Env, sample_pte.thread = sample_state.current → env.malloc_fte_ok = true →
        env.install_ok = true →
        ∃ s2, page_load 2 env 0xbffff123 s1 = Except.ok (some 3, s2)) ∧
      (∀ (env : Env) (q : Nat) (s2 : State),
        page_load 2 env 0xbffff123 s1 = Except.ok (some q, s2) →
        q = 3 ∧ ∃ e2 f2 fe2, resident s2 3 e2 f2 fe2 ∧
          ∀ i, i < PGSIZE → s2.mem (fe2.kpage + i) = sample_state.mem (sample_fte.kpage + i)) :=
  swap_round_trip 2 sample_state 3 7 1 0xbffff123 sample_pte sample_fte
    (fun i => sample_state.mem (sample_fte.kpage + i))
    ⟨rfl, rfl, rfl, rfl⟩ rfl rfl sample_state_table_ok sample_state_fresh
    (Or.inl rfl) (by decide) (by decide) (by decide) (fun _ _ => rfl) (by decide) (by decide)
    (by decide)

/-- C2. Single residency invariant: in every state reachable from freshly
created descriptors by calls of `page_alloc`, `page_load` (successful or
failed) and `page_evict`, with the rest of the system running in between, no
descriptor has `swapped` set and a frame reference at the same time. -/
theorem single_residency (s : State) (h : reachable s) (p : Nat) (e : page_table_entry)
    (hp : s.ptes p = some e) : ¬(e.swapped = true ∧ e.fte ≠ none) := by
  intro hc
  exact hc.2 ((reachable_vm_inv h).1 p e hp hc.1)

theorem single_residency_witness :
    ¬(({ sample_loaded_pte with
          dirty := true, swapped := true, sector := 8, fte := none } : page_table_entry).swapped
        = true ∧
      ({ sample_loaded_pte with
          dirty := true, swapped := true, sector := 8, fte := none } : page_table_entry).fte
        ≠ none) :=
  single_residency sample_evicted sample_evicted_reachable 10
    { sample_loaded_pte with dirty := true, swapped := true, sector := 8, fte := none } rfl

/-- C5, the defect. When `malloc` fails, `frame_alloc` returns `NULL` with the
frame it took from the allocator neither back in the pool nor filed in the
frame table: the frame is lost. -/
theorem frame_alloc_leaks_frame (fuel : Nat) (env : Env) (s : State) (p k : Nat)
    (rest : List Nat) (hfree : s.free_frames = k :: rest) (hk : k ∉ rest)
    (hm : env.malloc_fte_ok = false) :
    ∃ s1, frame_alloc fuel env p s = Except.ok (none, s1) ∧
      k ∉ s1.free_frames ∧ s1.frame_table = s.frame_table ∧ s1.ftes = s.ftes := by
  rw [frame_alloc_free_frame fuel env p hfree, frame_alloc_entry_no_memory p k hm]
  exact ⟨_, rfl, hk, rfl, rfl⟩

theorem frame_alloc_leaks_frame_witness :
    ∃ s1, frame_alloc 2 sample_env_no_fte 3 sample_fresh = Except.ok (none, s1) ∧
      0xc0100000 ∉ s1.free_frames ∧ s1.frame_table = sample_fresh.frame_table ∧
      s1.ftes = sample_fresh.ftes :=
  frame_alloc_leaks_frame 2 sample_env_no_fte sample_fresh 3 0xc0100000 [0xc0101000] rfl
    (by decide) rfl

/-- C6. `page_load` failure unwinding: when `page_load` has a descriptor
without frame, obtains a frame `k` and an entry `f` for it from `frame_alloc`,
and then `page_read` reports a short file read or `install_page` returns
false, it returns `NULL`; afterwards the descriptor has no frame reference, the
entry has left the frame table and the heap, no filed entry has the key `k`,
and frame `k` is back in the allocator's pool. -/
theorem page_load_failure_unwinding (fuel : Nat) (env : Env) (vaddr : Nat)
    (s s1 sa s2 s5 : State) (p k f : Nat) (e e2 : page_table_entry) (b : Bool)
    (h0 : vaddr ≠ 0)
    (hget : page_get env vaddr true s = (some p, s1))
    (hp : s1.ptes p = some e) (hfte : e.fte = none)
    (hpage : frame_alloc_page fuel s1 = Except.ok (k, sa))
    (hentry : frame_alloc_entry env p k sa = Except.ok (some f, s2))
    (he2 : s2.ptes p = some e2)
    (hread : page_read p (set_fte (set_pte s2 p { e2 with fte := some f }) f
        ⟨k, s2.current, p, some s2.current⟩) = Except.ok (b, s5))
    (hfail : b = false ∨ ∀ e5, s5.ptes p = some e5 →
        (install_page env.install_ok e5.upage k e5.writable s5).1 = false) :
    ∃ s3, page_load fuel env vaddr s = Except.ok (none, s3) ∧
      (∃ e3, s3.ptes p = some e3 ∧ e3.fte = none) ∧
      f ∉ s3.frame_table ∧ s3.ftes f = none ∧
      (∀ g ∈ s3.frame_table, frame_key s3 g ≠ some k) ∧
      k ∈ s3.free_frames := by
  obtain ⟨hfn, htl, hnotin, hkeys, hs2⟩ := frame_alloc_entry_inv hentry
  have hf2 : s2.ftes f = some ⟨k, sa.current, p, none⟩ := by
    rw [hs2, hfn]; exact if_pos rfl
  have hc2 : s2.current = sa.current := by rw [hs2]
  have hft2 : s2.frame_table = sa.frame_table.take env.bucket_pos ++
      f :: sa.frame_table.drop env.bucket_pos := by rw [hs2, hfn]
  have htl2 : s2.frame_table_lock = none := by rw [hs2]; exact htl
  have hftes2 : ∀ g, g ≠ f → s2.ftes g = sa.ftes g := by
    intro g hg; rw [hs2]; rw [hfn] at hg; exact if_neg hg
  have hfree2 : s2.free_frames = sa.free_frames := by rw [hs2]
  clear hs2
  -- the part of `page_load` up to `page_read`
  have hload : page_load fuel env vaddr s =
      (if (!b) = true then page_load_unwind p f s5 else page_load_install env p f s5) := by
    simp only [page_load, h0, if_false, hget, deref_pte_eq_ok.mpr hp, bind_ok, hfte, ne_eq,
      not_true_eq_false, frame_alloc, hpage, hentry]
    rw [page_load_frame_eq env he2 hf2 rfl, ← hc2, hread, bind_ok]
  -- the state `page_read` leaves
  obtain ⟨r1, r2, r3, r4, r5, r6, _, r8⟩ := page_read_frame hread
  obtain ⟨e5, hp5, hfte5, _, _, _⟩ := r8 p { e2 with fte := some f } (if_pos rfl)
  have hf5 : s5.ftes f = some ⟨k, s2.current, p, some s2.current⟩ := by
    rw [r1]; exact if_pos rfl
  have hl5 : (⟨k, s2.current, p, some s2.current⟩ : frame_table_entry).lock
      = some s5.current := by rw [r5]; rfl
  have htl5 : s5.frame_table_lock = none := by rw [r3]; exact htl2
  have hunwind := page_load_unwind_ok hp5 hf5 hl5 htl5
  have hres : page_load fuel env vaddr s = page_load_unwind p f s5 := by
    rw [hload]
    rcases hfail with hb | hi
    · rw [hb]; rfl
    · cases b with
      | false => rfl
      | true =>
        have hi5 := install_page_fail (hi e5 hp5)
        simp only [Bool.not_true, Bool.false_eq_true, if_false, page_load_install,
          deref_pte_eq_ok.mpr hp5, bind_ok, deref_fte_eq_ok.mpr hf5, hi5, Bool.not_false, if_true]
  rw [hres, hunwind]
  have hkey5 : ∀ g, frame_key s5 g = if g = f then some k else frame_key sa g := by
    intro g
    simp only [frame_key, r1, set_fte, set_pte]
    by_cases hg : g = f
    · simp [hg]
    · simp only [hg, if_false]; rw [hftes2 g hg]
  have herase : s5.frame_table.eraseP (fun g => frame_key s5 g == some k) = sa.frame_table := by
    rw [r2]
    show s2.frame_table.eraseP _ = _
    rw [hft2]
    apply eraseP_inserted
    · simp [hkey5]
    · intro x hx
      have hxf : x ≠ f := fun hh => hnotin (hh ▸ hx)
      simpa [hkey5, hxf] using hkeys x hx
  refine ⟨_, rfl, ⟨_, if_pos rfl, rfl⟩, ?_, if_pos rfl, ?_, List.mem_cons_self _ _⟩
  · show f ∉ s5.frame_table.eraseP _
    rw [herase]; exact hnotin
  · intro g hg
    have hg' : g ∈ sa.frame_table := by rw [← herase]; exact hg
    have hgf : g ≠ f := fun hh => hnotin (hh ▸ hg')
    have := hkeys g hg'
    simp only [frame_key] at this ⊢
    show Option.map _ (if g = f then none else s5.ftes g) ≠ some k
    rw [if_neg hgf, r1]
    show Option.map _ (if g = f then _ else s2.ftes g) ≠ some k
    rw [if_neg hgf, hftes2 g hgf]
    exact this

theorem page_load_failure_unwinding_witness :
    ∃ s3, page_load 2 sample_env 0x08048010 sample_short_file = Except.ok (none, s3) ∧
      (∃ e3, s3.ptes 3 = some e3 ∧ e3.fte = none) ∧
      10 ∉ s3.frame_table ∧ s3.ftes 10 = none ∧
      (∀ g ∈ s3.frame_table, frame_key s3 g ≠ some 0xc0100000) ∧
      0xc0100000 ∈ s3.free_frames :=
  page_load_failure_unwinding 2 sample_env 0x08048010 sample_short_file sample_short_file
    sample_short_file_page sample_short_file_entry sample_short_file_read 3 0xc0100000 10
    sample_file_pte sample_file_pte false (by decide) rfl rfl rfl rfl rfl rfl rfl (Or.inl rfl)

/-- C7. File-backed load truncation: for a non-swapped file-backed descriptor
with declared byte count `n ≤ PGSIZE`, `page_read` succeeds exactly when the
file holds `n` bytes at `file_ofs`, and then bytes `[0, n)` of the frame are the
file's bytes at `[file_ofs, file_ofs + n)` and bytes `[n, PGSIZE)` are zero. -/
theorem page_read_file_truncation (s : State) (p f file : Nat) (e : page_table_entry)
    (fe : frame_table_entry) (hres : resident s p e f fe) (hl : fe.lock = some s.current)
    (hsw : e.swapped = false) (hfile : e.file = some file) (hn : e.file_bytes ≤ PGSIZE) :
    ∃ ok s1, page_read p s = Except.ok (ok, s1) ∧
      (ok = true ↔ e.file_bytes ≤ s.file_len file - e.file_ofs) ∧
      (ok = true →
        (∀ i, i < e.file_bytes → s1.mem (fe.kpage + i) = s.file_data file (e.file_ofs + i)) ∧
        (∀ i, e.file_bytes ≤ i → i < PGSIZE → s1.mem (fe.kpage + i) = 0)) := by
  have h := page_read_file hres hl hsw hfile hn
  by_cases hle : e.file_bytes ≤ s.file_len file - e.file_ofs
  · rw [if_pos hle] at h
    refine ⟨true, _, h, by simp [hle], fun _ => ⟨?_, ?_⟩⟩
    · intro i hi
      have h1 : ¬(fe.kpage + e.file_bytes ≤ fe.kpage + i ∧ fe.kpage + i < fe.kpage + PGSIZE) := by
        omega
      have h2 : fe.kpage ≤ fe.kpage + i ∧ fe.kpage + i < fe.kpage + e.file_bytes := by omega
      simp only [h1, h2, if_false, and_self, if_true, Nat.add_sub_cancel_left]
    · intro i hi1 hi2
      have h1 : fe.kpage + e.file_bytes ≤ fe.kpage + i ∧ fe.kpage + i < fe.kpage + PGSIZE := by
        omega
      simp only [h1, and_self, if_true]
  · rw [if_neg hle] at h
    exact ⟨false, _, h, by simp [hle], fun h => by simp at h⟩

theorem page_read_file_truncation_witness :
    ∃ ok s1, page_read 3 sample_file_locked = Except.ok (ok, s1) ∧
      (ok = true ↔ 20 ≤ sample_file_locked.file_len 5 - 10) ∧
      (ok = true →
        (∀ i, i < 20 → s1.mem (0xc0100000 + i) = sample_file_locked.file_data 5 (10 + i)) ∧
        (∀ i, 20 ≤ i → i < PGSIZE → s1.mem (0xc0100000 + i) = 0)) :=
  page_read_file_truncation sample_file_locked 3 7 5
    { sample_pte with file := some 5, file_ofs := 10, file_bytes := 20 }
    { sample_fte with lock := some 1 } ⟨rfl, rfl, rfl, rfl⟩ rfl rfl rfl (by decide)

/-- C8. Slot reuse: `swap_write` claims the lowest-indexed free slot `j` of the
occupancy table and stores the page there; and when the table it works on is
the one a `swap_read` just left, having freed slot `k`, then `j ≤ k`, and `j = k`
unless a lower-indexed slot was free already. -/
theorem swap_write_claims_lowest_free_slot (s : State) (g : Nat) (ge : frame_table_entry)
    (eg : page_table_entry) (j0 : Nat)
    (hg : s.ftes g = some ge) (hl : ge.lock = some s.current) (hp : s.ptes ge.pte = some eg)
    (hfit : swap_fits s) (hfree : s.swap_map[j0]? = some false) :
    ∃ s1 j, swap_write (some g) s = Except.ok s1 ∧
      s.swap_map[j]? = some false ∧ (∀ i, i < j → s.swap_map[i]? = some true) ∧
      s1.swap_map = s.swap_map.set j true ∧
      (∃ e1, s1.ptes ge.pte = some e1 ∧ e1.swapped = true ∧
        e1.sector = ((j * SECTORS_PER_PAGE : Nat) : Int) ∧ slot_of e1 = j) ∧
      (∀ i, i < PGSIZE →
        s1.swap_block (j * SECTORS_PER_PAGE + i / BLOCK_SECTOR_SIZE) (i % BLOCK_SECTOR_SIZE)
          = s.mem (ge.kpage + i)) ∧
      (∀ s0 f fe e, s0.ftes f = some fe → s0.ptes fe.pte = some e →
        swap_read (some f) s0 = Except.ok s →
        s.swap_map[slot_of e]? = some false ∧ j ≤ slot_of e ∧
        (j = slot_of e ∨ (j < slot_of e ∧ s0.swap_map[j]? = some false))) := by
  obtain ⟨j, hj, _⟩ := bitmap_scan_of_free hfree
  obtain ⟨hj1, hj2, hj3⟩ := bitmap_scan_some hj
  have hb := slot_sector_bound hj3 hfit
  have hlt : j * SECTORS_PER_PAGE < 2 ^ 31 := by
    simp only [SECTORS_PER_PAGE, PGSIZE, BLOCK_SECTOR_SIZE] at *; omega
  refine ⟨_, j, swap_write_ok hg hl hp hj hfit, hj1, hj2, rfl, ?_, ?_, ?_⟩
  · refine ⟨{ eg with swapped := true, sector := ((j * SECTORS_PER_PAGE : Nat) : Int) },
      ?_, rfl, rfl, slot_of_sector rfl hlt⟩
    simp only [set_pte, if_true]
  · intro i hi
    simp only [set_pte, SECTORS_PER_PAGE, PGSIZE, BLOCK_SECTOR_SIZE] at *
    have h1 : j * (4096 / 512) ≤ j * (4096 / 512) + i / 512 ∧
        j * (4096 / 512) + i / 512 < j * (4096 / 512) + 4096 / 512 ∧ i % 512 < 512 := by
      omega
    have h2 : (j * (4096 / 512) + i / 512 - j * (4096 / 512)) * 512 + i % 512 = i := by omega
    simp only [h1, and_self, if_true, Nat.add_assoc, h2]
  · intro s0 f fe e hf he hr
    obtain ⟨f1, fe1, e1, hf1, hfe1, he1, _, _, hk, hs⟩ := swap_read_inv hr
    simp only [Option.some.injEq] at hf1
    subst hf1
    rw [hf] at hfe1
    simp only [Option.some.injEq] at hfe1
    subst hfe1
    rw [he] at he1
    simp only [Option.some.injEq] at he1
    subst he1
    have hmap : s.swap_map = s0.swap_map.set (slot_of e) false := by rw [hs]; rfl
    have hkf : s.swap_map[slot_of e]? = some false := by
      rw [hmap]; simp [List.getElem?_set, hk]
    obtain ⟨j1, hj1a, hle⟩ := bitmap_scan_of_free hkf
    rw [hj] at hj1a
    simp only [Option.some.injEq] at hj1a
    subst hj1a
    refine ⟨hkf, hle, ?_⟩
    by_cases heq : j = slot_of e
    · exact Or.inl heq
    · refine Or.inr ⟨by omega, ?_⟩
      rw [hmap, List.getElem?_set_ne (Ne.symm heq)] at hj1
      exact hj1

theorem swap_write_claims_lowest_free_slot_witness :
    ∃ s1 j, swap_write (some 7) sample_locked = Except.ok s1 ∧
      sample_locked.swap_map[j]? = some false ∧
      (∀ i, i < j → sample_locked.swap_map[i]? = some true) ∧
      s1.swap_map = sample_locked.swap_map.set j true ∧
      (∃ e1, s1.ptes 3 = some e1 ∧ e1.swapped = true ∧
        e1.sector = ((j * SECTORS_PER_PAGE : Nat) : Int) ∧ slot_of e1 = j) ∧
      (∀ i, i < PGSIZE →
        s1.swap_block (j * SECTORS_PER_PAGE + i / BLOCK_SECTOR_SIZE) (i % BLOCK_SECTOR_SIZE)
          = sample_locked.mem (0xc0100000 + i)) ∧
      (∀ s0 f fe e, s0.ftes f = some fe → s0.ptes fe.pte = some e →
        swap_read (some f) s0 = Except.ok sample_locked →
        sample_locked.swap_map[slot_of e]? = some false ∧ j ≤ slot_of e ∧
        (j = slot_of e ∨ (j < slot_of e ∧ s0.swap_map[j]? = some false))) :=
  swap_write_claims_lowest_free_slot sample_locked 7 { sample_fte with lock := some 1 }
    sample_pte 2 rfl rfl rfl (by decide) (by decide)

/-- C9. Eviction of a dirty anonymous page: a resident descriptor that is dirty
(by its own flag or by the page directory) and is not a file-mapped page is
written to a swap slot that was free and is occupied afterwards; the descriptor
survives in its page table, swapped, without frame reference; its frame entry
has left the frame table and its mapping is invalidated. -/
theorem page_evict_dirty_anonymous (fuel : Nat) (s : State) (p f j0 : Nat)
    (e : page_table_entry) (fe : frame_table_entry)
    (hres : resident s p e f fe) (hl : fe.lock = none) (ht : s.frame_table_lock = none)
    (hok : frame_table_ok s)
    (hd : e.dirty = true ∨ pagedir_is_dirty s e.thread e.upage = true)
    (hm : ¬(e.mapped = true ∧ e.file ≠ none))
    (hfit : swap_fits s) (hfree : s.swap_map[j0]? = some false) :
    ∃ s1 e1 slot, page_evict fuel (some p) s = Except.ok s1 ∧
      s1.page_table = s.page_table ∧ s1.ptes p = some e1 ∧
      e1.upage = e.upage ∧ e1.thread = e.thread ∧
      e1.swapped = true ∧ e1.sector = ((SECTORS_PER_PAGE * slot : Nat) : Int) ∧
      s.swap_map[slot]? = some false ∧ s1.swap_map[slot]? = some true ∧
      e1.fte = none ∧ f ∉ s1.frame_table ∧ s1.ftes f = none ∧
      (∀ g ∈ s1.frame_table, frame_key s1 g ≠ some fe.kpage) ∧
      s1.pagedir e.thread e.upage = none := by
  obtain ⟨k, hk, _⟩ := bitmap_scan_of_free hfree
  obtain ⟨hk1, _, hk3⟩ := bitmap_scan_some hk
  have hkey : frame_key s f = some fe.kpage := by simp [frame_key, hres.2.2.1]
  have herase := frame_table_erase_key hok fe.kpage
  have hnotin : f ∉ s.frame_table.eraseP (fun g => frame_key s g == some fe.kpage) :=
    fun hin => herase f hin hkey
  refine ⟨_, _, k,
    page_evict_to_swap fuel hres hl ht hd hm hk hfit, rfl, if_pos rfl, rfl, rfl, rfl,
    by simp [Nat.mul_comm], hk1, by simp [List.getElem?_set, hk3], rfl, hnotin, by simp, ?_,
    by simp⟩
  intro g hg
  have hgf : g ≠ f := fun h => hnotin (h ▸ hg)
  have : frame_key { s with ftes := fun g => if g = f then none else s.ftes g } g
      = frame_key s g := by simp [frame_key, hgf]
  simp only [frame_key] at this ⊢
  rw [this]
  exact herase g hg

theorem page_evict_dirty_anonymous_witness :
    ∃ s1 e1 slot, page_evict 2 (some 3) sample_state = Except.ok s1 ∧
      s1.page_table = sample_state.page_table ∧ s1.ptes 3 = some e1 ∧
      e1.upage = sample_pte.upage ∧ e1.thread = sample_pte.thread ∧
      e1.swapped = true ∧ e1.sector = ((SECTORS_PER_PAGE * slot : Nat) : Int) ∧
      sample_state.swap_map[slot]? = some false ∧ s1.swap_map[slot]? = some true ∧
      e1.fte = none ∧ 7 ∉ s1.frame_table ∧ s1.ftes 7 = none ∧
      (∀ g ∈ s1.frame_table, frame_key s1 g ≠ some sample_fte.kpage) ∧
      s1.pagedir sample_pte.thread sample_pte.upage = none :=
  page_evict_dirty_anonymous 2 sample_state 3 7 1 sample_pte sample_fte
    ⟨rfl, rfl, rfl, rfl⟩ rfl rfl sample_state_table_ok (Or.inl rfl) (by decide) (by decide)
    (by decide)

/-- C10, as amended. A dirty resident memory-mapped file page (`mapped` set,
with a backing file) is written back to its file at `file_ofs` by `page_evict`,
which leaves the swap occupancy table, the swap sectors and the descriptor's
`swapped` and `sector` fields unchanged, and clears the `mapped` flag. -/
theorem page_evict_mapped_file (fuel : Nat) (s : State) (p f file : Nat)
    (e : page_table_entry) (fe : frame_table_entry)
    (hres : resident s p e f fe) (hl : fe.lock = none) (ht : s.frame_table_lock = none)
    (hd : e.dirty = true ∨ pagedir_is_dirty s e.thread e.upage = true)
    (hm : e.mapped = true) (hfile : e.file = some file) (hn : e.file_bytes ≤ PGSIZE) :
    ∃ s1 e1, page_evict fuel (some p) s = Except.ok s1 ∧
      s1.swap_map = s.swap_map ∧ s1.swap_block = s.swap_block ∧
      s1.ptes p = some e1 ∧ e1.swapped = e.swapped ∧ e1.sector = e.sector ∧
      e1.mapped = false ∧ e1.fte = none ∧
      (∀ i, i < e.file_bytes → e.file_ofs + i < s.file_len file →
        s1.file_data file (e.file_ofs + i) = s.mem (fe.kpage + i)) := by
  refine ⟨_, _, page_evict_to_file fuel hres hl ht hd hm hfile, rfl, rfl, if_pos rfl,
    rfl, rfl, rfl, rfl, ?_⟩
  intro i hi hlen
  rw [to_int_file_bytes hn, Int.toNat_ofNat]
  have h1 : file = file ∧ e.file_ofs ≤ e.file_ofs + i ∧
      e.file_ofs + i < e.file_ofs + min e.file_bytes (s.file_len file - e.file_ofs) := by
    refine ⟨rfl, by omega, ?_⟩
    have : i < min e.file_bytes (s.file_len file - e.file_ofs) := by
      rw [Nat.lt_min]; omega
    omega
  simp only [h1, and_self, if_true, Nat.add_sub_cancel_left]

theorem page_evict_mapped_file_witness :
    ∃ s1 e1, page_evict 2 (some 3) sample_mmap = Except.ok s1 ∧
      s1.swap_map = sample_mmap.swap_map ∧ s1.swap_block = sample_mmap.swap_block ∧
      s1.ptes 3 = some e1 ∧ e1.swapped = sample_mmap_pte.swapped ∧
      e1.sector = sample_mmap_pte.sector ∧
      e1.mapped = false ∧ e1.fte = none ∧
      (∀ i, i < sample_mmap_pte.file_bytes →
        sample_mmap_pte.file_ofs + i < sample_mmap.file_len 5 →
        s1.file_data 5 (sample_mmap_pte.file_ofs + i) = sample_mmap.mem (sample_fte.kpage + i)) :=
  page_evict_mapped_file 2 sample_mmap 3 7 5 sample_mmap_pte sample_fte
    ⟨rfl, rfl, rfl, rfl⟩ rfl rfl (Or.inl rfl) rfl rfl (by decide)

/-- C10, counterexample. A memory-mapped page that is evicted while dirty,
faulted back in and evicted again is written to swap by the second eviction:
the descriptor ends up swapped and the occupancy table has changed. -/
theorem mapped_page_reaches_swap :
    ∃ s1 s2 s3 e3, sample_mmap_pte.mapped = true ∧ sample_mmap_pte.file = some 5 ∧
      page_evict 2 (some 3) sample_mmap = Except.ok s1 ∧
      page_load 2 sample_env 0xbffff123 s1 = Except.ok (some 3, s2) ∧
      page_evict 2 (some 3) s2 = Except.ok s3 ∧
      s3.ptes 3 = some e3 ∧ e3.dirty = true ∧ e3.swapped = true ∧
      s2.swap_map = [true, false, false] ∧ s3.swap_map = [true, true, false] :=
  ⟨_, _, _, _, rfl, rfl, rfl, rfl, rfl, rfl, rfl, rfl, rfl, rfl⟩

/-- C11, as amended. `page_alloc` on an occupied address: when the page of the
address already has a descriptor in the running context's page table,
`page_alloc` returns `NULL` and leaves the page tables and every descriptor
unchanged; when the page has no descriptor and `malloc` returns a record, it
returns a new descriptor for `pg_round_down (vaddr)` in the Unloaded state (no
frame, not swapped, no file, accessed and dirty unset) with the given writable
flag, and the page table gains exactly that descriptor; when `malloc` returns
`NULL` instead, it returns `NULL` and changes nothing. -/
theorem page_alloc_outcomes (env : Env) (s : State) (vaddr : Nat) (w : Bool)
    (hunused : s.ptes s.next_ptr = none) (hfresh : s.next_ptr ∉ s.page_table s.current) :
    (∀ old, hash_find_page s s.current (pg_round_down vaddr) = some old →
      ∃ s1, page_alloc env vaddr w s = (none, s1) ∧ s1.page_table = s.page_table ∧
        s1.ptes = s.ptes) ∧
    (hash_find_page s s.current (pg_round_down vaddr) = none → env.malloc_pte_ok = true →
      ∃ p s1 e1, page_alloc env vaddr w s = (some p, s1) ∧
        s.ptes p = none ∧ s1.ptes p = some e1 ∧
        e1.upage = pg_round_down vaddr ∧ e1.writable = w ∧ e1.thread = s.current ∧
        e1.fte = none ∧ e1.swapped = false ∧ e1.file = none ∧
        e1.accessed = false ∧ e1.dirty = false ∧
        s1.page_table s.current = p :: s.page_table s.current ∧
        (∀ t, t ≠ s.current → s1.page_table t = s.page_table t) ∧
        (∀ q, q ≠ p → s1.ptes q = s.ptes q) ∧
        hash_find_page s1 s1.current (pg_round_down vaddr) = some p) ∧
    (hash_find_page s s.current (pg_round_down vaddr) = none → env.malloc_pte_ok = false →
      page_alloc env vaddr w s = (none, s)) := by
  refine ⟨fun old hfind => page_alloc_duplicate w hfind hunused hfresh, ?_,
    fun _ hm => page_alloc_no_memory vaddr w hm⟩
  intro hnone hm
  refine ⟨s.next_ptr, _, _, page_alloc_fresh w hm hnone hfresh, hunused, if_pos rfl, rfl, rfl, rfl,
    rfl, rfl, rfl, rfl, rfl, if_pos rfl, ?_, ?_, ?_⟩
  · intro t ht
    exact if_neg ht
  · intro q hq
    exact if_neg hq
  · simp [hash_find_page, page_init]

theorem page_alloc_outcomes_witness :
    (∀ old, hash_find_page sample_state sample_state.current (pg_round_down 0xbffff123)
        = some old →
      ∃ s1, page_alloc sample_env 0xbffff123 true sample_state = (none, s1) ∧
        s1.page_table = sample_state.page_table ∧ s1.ptes = sample_state.ptes) ∧
    (hash_find_page sample_state sample_state.current (pg_round_down 0xbfffe123) = none →
      sample_env.malloc_pte_ok = true →
      ∃ p s1 e1, page_alloc sample_env 0xbfffe123 false sample_state = (some p, s1) ∧
        sample_state.ptes p = none ∧ s1.ptes p = some e1 ∧
        e1.upage = pg_round_down 0xbfffe123 ∧ e1.writable = false ∧
        e1.thread = sample_state.current ∧
        e1.fte = none ∧ e1.swapped = false ∧ e1.file = none ∧
        e1.accessed = false ∧ e1.dirty = false ∧
        s1.page_table sample_state.current = p :: sample_state.page_table sample_state.current ∧
        (∀ t, t ≠ sample_state.current → s1.page_table t = sample_state.page_table t) ∧
        (∀ q, q ≠ p → s1.ptes q = sample_state.ptes q) ∧
        hash_find_page s1 s1.current (pg_round_down 0xbfffe123) = some p) :=
  ⟨(page_alloc_outcomes sample_env sample_state 0xbffff123 true rfl (by decide)).1,
   (page_alloc_outcomes sample_env sample_state 0xbfffe123 false rfl (by decide)).2.1⟩

/-- C11, counterexample. On an address whose page has no descriptor,
`page_alloc` returns `NULL` and creates nothing when `malloc` has no memory for
the descriptor record. -/
theorem page_alloc_without_memory :
    hash_find_page sample_fresh sample_fresh.current (pg_round_down 0xbffff000) = none ∧
    page_alloc sample_env_no_pte 0xbffff000 true sample_fresh = (none, sample_fresh) :=
  ⟨rfl, rfl⟩

/-- C12. Zero-fill guarantee: when `page_load` finds or creates a descriptor
that is not in a frame, has no backing file and is not swapped, every
successful load returns that descriptor resident in a frame whose `PGSIZE`
bytes are all zero. -/
theorem page_load_zero_fill (fuel : Nat) (env : Env) (s sg : State) (vaddr p : Nat)
    (e : page_table_entry) (hI : vm_inv s) (h0 : vaddr ≠ 0)
    (hget : page_get env vaddr true s = (some p, sg))
    (hp : sg.ptes p = some e) (hfte : e.fte = none)
    (hsw : e.swapped = false) (hfile : e.file = none) :
    ∀ q s1, page_load fuel env vaddr s = Except.ok (some q, s1) →
      q = p ∧ ∃ e1 f fe, resident s1 p e1 f fe ∧
        ∀ i, i < PGSIZE → s1.mem (fe.kpage + i) = 0 := by
  intro q s1 hload
  have hIg := vm_inv_page_get hI hget
  simp only [page_load, h0, if_false, hget, deref_pte_eq_ok.mpr hp, bind_ok, hfte, ne_eq,
    not_true_eq_false] at hload
  obtain ⟨ra, hfa, hl⟩ := bind_eq_ok hload
  obtain ⟨r, s2⟩ := ra
  obtain ⟨hk1, _, hk3⟩ := frame_alloc_keeps hIg hfa
  obtain ⟨a, hp2⟩ := hk1 p e hp hfte
  cases r with
  | none => simp [page_load_frame] at hl
  | some f =>
    obtain ⟨k, hf2⟩ := hk3 f rfl
    have hl' : page_load_frame env p (some f) s2 = Except.ok (some q, s1) := hl
    rw [page_load_frame_eq env hp2 hf2 rfl] at hl'
    have hres4 : resident
        (set_fte (set_pte s2 p { e with accessed := a, fte := some f }) f
          ⟨k, s2.current, p, some s2.current⟩)
        p { e with accessed := a, fte := some f } f ⟨k, s2.current, p, some s2.current⟩ :=
      ⟨if_pos rfl, rfl, if_pos rfl, rfl⟩
    obtain ⟨s5, h5, hs5⟩ := exists_state_eq (page_read_anonymous hres4 rfl hsw hfile)
    rw [h5, bind_ok] at hl'
    simp only [Bool.not_true, Bool.false_eq_true, if_false] at hl'
    have p5 : s5.ptes p = some { e with accessed := a, fte := some f } := by
      rw [hs5]; exact if_pos rfl
    have f5 : s5.ftes f = some ⟨k, s2.current, p, some s2.current⟩ := by
      rw [hs5]; exact if_pos rfl
    have c5 : s5.current = s2.current := by rw [hs5]; rfl
    have l5 : (⟨k, s2.current, p, some s2.current⟩ : frame_table_entry).lock
        = some s5.current := by rw [c5]
    have m5 : ∀ i, i < PGSIZE → s5.mem (k + i) = 0 := by
      intro i hi
      rw [hs5]
      have hr : k ≤ k + i ∧ k + i < k + PGSIZE := by omega
      simp only [memset, hr, and_self, if_true]
    by_cases hinst : env.install_ok = true ∧
        s5.pagedir s5.current ({ e with accessed := a, fte := some f } : page_table_entry).upage
          = none
    · rw [page_load_install_ok p5 f5 l5 hinst.2 hinst.1] at hl'
      simp only [Except.ok.injEq, Prod.mk.injEq, Option.some.injEq] at hl'
      obtain ⟨hqp, hs1⟩ := hl'
      refine ⟨hqp.symm, { e with accessed := true, fte := some f }, f,
        ⟨k, s2.current, p, none⟩, ?_, ?_⟩
      · rw [← hs1]
        exact ⟨if_pos rfl, rfl, if_pos rfl, rfl⟩
      · intro i hi
        rw [← hs1]
        exact m5 i hi
    · have hfail : env.install_ok = false ∨
          s5.pagedir s5.current ({ e with accessed := a, fte := some f } : page_table_entry).upage
            ≠ none := by
        by_cases h1 : env.install_ok = true
        · exact Or.inr (fun h2 => hinst ⟨h1, h2⟩)
        · exact Or.inl (by simpa using h1)
      rw [page_load_install_fail p5 f5 hfail] at hl'
      exact (page_load_unwind_none hl').elim

theorem page_load_zero_fill_witness :
    ∃ s1, page_load 2 sample_env 0xbfffffe0 sample_fresh = Except.ok (some 10, s1) ∧
      ∃ e1 f fe, resident s1 10 e1 f fe ∧ ∀ i, i < PGSIZE → s1.mem (fe.kpage + i) = 0 :=
  ⟨sample_loaded, rfl,
    (page_load_zero_fill 2 sample_env sample_fresh
      (page_get sample_env 0xbfffffe0 true sample_fresh).2 0xbfffffe0 10
      { page_init 1 with upage := 0xbffff000, writable := true }
      ⟨fun p e he => by simp [sample_fresh] at he, fun p e f he => by simp [sample_fresh] at he,
        fun f _ => rfl⟩
      (by decide) rfl rfl rfl rfl rfl 10 sample_loaded rfl).2⟩

/-- C13, the defect. With eight resident pages (the recorded size is taken at
this first invocation, so the gap is `8 / HAND_SPREAD = 2`) and the page of the
first entry accessed, the loop of `frame_victim` runs twice: at the start of
the first iteration the trailing hand is two entries behind the leading hand
(entries 0 and 2 of the table), at the start of the second it is one entry
behind (entries 2 and 3): the statement `fte_2 = fte_1` has moved the trailing
hand by two entries. -/
theorem frame_victim_trailing_hand_jumps :
    sample_eight.frame_table = [20, 21, 22, 23, 24, 25, 26, 27] ∧
    sample_eight.frame_table_size = -1 ∧
    frame_victim_hands 2 sample_eight
      = Except.ok [(fte_ref.entry 22, fte_ref.entry 20), (fte_ref.entry 23, fte_ref.entry 22)] ∧
    hands_apart sample_eight.frame_table (8 / HAND_SPREAD) (fte_ref.entry 22, fte_ref.entry 20) ∧
    ¬hands_apart sample_eight.frame_table (8 / HAND_SPREAD)
        (fte_ref.entry 23, fte_ref.entry 22) ∧
    hands_apart sample_eight.frame_table 1 (fte_ref.entry 23, fte_ref.entry 22) ∧
    ∃ s1, frame_victim 2 sample_eight = Except.ok (32, s1) :=
  ⟨rfl, rfl, rfl, by decide, by decide, by decide, _, rfl⟩

/-- C14. Victim selection always finds a victim: on a non-empty frame table of
live entries whose size is the recorded `frame_table_size`, whatever the
accessed flags, `frame_victim` returns (within two iterations of its loop, not
through `PANIC`) a descriptor that backs an entry of the frame table and whose
accessed flag is unset on return. -/
theorem frame_victim_always_finds (fuel : Nat) (s : State) (f0 : Nat) (rest : List Nat)
    (htable : s.frame_table = f0 :: rest) (hvalid : frame_table_valid s)
    (hlock : s.frame_table_lock = none) (hlen : s.frame_table.length < 2 ^ 31)
    (hsize : s.frame_table_size = -1 ∨ s.frame_table_size = (s.frame_table.length : Int)) :
    ∃ v s1 f fe e, frame_victim (fuel + 2) s = Except.ok (v, s1) ∧
      f ∈ s1.frame_table ∧ s1.ftes f = some fe ∧ fe.pte = v ∧
      s1.ptes v = some e ∧ e.accessed = false ∧ s1.frame_table = s.frame_table := by
  obtain ⟨v, s1, f, fe, e, h1, h2, h3, h4, h5, h6, h7, _⟩ :=
    frame_victim_finds fuel htable hvalid hlock hlen hsize
  exact ⟨v, s1, f, fe, e, h1, h2, h3, h4, h5, h6, h7⟩

theorem frame_victim_always_finds_witness :
    ∃ v s1 f fe e, frame_victim (0 + 2) sample_eight = Except.ok (v, s1) ∧
      f ∈ s1.frame_table ∧ s1.ftes f = some fe ∧ fe.pte = v ∧
      s1.ptes v = some e ∧ e.accessed = false ∧ s1.frame_table = sample_eight.frame_table :=
  frame_victim_always_finds 0 sample_eight 20 [21, 22, 23, 24, 25, 26, 27] rfl sample_eight_valid
    rfl (by decide) (Or.inl rfl)

/-- C16, as amended. A failed fault and swapped content: for a descriptor that
is swapped, not in a frame, with its slot marked occupied before `page_load`:
when `frame_alloc` returns `NULL`, `page_load` returns `NULL` and the descriptor
is still swapped with the same sector, its slot still marked occupied; when
`frame_alloc` returns an entry and `page_load` returns `NULL` all the same (the
page could not be installed), `swap_read` has run: the descriptor is no longer
swapped, its sector is `-1` and its slot is marked free. -/
theorem page_load_failure_and_swap (fuel : Nat) (env : Env) (s sg : State) (vaddr p : Nat)
    (e : page_table_entry) (hI : vm_inv s) (h0 : vaddr ≠ 0)
    (hget : page_get env vaddr true s = (some p, sg))
    (hp : sg.ptes p = some e) (hfte : e.fte = none) (hsw : e.swapped = true)
    (hocc : sg.swap_map[slot_of e]? = some true) :
    (∀ s2, frame_alloc fuel env p sg = Except.ok (none, s2) →
      page_load fuel env vaddr s = Except.ok (none, s2) ∧
      ∃ e2, s2.ptes p = some e2 ∧ e2.swapped = true ∧ e2.sector = e.sector ∧ e2.fte = none ∧
        s2.swap_map[slot_of e]? = some true) ∧
    (∀ f s2 s3, frame_alloc fuel env p sg = Except.ok (some f, s2) →
      page_load fuel env vaddr s = Except.ok (none, s3) →
      ∃ e3, s3.ptes p = some e3 ∧ e3.swapped = false ∧ e3.sector = -1 ∧ e3.fte = none ∧
        s3.swap_map[slot_of e]? = some false) := by
  have hIg := vm_inv_page_get hI hget
  have hload : page_load fuel env vaddr s
      = (frame_alloc fuel env p sg >>= fun r => page_load_frame env p r.1 r.2) := by
    simp only [page_load, h0, if_false, hget, deref_pte_eq_ok.mpr hp, bind_ok, hfte, ne_eq,
      not_true_eq_false]
  refine ⟨?_, ?_⟩
  · intro s2 hfa
    obtain ⟨hk1, hk2, _⟩ := frame_alloc_keeps hIg hfa
    obtain ⟨a, hp2⟩ := hk1 p e hp hfte
    refine ⟨?_, _, hp2, hsw, rfl, hfte, hk2 _ hocc⟩
    rw [hload, hfa]
    rfl
  · intro f s2 s3 hfa hl
    obtain ⟨hk1, _, hk3⟩ := frame_alloc_keeps hIg hfa
    obtain ⟨a, hp2⟩ := hk1 p e hp hfte
    obtain ⟨k, hf2⟩ := hk3 f rfl
    rw [hload, hfa, bind_ok] at hl
    have hl' : page_load_frame env p (some f) s2 = Except.ok (none, s3) := hl
    rw [page_load_frame_eq env hp2 hf2 rfl] at hl'
    obtain ⟨rd, hread, hl'⟩ := bind_eq_ok hl'
    obtain ⟨b, s5⟩ := rd
    obtain ⟨er, fr, fer, hper, hfr, hfer, _, hcase⟩ := page_read_inv hread
    simp only [set_fte, set_pte, if_true, Option.some.injEq] at hper
    subst hper
    simp only [Option.some.injEq] at hfr
    subst hfr
    rcases hcase with ⟨_, hb, hsr⟩ | ⟨hns, _⟩
    · subst hb
      obtain ⟨f1, fe1, e1, hf1, hfe1, he1, _, _, hslot, hs5⟩ := swap_read_inv hsr
      simp only [Option.some.injEq] at hf1
      subst hf1
      simp only [set_fte, set_pte, if_true, Option.some.injEq] at hfe1
      subst hfe1
      simp only [set_fte, set_pte, if_true, Option.some.injEq] at he1
      subst he1
      rw [swap_read_loop_eq] at hs5
      have hslot' : slot_of e < s2.swap_map.length := hslot
      have p5 : s5.ptes p
          = some { e with accessed := a, fte := some f, swapped := false, sector := -1 } := by
        rw [hs5]; exact if_pos rfl
      have m5 : s5.swap_map = s2.swap_map.set (slot_of e) false := by
        rw [hs5]; rfl
      have f5 : s5.ftes f = some ⟨k, s2.current, p, some s2.current⟩ := by
        rw [hs5]; exact if_pos rfl
      simp only [Bool.not_true, Bool.false_eq_true, if_false] at hl'
      -- the installation has failed
      unfold page_load_install at hl'
      rw [deref_pte_eq_ok.mpr p5, bind_ok, deref_fte_eq_ok.mpr f5, bind_ok] at hl'
      dsimp only at hl'
      split at hl'
      · rename_i hi
        have hi' := install_page_fail (by simpa using hi)
        rw [hi'] at hl'
        obtain ⟨_, feu, eu, _, _, _, hpu, hs3⟩ := page_load_unwind_inv hl'
        rw [p5] at hpu
        simp only [Option.some.injEq] at hpu
        subst hpu
        refine ⟨_, by rw [hs3]; exact if_pos rfl, rfl, rfl, rfl, ?_⟩
        rw [hs3]
        show s5.swap_map[slot_of e]? = some false
        rw [m5]
        simp [List.getElem?_set, hslot']
      · obtain ⟨sa, _, hl'⟩ := bind_eq_ok hl'
        obtain ⟨ea, _, hl'⟩ := bind_eq_ok hl'
        simp at hl'
    · have : e.swapped = false := hns
      rw [hsw] at this
      exact Bool.noConfusion this

theorem page_load_failure_and_swap_witness :
    ∃ s2, page_load 2 sample_env_no_fte 0xbffff123 sample_evicted = Except.ok (none, s2) ∧
      ∃ e2, s2.ptes 10 = some e2 ∧ e2.swapped = true ∧ e2.sector = 8 ∧ e2.fte = none ∧
        s2.swap_map[1]? = some true :=
  ⟨(state_of (frame_alloc 2 sample_env_no_fte 10 sample_evicted) sample_evicted),
    (page_load_failure_and_swap 2 sample_env_no_fte sample_evicted sample_evicted 0xbffff123 10
      { sample_loaded_pte with dirty := true, swapped := true, sector := 8, fte := none }
      (reachable_vm_inv sample_evicted_reachable) (by decide) rfl rfl rfl rfl (by decide)).1
      _ rfl⟩

/-- C16, counterexample. The stack page swapped out in slot 1 is faulted on
while `install_page` fails: `page_load` returns `NULL`, and afterwards the
descriptor is not swapped, its sector is `-1` and slot 1 is marked free; the
frame that received the content is back in the allocator's pool. -/
theorem swapped_page_lost_on_failed_install :
    ∃ e s1 e1, sample_evicted.ptes 10 = some e ∧ e.swapped = true ∧ e.sector = 8 ∧
      e.fte = none ∧ slot_of e = 1 ∧ sample_evicted.swap_map[1]? = some true ∧
      page_load 2 sample_env_no_install 0xbffff123 sample_evicted = Except.ok (none, s1) ∧
      s1.ptes 10 = some e1 ∧ e1.swapped = false ∧ e1.sector = -1 ∧ e1.fte = none ∧
      s1.swap_map[1]? = some false ∧ 0xc0100000 ∈ s1.free_frames :=
  ⟨_, _, _, rfl, rfl, rfl, rfl, by decide, rfl, rfl, rfl, rfl, rfl, rfl, rfl, by decide⟩

/-- C17. Eviction of a clean page touches no backing store: for a resident
descriptor whose dirty flag is unset and whose page the page directory reports
as not dirty, `page_evict` leaves the swap occupancy table, the swap sectors,
the files and the descriptor's `swapped`, `sector` and `mapped` fields
unchanged; it invalidates the mapping of the page, removes the frame entry from
the frame table and clears the descriptor's frame reference. -/
theorem page_evict_clean_page (fuel : Nat) (s : State) (p f : Nat)
    (e : page_table_entry) (fe : frame_table_entry)
    (hres : resident s p e f fe) (hl : fe.lock = none) (ht : s.frame_table_lock = none)
    (hok : frame_table_ok s)
    (hd : e.dirty = false) (hpd : pagedir_is_dirty s e.thread e.upage = false) :
    ∃ s1 e1, page_evict fuel (some p) s = Except.ok s1 ∧
      s1.swap_map = s.swap_map ∧ s1.swap_block = s.swap_block ∧
      s1.file_data = s.file_data ∧ s1.file_len = s.file_len ∧
      s1.ptes p = some e1 ∧ e1.swapped = e.swapped ∧ e1.sector = e.sector ∧
      e1.mapped = e.mapped ∧ e1.fte = none ∧
      s1.pagedir e.thread e.upage = none ∧
      f ∉ s1.frame_table ∧ s1.ftes f = none ∧
      (∀ g ∈ s1.frame_table, frame_key s1 g ≠ some fe.kpage) ∧
      fe.kpage ∈ s1.free_frames := by
  have hkey : frame_key s f = some fe.kpage := by simp [frame_key, hres.2.2.1]
  have herase := frame_table_erase_key hok fe.kpage
  have hnotin : f ∉ s.frame_table.eraseP (fun g => frame_key s g == some fe.kpage) :=
    fun hin => herase f hin hkey
  refine ⟨_, _, page_evict_clean fuel hres hl ht hd hpd, rfl, rfl, rfl, rfl, if_pos rfl, rfl, rfl,
    rfl, rfl, by simp, hnotin, by simp, ?_, List.mem_cons_self _ _⟩
  intro g hg
  have hgf : g ≠ f := fun h => hnotin (h ▸ hg)
  have : frame_key { s with ftes := fun g => if g = f then none else s.ftes g } g
      = frame_key s g := by simp [frame_key, hgf]
  simp only [frame_key] at this ⊢
  rw [this]
  exact herase g hg

theorem page_evict_clean_page_witness :
    ∃ s1 e1, page_evict 2 (some 3) sample_clean = Except.ok s1 ∧
      s1.swap_map = sample_clean.swap_map ∧ s1.swap_block = sample_clean.swap_block ∧
      s1.file_data = sample_clean.file_data ∧ s1.file_len = sample_clean.file_len ∧
      s1.ptes 3 = some e1 ∧ e1.swapped = false ∧ e1.sector = -1 ∧
      e1.mapped = false ∧ e1.fte = none ∧
      s1.pagedir 1 0xbffff000 = none ∧
      7 ∉ s1.frame_table ∧ s1.ftes 7 = none ∧
      (∀ g ∈ s1.frame_table, frame_key s1 g ≠ some 0xc0100000) ∧
      0xc0100000 ∈ s1.free_frames :=
  page_evict_clean_page 2 sample_clean 3 7 { sample_pte with dirty := false } sample_fte
    ⟨rfl, rfl, rfl, rfl⟩ rfl rfl (by decide) rfl rfl

/-- C18. Lock and slot preconditions are always met: from a state in which the
running context holds no lock of the frame table and the sector of every
swapped descriptor is the first sector of a slot, neither `page_load` nor
`page_evict` fails an assertion (those of `page_read`, `page_write`,
`swap_read`, `swap_write` and `frame_free` included: lock held, frame reference
present, `sector != -1`), and when they return, as when `page_alloc` returns,
the state satisfies the same conditions again. -/
theorem assertions_hold (s : State) (hI : assert_inv s) (fuel : Nat) (env : Env)
    (vaddr : Nat) (pte : Option Nat) :
    page_load fuel env vaddr s ≠ Except.error Fault.assertion ∧
    page_evict fuel pte s ≠ Except.error Fault.assertion ∧
    (∀ r s1, page_load fuel env vaddr s = Except.ok (r, s1) → assert_inv s1) ∧
    (∀ s1, page_evict fuel pte s = Except.ok s1 → assert_inv s1) ∧
    (∀ w r s1, page_alloc env vaddr w s = (r, s1) → assert_inv s1) := by
  have hl := page_load_safe fuel env vaddr hI
  have he := page_evict_safe fuel pte hI
  refine ⟨safe_post_ne hl, safe_post_ne he, ?_, ?_, ?_⟩
  · intro r s1 h
    exact safe_post_result (Q := fun r => assert_inv r.2) hl h
  · intro s1 h
    exact safe_post_result he h
  · intro w r s1 h
    exact assert_inv_page_alloc hI h

theorem assertions_hold_witness :
    page_load 2 sample_env 0xbfffe123 sample_state ≠ Except.error Fault.assertion ∧
    page_evict 2 (some 3) sample_state ≠ Except.error Fault.assertion ∧
    (∀ r s1, page_load 2 sample_env 0xbfffe123 sample_state = Except.ok (r, s1) →
      assert_inv s1) ∧
    (∀ s1, page_evict 2 (some 3) sample_state = Except.ok s1 → assert_inv s1) ∧
    (∀ w r s1, page_alloc sample_env 0xbfffe123 w sample_state = (r, s1) → assert_inv s1) :=
  assertions_hold sample_state sample_state_assert_inv 2 sample_env 0xbfffe123 (some 3)

end Pintos
